import Mathlib

/-!
# Federated ingress DNS controller

A shallow embedding of the DNS reconciliation engine of the federated ingress
controller (`pkg/controller/util/dns.go` and `pkg/controller/ingress/dns/dns.go`)
together with the properties established about it.

Conventions of the embedding:

* A Go `error` result is an `Option String` (`none` is `nil`); a call that can
  also abort with a run-time panic returns an `Outcome`.
* Mutable provider state is passed explicitly: a call that may mutate the DNS
  provider takes the provider state and returns the state it leaves behind.
* Code that lives outside the repository (the `dnsprovider` interfaces, `net`,
  `encoding/json`, the federation client) is taken as a parameter: the record
  types below carry those functions as fields.
* A Go `map` that the code only ranges over is an association list; the order
  of the list is the (unspecified) iteration order.
-/

namespace FedIngress

/-! ## Go values -/

/-- Result of a Go call that returns a value, returns a non-nil `error`, or
aborts with a run-time panic (nil dereference, index out of range). -/
inductive Outcome (α : Type) where
  | ok (v : α)
  | err (e : String)
  | panic (msg : String)
deriving DecidableEq, Repr

/-- Byte-wise order of Go strings, as used by `sort.Strings` (on valid UTF-8
it is the lexicographic order of the code points). -/
def strLE (a b : String) : Prop := a.data ≤ b.data

instance strLE.decidable : DecidableRel strLE :=
  fun a b => inferInstanceAs (Decidable (a.data ≤ b.data))

instance strLE.isTotal : IsTotal String strLE :=
  ⟨fun a b => le_total a.data b.data⟩

instance strLE.isTrans : IsTrans String strLE :=
  ⟨fun a b c => @le_trans _ _ a.data b.data c.data⟩

instance strLE.isAntisymm : IsAntisymm String strLE :=
  ⟨fun _ _ h1 h2 => String.ext (le_antisymm h1 h2)⟩

/-! ## `k8s.io/apimachinery/pkg/util/sets`: `sets.String` -/

/-- The type `sets.String`, a set of strings, kept as the duplicate-free list of its keys. -/
abbrev StringSet := List String

/-- The method `Union` of `sets.String`: a set holding the keys of both. -/
def StringSet.Union (s1 s2 : StringSet) : StringSet := s1 ∪ s2

/-- The method `List` of `sets.String`: the keys as a sorted slice. -/
def StringSet.List (s : StringSet) : List String := s.insertionSort strLE

/-! ## The `dnsprovider` interfaces -/

/-- The record types of `rrstype`, a string type in Go. -/
abbrev RrsType := String

/-- The constant `rrstype.A`. -/
def rrstype.A : RrsType := "A"

/-- The constant `rrstype.CNAME`. -/
def rrstype.CNAME : RrsType := "CNAME"

/-- One queued operation of a `dnsprovider.ResourceRecordChangeset`. -/
inductive Change (ρ : Type) where
  | add (rrset : ρ)
  | remove (rrset : ρ)
deriving DecidableEq, Repr

/-- The interface `dnsprovider.ResourceRecordSets` of one zone, together with the
accessors of the `dnsprovider.ResourceRecordSet` values it hands out.
`σ` is the state of the provider backend and `ρ` the type of record-set values.
A changeset is the list of its queued operations in the order they were queued;
`Apply` returns the error of `ResourceRecordChangeset.Apply` and the state the
backend is left in. -/
structure ResourceRecordSets (σ ρ : Type) where
  Get : σ → String → Except String (List ρ)
  New : String → List String → Int → RrsType → ρ
  Apply : σ → List (Change ρ) → Option String × σ
  Name : ρ → String
  Rrdatas : ρ → List String
  Ttl : ρ → Int
  RrsType : ρ → RrsType

/-- The interface `dnsprovider.Zone`: `ResourceRecordSets()` returns the record
sets interface and whether it is supported. -/
structure Zone (σ ρ : Type) where
  rrsets : ResourceRecordSets σ ρ
  supported : Bool

/-! ## `pkg/controller/util/dns.go` -/

/-- The constant `minDNSTTL`: the TTL used for all DNS records. -/
def minDNSTTL : Int := 180

/-- The struct `AbstractDNSController`. The Go struct has no field; the receiver of
the model carries the library functions that its methods call:
`net.ParseIP` (as the test `net.ParseIP(x) != nil`), `net.LookupHost` and
`dnsprovider.ResourceRecordSetsEquivalent`. -/
structure AbstractDNSController (ρ : Type) where
  ParseIP : String → Bool
  LookupHost : String → Except String (List String)
  ResourceRecordSetsEquivalent : ρ → ρ → Bool

/-- The loop of `GetResolvedEndpoints` over the endpoints still to visit, with the
set `resolvedEndpoints` built so far. -/
def GetResolvedEndpoints.loop {ρ : Type} (s : AbstractDNSController ρ) :
    List String → StringSet → List String × Option String
  | [], resolvedEndpoints => (resolvedEndpoints.List, none)
  | endpoint :: rest, resolvedEndpoints =>
    if s.ParseIP endpoint = false then
      match s.LookupHost endpoint with
      | .error err => (resolvedEndpoints.List, some err)
      | .ok ipAddrs =>
        GetResolvedEndpoints.loop s rest
          (ipAddrs.foldl (fun acc ip => acc.Union [ip]) resolvedEndpoints)
    else
      GetResolvedEndpoints.loop s rest (resolvedEndpoints.Union [endpoint])

/-- The method `GetResolvedEndpoints`: resolve the endpoints that are DNS names and
return the sorted list of the distinct addresses, with the error of the first
name that did not resolve. -/
def GetResolvedEndpoints {ρ : Type} (s : AbstractDNSController ρ) (endpoints : List String) :
    List String × Option String :=
  GetResolvedEndpoints.loop s endpoints []

/-- The method `GetRrset`: the record sets matching `dnsName`. -/
def GetRrset {σ ρ : Type} (_s : AbstractDNSController ρ) (dnsName : String)
    (rrsetsInterface : ResourceRecordSets σ ρ) (st : σ) : Except String (List ρ) :=
  rrsetsInterface.Get st dnsName

/-- The method `findRrset`: the first element of `list` that has as many data entries as
`rrset` and is equivalent to it, if any. -/
def findRrset {σ ρ : Type} (s : AbstractDNSController ρ) (rrsets : ResourceRecordSets σ ρ) :
    List ρ → ρ → Option ρ
  | [], _ => none
  | elem :: rest, rrset =>
    if (rrsets.Rrdatas elem).length ≠ (rrsets.Rrdatas rrset).length then
      findRrset s rrsets rest rrset
    else if s.ResourceRecordSetsEquivalent rrset elem then
      some elem
    else
      findRrset s rrsets rest rrset

/-- The loop `for i := range rrsetList { changeSet = changeSet.Remove(rrsetList[i]) }`. -/
def removeAll {ρ : Type} (rrsetList : List ρ) (changeSet : List (Change ρ)) : List (Change ρ) :=
  rrsetList.foldl (fun cs r => cs ++ [Change.remove r]) changeSet

/-- The method `EnsureDNSRrsets`: make the record sets of `dnsName` consistent with
`endpoints`; with no endpoint, ensure a CNAME record to `uplevelCname`.
Returns the error (or `none` for `nil`) and the provider state after the call. -/
def EnsureDNSRrsets {σ ρ : Type} (s : AbstractDNSController ρ) (dnsZone : Zone σ ρ) (st : σ)
    (dnsName : String) (endpoints : List String) (uplevelCname : String) : Option String × σ :=
  let rrsets := dnsZone.rrsets
  if dnsZone.supported = false then
    (some ("Failed to ensure DNS records for " ++ dnsName ++
      ". DNS provider does not support the ResourceRecordSets interface"), st)
  else
    match GetRrset s dnsName rrsets st with
    | .error err => (some err, st)
    | .ok rrsetList =>
      if rrsetList.length = 0 then
        if endpoints.length < 1 then
          if uplevelCname ≠ "" then
            let newRrset := rrsets.New dnsName [uplevelCname] minDNSTTL rrstype.CNAME
            rrsets.Apply st [Change.add newRrset]
          else
            (none, st)
        else
          match GetResolvedEndpoints s endpoints with
          | (_, some err) => (some err, st)
          | (resolvedEndpoints, none) =>
            let newRrset := rrsets.New dnsName resolvedEndpoints minDNSTTL rrstype.A
            rrsets.Apply st [Change.add newRrset]
      else
        if endpoints.length < 1 then
          let newRrset := rrsets.New dnsName [uplevelCname] minDNSTTL rrstype.CNAME
          match findRrset s rrsets rrsetList newRrset with
          | some _ => (none, st)
          | none =>
            let changeSet := removeAll rrsetList []
            if uplevelCname ≠ "" then
              rrsets.Apply st (changeSet ++ [Change.add newRrset])
            else
              rrsets.Apply st changeSet
        else
          match GetResolvedEndpoints s endpoints with
          | (_, some err) => (some err, st)
          | (resolvedEndpoints, none) =>
            let newRrset := rrsets.New dnsName resolvedEndpoints minDNSTTL rrstype.A
            match findRrset s rrsets rrsetList newRrset with
            | some _ => (none, st)
            | none =>
              let changeSet := removeAll rrsetList []
              rrsets.Apply st (changeSet ++ [Change.add newRrset])

/-! ## Kubernetes API values read by the controller -/

/-- The struct `v1.LoadBalancerIngress`: one load-balancer entry. -/
structure LoadBalancerIngress where
  IP : String
  Hostname : String
deriving DecidableEq, Repr

/-- The struct `v1.LoadBalancerStatus`. -/
structure LoadBalancerStatus where
  Ingress : List LoadBalancerIngress
deriving DecidableEq, Repr

/-- The fields of `extensionsv1beta1.Ingress` the controller reads. `Annotations` is
`none` for a nil map; `DeletionTimestamp` is `none` for a nil pointer. -/
structure Ingress where
  Name : String
  Namespace : String
  DeletionTimestamp : Option Nat
  Annotations : Option (List (String × String))
  Status : LoadBalancerStatus
deriving DecidableEq, Repr

/-- The fields `Status.Zones` and `Status.Region` of a federation cluster. `Zones` is
`none` for a nil slice. -/
structure Cluster where
  Zones : Option (List String)
  Region : String
deriving DecidableEq, Repr

/-- The elements a `range` over a slice visits: none for a nil slice. -/
def sliceElems {α : Type} : Option (List α) → List α
  | none => []
  | some xs => xs

/-- The status map `map[string][]v1.LoadBalancerStatus`, in iteration order. -/
abbrev GlobalLbStat := List (String × List LoadBalancerStatus)

/-! ## `pkg/controller/ingress/dns/dns.go` -/

/-- The constant `defaultIngressSeperator`. -/
def defaultIngressSeperator : String := "ing"

/-- The constant `globalIngressLBStatus`: key of the status annotation. -/
def globalIngressLBStatus : String := "kubernetes.io/ingress.global-ingress-lb-status"

/-- The struct `IngressDNSController`, with the fields the reconciliation reads.
`toAbstract` is the embedded `AbstractDNSController`; `getCluster` is the call
`federationClient.Federation().Clusters().Get(name, ...)`; `jsonUnmarshal` is
`json.Unmarshal` into a fresh status map: the map as it was filled and the error. -/
structure IngressDNSController (σ ρ : Type) where
  toAbstract : AbstractDNSController ρ
  domain : String
  getCluster : String → Except String Cluster
  federationName : String
  ingressDNSSuffix : String
  dnsZone : Zone σ ρ
  jsonUnmarshal : String → GlobalLbStat × Option String

/-- The method `getClusterZoneNames`: zones and region of the named cluster. -/
def getClusterZoneNames {σ ρ : Type} (idc : IngressDNSController σ ρ) (clusterName : String) :
    Except String (Option (List String) × String) :=
  match idc.getCluster clusterName with
  | .error err => .error err
  | .ok cluster => .ok (cluster.Zones, cluster.Region)

/-- The method `parseGlobalLbStatusAnnotation`: pointer to the decoded status map
(`none` for a nil pointer) and error. -/
def parseGlobalLbStatusAnnotation {σ ρ : Type} (idc : IngressDNSController σ ρ)
    (ingress : Ingress) : Option GlobalLbStat × Option String :=
  match ingress.Annotations with
  | none => (none, none)
  | some annotations =>
    match annotations.lookup globalIngressLBStatus with
    | none => (none, none)
    | some globalLbStatString =>
      match idc.jsonUnmarshal globalLbStatString with
      | (globalLbStat, some err) => (some globalLbStat, some err)
      | (globalLbStat, none) => (some globalLbStat, none)

/-- The address of a load-balancer entry: the IP when there is one, else the hostname
(empty when neither is set). -/
def lbAddress (lbIngress : LoadBalancerIngress) : String :=
  if lbIngress.IP ≠ "" then lbIngress.IP
  else if lbIngress.Hostname ≠ "" then lbIngress.Hostname
  else ""

/-- The two nested loops over `lbZoneNames` and `zoneNames` of `getHealthyEndpoints`:
`address` is appended once for every pair of equal names. -/
def appendZoneMatches (lbZoneNames zoneNames : List String) (address : String)
    (zoneEndpoints : List String) : List String :=
  lbZoneNames.foldl
    (fun acc lbZoneName =>
      zoneNames.foldl
        (fun acc2 zoneName => if lbZoneName = zoneName then acc2 ++ [address] else acc2) acc)
    zoneEndpoints

/-- The zone-level, region-level and global-level endpoints collected so far. -/
abbrev EndpointLists := List String × List String × List String

/-- The loop of `getHealthyEndpoints` over the entries `lbStatus.Ingress` of one status. -/
def getHealthyEndpoints.ingressLoop (errMsg : String) (zoneNames : List String)
    (regionName : String) (lbZoneNames : List String) (lbRegionName : String) :
    List LoadBalancerIngress → EndpointLists → Except String EndpointLists
  | [], acc => .ok acc
  | lbIngress :: rest, (zoneEndpoints, regionEndpoints, globalEndpoints) =>
    let address := lbAddress lbIngress
    if address.length ≤ 0 then
      .error errMsg
    else
      getHealthyEndpoints.ingressLoop errMsg zoneNames regionName lbZoneNames lbRegionName rest
        (appendZoneMatches lbZoneNames zoneNames address zoneEndpoints,
         (if lbRegionName = regionName then regionEndpoints ++ [address] else regionEndpoints),
         globalEndpoints ++ [address])

/-- The loop of `getHealthyEndpoints` over the statuses `lbStatuses` of one cluster. -/
def getHealthyEndpoints.statusLoop (errMsg : String) (zoneNames : List String)
    (regionName : String) (lbZoneNames : List String) (lbRegionName : String) :
    List LoadBalancerStatus → EndpointLists → Except String EndpointLists
  | [], acc => .ok acc
  | lbStatus :: rest, acc =>
    match getHealthyEndpoints.ingressLoop errMsg zoneNames regionName lbZoneNames lbRegionName
        lbStatus.Ingress acc with
    | .error err => .error err
    | .ok acc2 =>
      getHealthyEndpoints.statusLoop errMsg zoneNames regionName lbZoneNames lbRegionName rest acc2

/-- The loop of `getHealthyEndpoints` over the clusters of the status map. -/
def getHealthyEndpoints.clusterLoop {σ ρ : Type} (idc : IngressDNSController σ ρ)
    (errMsg : String) (zoneNames : List String) (regionName : String) :
    GlobalLbStat → EndpointLists → Except String EndpointLists
  | [], acc => .ok acc
  | (lbClusterName, lbStatuses) :: rest, acc =>
    match getClusterZoneNames idc lbClusterName with
    | .error err => .error err
    | .ok (lbZoneNames, lbRegionName) =>
      match getHealthyEndpoints.statusLoop errMsg zoneNames regionName (sliceElems lbZoneNames)
          lbRegionName lbStatuses acc with
      | .error err => .error err
      | .ok acc2 => getHealthyEndpoints.clusterLoop idc errMsg zoneNames regionName rest acc2

/-- The method `getHealthyEndpoints`: the addresses of the healthy endpoints of the
ingress at zone, region and global level for the cluster `clusterName`. Ranging over
the status map dereferences the pointer returned by the annotation read, which
panics when that pointer is nil. -/
def getHealthyEndpoints {σ ρ : Type} (idc : IngressDNSController σ ρ) (clusterName : String)
    (ingress : Ingress) : Outcome EndpointLists :=
  match getClusterZoneNames idc clusterName with
  | .error err => .err err
  | .ok (zoneNames, regionName) =>
    if ingress.DeletionTimestamp.isSome then
      .ok ([], [], [])
    else
      match parseGlobalLbStatusAnnotation idc ingress with
      | (_, some err) => .err err
      | (none, none) => .panic "invalid memory address or nil pointer dereference"
      | (some globalIngLbStatuses, none) =>
        let errMsg := "Ingress " ++ ingress.Name ++ "/" ++ ingress.Namespace ++ " in cluster " ++
          clusterName ++ " has neither LoadBalancerStatus.ingress.ip nor " ++
          "LoadBalancerStatus.ingress.hostname. Cannot use it as endpoint for federated Ingress"
        match getHealthyEndpoints.clusterLoop idc errMsg (sliceElems zoneNames) regionName
            globalIngLbStatuses ([], [], []) with
        | .error err => .err err
        | .ok acc => .ok acc

/-- The function `strings.Join`. -/
def stringsJoin (elems : List String) (sep : String) : String := sep.intercalate elems

/-- The type of a reconciliation step for one name: the provider state, `dnsName`,
`endpoints` and `uplevelCname` to the error and the state left behind. -/
abbrev EnsureFn (σ : Type) := σ → String → List String → String → Option String × σ

/-- The loop `for i, endpoint := range endpoints` of `ensureDNSRecords`, from index `i`
on, over a reconciliation step `ensure`. -/
def ensureDNSRecords.loop {σ : Type} (ensure : EnsureFn σ) (dnsNames : List String) :
    Nat → List (List String) → σ → Outcome Unit × σ
  | _, [], st => (.ok (), st)
  | i, endpoint :: rest, st =>
    match ensure st (dnsNames.getD i "") endpoint (dnsNames.getD (i + 1) "") with
    | (some err, st2) => (.err err, st2)
    | (none, st2) => ensureDNSRecords.loop ensure dnsNames (i + 1) rest st2

/-- The value `commonPrefix` of `ensureDNSRecords`. -/
def commonPrefixOf {σ ρ : Type} (idc : IngressDNSController σ ρ) (ingress : Ingress) : String :=
  ingress.Name ++ "." ++ ingress.Namespace ++ "." ++ idc.federationName ++ "." ++
    idc.ingressDNSSuffix

/-- The slice `dnsNames` of `ensureDNSRecords`, the path up the DNS search tree starting
at the leaf, for the first zone name `zoneName0` and the region `regionName` of the
cluster. -/
def dnsNamesOf {σ ρ : Type} (idc : IngressDNSController σ ρ) (ingress : Ingress)
    (zoneName0 regionName : String) : List String :=
  [stringsJoin [ commonPrefixOf idc ingress, zoneName0, regionName, idc.domain] ".",
   stringsJoin [ commonPrefixOf idc ingress, regionName, idc.domain] ".",
   stringsJoin [ commonPrefixOf idc ingress, idc.domain] ".",
   ""]

/-- The body of `ensureDNSRecords` over a reconciliation step `ensure` standing for the
method `EnsureDNSRrsets` of the controller. The first zone name is read, when the names
are built, after the endpoints were computed; reading it from an empty slice panics. -/
def ensureDNSRecordsWith {σ ρ τ : Type} (ensure : EnsureFn τ) (idc : IngressDNSController σ ρ)
    (st : τ) (clusterName : String) (ingress : Ingress) : Outcome Unit × τ :=
  match getClusterZoneNames idc clusterName with
  | .error err => (.err err, st)
  | .ok (zoneNames, regionName) =>
    match zoneNames with
    | none => (.err "failed to get cluster zone names", st)
    | some zoneNamesList =>
      match getHealthyEndpoints idc clusterName ingress with
      | .err err => (.err err, st)
      | .panic msg => (.panic msg, st)
      | .ok (zoneEndpoints, regionEndpoints, globalEndpoints) =>
        match zoneNamesList with
        | [] => (.panic "index out of range [0] with length 0", st)
        | zoneName0 :: _ =>
          let dnsNames := dnsNamesOf idc ingress zoneName0 regionName
          let endpoints := [zoneEndpoints, regionEndpoints, globalEndpoints]
          ensureDNSRecords.loop ensure dnsNames 0 endpoints st

/-- The method `ensureDNSRecords`: reconcile the zone-level, region-level and
global-level names of the ingress for the cluster `clusterName`, in that order.
Returns how the call ended and the provider state it leaves. -/
def ensureDNSRecords {σ ρ : Type} (idc : IngressDNSController σ ρ) (st : σ)
    (clusterName : String) (ingress : Ingress) : Outcome Unit × σ :=
  ensureDNSRecordsWith (EnsureDNSRrsets idc.toAbstract idc.dnsZone) idc st clusterName ingress

/-! ## Record stores -/

/-- A record store behind `rrsets` whose `Get` returns the record sets exactly as they
were added. `records` lists the record sets a state holds. A `Get` that succeeds
returns the stored record sets of that name; an `Apply` that succeeds leaves the
stored record sets that were not queued for removal together with the queued
additions; and the accessors of a record set made by `New` return what it was
made from. Nothing is asked of a `Get` or an `Apply` that fails. -/
structure FaithfulStore {σ ρ : Type} (rrsets : ResourceRecordSets σ ρ) (records : σ → List ρ) :
    Prop where
  get_ok : ∀ st name l, rrsets.Get st name = .ok l →
    l = (records st).filter (fun r => decide (rrsets.Name r = name))
  apply_ok : ∀ st cs st2, rrsets.Apply st cs = (none, st2) →
    ∀ r, r ∈ records st2 ↔ (r ∈ records st ∧ Change.remove r ∉ cs) ∨ Change.add r ∈ cs
  new_Name : ∀ n d t ty, rrsets.Name (rrsets.New n d t ty) = n
  new_Rrdatas : ∀ n d t ty, rrsets.Rrdatas (rrsets.New n d t ty) = d
  new_Ttl : ∀ n d t ty, rrsets.Ttl (rrsets.New n d t ty) = t
  new_RrsType : ∀ n d t ty, rrsets.RrsType (rrsets.New n d t ty) = ty

/-- The changesets applied so far, oldest first. -/
abbrev Journal (ρ : Type) := List (List (Change ρ))

/-- The interface `rrsets` with a journal next to the backend state: every `Apply`
appends its changeset to the journal; `Get` and `New` leave it alone. -/
def ResourceRecordSets.journalled {σ ρ : Type} (rrsets : ResourceRecordSets σ ρ) :
    ResourceRecordSets (σ × Journal ρ) ρ where
  Get := fun st name => rrsets.Get st.1 name
  New := rrsets.New
  Apply := fun st cs => ((rrsets.Apply st.1 cs).1, ((rrsets.Apply st.1 cs).2, st.2 ++ [cs]))
  Name := rrsets.Name
  Rrdatas := rrsets.Rrdatas
  Ttl := rrsets.Ttl
  RrsType := rrsets.RrsType

/-- The zone `zone` with journalled record sets. -/
def Zone.journalled {σ ρ : Type} (zone : Zone σ ρ) : Zone (σ × Journal ρ) ρ where
  rrsets := zone.rrsets.journalled
  supported := zone.supported

/-- One call of the reconciliation step: `dnsName`, `endpoints`, `uplevelCname`. -/
structure EnsureCall where
  dnsName : String
  endpoints : List String
  uplevelCname : String
deriving DecidableEq, Repr

/-- The reconciliation step `ensure` with a log of its calls next to the state: every
call appends its arguments to the log. -/
def EnsureFn.logged {σ : Type} (ensure : EnsureFn σ) : EnsureFn (σ × List EnsureCall) :=
  fun st dnsName endpoints uplevelCname =>
    ((ensure st.1 dnsName endpoints uplevelCname).1,
     ((ensure st.1 dnsName endpoints uplevelCname).2,
      st.2 ++ [EnsureCall.mk dnsName endpoints uplevelCname]))

/-- A record set as plain data: name, data, TTL and type. -/
structure RecordSet where
  name : String
  rrdatas : List String
  ttl : Int
  rrsType : RrsType
deriving DecidableEq, Repr

/-- An in-memory record store: the state is the list of the stored record sets. `Get`
returns the stored sets of the name, `Apply` drops the sets queued for removal and
then appends the queued additions; neither fails. -/
def memRecordSets : ResourceRecordSets (List RecordSet) RecordSet where
  Get := fun st name => .ok (st.filter (fun r => decide (r.name = name)))
  New := fun n d t ty => RecordSet.mk n d t ty
  Apply := fun st cs =>
    (none, st.filter (fun r => decide (Change.remove r ∉ cs)) ++
      cs.filterMap (fun c => match c with
        | Change.add r => some r
        | Change.remove _ => none))
  Name := RecordSet.name
  Rrdatas := RecordSet.rrdatas
  Ttl := RecordSet.ttl
  RrsType := RecordSet.rrsType

/-- The zone of the in-memory record store. -/
def memZone : Zone (List RecordSet) RecordSet where
  rrsets := memRecordSets
  supported := true

/-- The record set that `EnsureDNSRrsets` wants to find under `dnsName`: a CNAME record to
`uplevelCname` when there is no endpoint, else an A record of the resolved endpoints. -/
def desiredRrset {σ ρ : Type} (s : AbstractDNSController ρ) (rrsets : ResourceRecordSets σ ρ)
    (dnsName : String) (endpoints : List String) (uplevelCname : String) : ρ :=
  if endpoints.length < 1 then rrsets.New dnsName [uplevelCname] minDNSTTL rrstype.CNAME
  else rrsets.New dnsName (GetResolvedEndpoints s endpoints).1 minDNSTTL rrstype.A

/-- The set `resolvedEndpoints` after the loop of `GetResolvedEndpoints` has visited
`endpoints`, all of them literal addresses, starting from the set `acc`. -/
def addAll (endpoints : List String) (acc : StringSet) : StringSet :=
  endpoints.foldl (fun a e => a.Union [e]) acc

/-! ## Concrete instances -/

/-- Scan of a dotted-decimal literal: `digits` and `value` describe the field being read,
`dots` counts the separators seen. -/
def isIPv4Literal.scan : List Char → Nat → Nat → Nat → Bool
  | [], digits, value, dots => decide (0 < digits ∧ value ≤ 255 ∧ dots = 3)
  | c :: cs, digits, value, dots =>
    if c = '.' then
      decide (0 < digits ∧ value ≤ 255) && isIPv4Literal.scan cs 0 0 (dots + 1)
    else if c.isDigit then
      decide (digits < 3) && isIPv4Literal.scan cs (digits + 1) (value * 10 + (c.toNat - 48)) dots
    else
      false

/-- Whether a string is a dotted-decimal IPv4 literal: four fields of one to three digits,
each at most 255. It stands for the test `net.ParseIP(x) != nil` in the concrete
instances below, where no IPv6 literal occurs. -/
def isIPv4Literal (x : String) : Bool := isIPv4Literal.scan x.data 0 0 0

/-- Modelled from the spec: `dnsprovider.ResourceRecordSetsEquivalent`, a function of the
dnsprovider library whose source is not among the repository sources. Two record sets
are equivalent when they have the same name, the same type, the same TTL and the same
data, whatever the order of the data entries. -/
def recordSetsEquivalent (r1 r2 : RecordSet) : Bool :=
  decide (r1.name = r2.name) && decide (r1.rrsType = r2.rrsType) && decide (r1.ttl = r2.ttl) &&
    decide (r1.rrdatas.insertionSort strLE = r2.rrdatas.insertionSort strLE)

/-- The library functions of the concrete instances: dotted-decimal literals are the IP
addresses, no host name resolves, and record sets are compared by
`recordSetsEquivalent`. -/
def memController : AbstractDNSController RecordSet where
  ParseIP := isIPv4Literal
  LookupHost := fun host => .error ("lookup " ++ host ++ ": no such host")
  ResourceRecordSetsEquivalent := recordSetsEquivalent

/-- The clusters of `TestServiceController_ensureDnsRecords`: `c1` in zone `foozone` of
region `fooregion` and `c2` in zone `barzone` of region `barregion`. -/
def scenarioClusters (clusterName : String) : Except String Cluster :=
  if clusterName = "c1" then .ok (Cluster.mk (some ["foozone"]) "fooregion")
  else if clusterName = "c2" then .ok (Cluster.mk (some ["barzone"]) "barregion")
  else .error ("cluster not found: " ++ clusterName)

/-- The status of cluster `c1` in the scenario: addresses 198.51.100.1 and 198.51.100.2. -/
def scenarioStatusC1 : String × List LoadBalancerStatus :=
  ("c1", [LoadBalancerStatus.mk
    [LoadBalancerIngress.mk "198.51.100.1" "", LoadBalancerIngress.mk "198.51.100.2" ""]])

/-- The status of cluster `c2` in the scenario: no address. -/
def scenarioStatusC2 : String × List LoadBalancerStatus :=
  ("c2", [LoadBalancerStatus.mk []])

/-- The controller of the scenario over the in-memory store, for library functions `s`
and a JSON decoder `jsonUnmarshal`. -/
def scenarioController (s : AbstractDNSController RecordSet)
    (jsonUnmarshal : String → GlobalLbStat × Option String) :
    IngressDNSController (List RecordSet) RecordSet where
  toAbstract := s
  domain := "federation.example.com"
  getCluster := scenarioClusters
  federationName := "myfederation"
  ingressDNSSuffix := "ing"
  dnsZone := memZone
  jsonUnmarshal := jsonUnmarshal

/-- The ingress `ingname` of namespace `ingns` whose status annotation has the value
`value`. -/
def scenarioIngress (value : String) : Ingress where
  Name := "ingname"
  Namespace := "ingns"
  DeletionTimestamp := none
  Annotations := some [(globalIngressLBStatus, value)]
  Status := LoadBalancerStatus.mk []

/-- The five record sets expected by `TestServiceController_ensureDnsRecords`. -/
def scenarioRecords : List RecordSet :=
  [RecordSet.mk "ingname.ingns.myfederation.ing.federation.example.com"
     ["198.51.100.1", "198.51.100.2"] 180 "A",
   RecordSet.mk "ingname.ingns.myfederation.ing.fooregion.federation.example.com"
     ["198.51.100.1", "198.51.100.2"] 180 "A",
   RecordSet.mk "ingname.ingns.myfederation.ing.foozone.fooregion.federation.example.com"
     ["198.51.100.1", "198.51.100.2"] 180 "A",
   RecordSet.mk "ingname.ingns.myfederation.ing.barregion.federation.example.com"
     ["ingname.ingns.myfederation.ing.federation.example.com"] 180 "CNAME",
   RecordSet.mk "ingname.ingns.myfederation.ing.barzone.barregion.federation.example.com"
     ["ingname.ingns.myfederation.ing.barregion.federation.example.com"] 180 "CNAME"]

/-- The method `ensureDNSRecords` with a log of its calls of `EnsureDNSRrsets` next to the
provider state. -/
def ensureDNSRecordsLogged {σ ρ : Type} (idc : IngressDNSController σ ρ) (st : σ)
    (log : List EnsureCall) (clusterName : String) (ingress : Ingress) :
    Outcome Unit × (σ × List EnsureCall) :=
  ensureDNSRecordsWith (EnsureFn.logged (EnsureDNSRrsets idc.toAbstract idc.dnsZone)) idc
    (st, log) clusterName ingress

/-- A status map in which `c1` lists the address 198.51.100.1 and `c2` lists the host
name `lb.example.net`. -/
def hostNameStatus : GlobalLbStat :=
  [("c1", [LoadBalancerStatus.mk [LoadBalancerIngress.mk "198.51.100.1" ""]]),
   ("c2", [LoadBalancerStatus.mk [LoadBalancerIngress.mk "" "lb.example.net"]])]

/-- A status map in which `c1` lists one entry with neither IP nor host name. -/
def emptyEntryStatus : GlobalLbStat :=
  [("c1", [LoadBalancerStatus.mk [LoadBalancerIngress.mk "" ""]])]

/-- The ingress `ingname` of namespace `ingns` without any annotation. -/
def bareIngress : Ingress where
  Name := "ingname"
  Namespace := "ingns"
  DeletionTimestamp := none
  Annotations := none
  Status := LoadBalancerStatus.mk [LoadBalancerIngress.mk "198.51.100.1" ""]

/-- The ingress `ingname` of namespace `ingns` with a deletion timestamp and a status
annotation of value `value`. -/
def deletedIngress (value : String) : Ingress where
  Name := "ingname"
  Namespace := "ingns"
  DeletionTimestamp := some 1
  Annotations := some [(globalIngressLBStatus, value)]
  Status := LoadBalancerStatus.mk []

/-! ## Start-up and worker of the controller -/

/-- The built-in `len` of a Go string: its length in bytes. -/
def goLen (x : String) : Nat := x.utf8ByteSize

/-- The function `strings.TrimSuffix`: `x` without the trailing `suffix`, or `x` itself when
it does not end in `suffix`. -/
def stringsTrimSuffix (x suffix : String) : String :=
  if suffix.data <:+ x.data then String.mk (x.data.take (x.data.length - suffix.data.length))
  else x

/-- The function `strings.Contains`: whether `substr` occurs within `x`. -/
def stringsContains (x substr : String) : Bool := decide (substr.data <:+: x.data)

/-- The interface `dnsprovider.Zones`, with the accessor `Name` of the `dnsprovider.Zone`
values it hands out. `π` is the state of the provider account and `ζ` the type of zone
values. `New` returns the zone or the error, and the state it leaves. -/
structure Zones (π ζ : Type) where
  List : π → Except String (List ζ)
  New : π → String → Except String ζ × π
  Name : ζ → String

/-- The interface `dnsprovider.Interface`: `Zones()` returns the zones interface and whether
zone enumeration is supported. -/
structure Interface (π ζ : Type) where
  zones : Zones π ζ
  zonesSupported : Bool

/-- The fields of the struct `IngressDNSController` that start-up reads and writes: `dns` is
`none` for a nil provider, `dnsZones` and `dnsZone` are `none` while they are unset. -/
structure IngressDNSControllerSetup (π ζ : Type) where
  dns : Option (Interface π ζ)
  domain : String
  federationName : String
  ingressDNSSuffix : String
  dnsZone : Option ζ
  dnsZones : Option (Zones π ζ)

/-- The comparison that `GetDNSZone` hands to `sort.Slice`: the longer name first. -/
def longerName {π ζ : Type} (dnsZonesInterface : Zones π ζ) (a b : ζ) : Bool :=
  decide (goLen (dnsZonesInterface.Name a) > goLen (dnsZonesInterface.Name b))

/-- The loop of `GetDNSZone` over the sorted zones: the first zone whose name, without a
trailing dot, occurs within `findName`. -/
def GetDNSZone.find {π ζ : Type} (dnsZonesInterface : Zones π ζ) (findName : String) :
    List ζ → Option ζ
  | [] => none
  | dnsZone :: rest =>
    let cleanZone := stringsTrimSuffix (dnsZonesInterface.Name dnsZone) "."
    if stringsContains findName cleanZone = false then
      GetDNSZone.find dnsZonesInterface findName rest
    else
      some dnsZone

/-- The method `GetDNSZone`: the zone selected for `domain` (`none` for nil) and the error.
`sortSlice` is the library function `sort.Slice`, which is not stable, applied to a slice
and a comparison of its elements. -/
def GetDNSZone {π ζ : Type} (sortSlice : List ζ → (ζ → ζ → Bool) → List ζ) (domain : String)
    (dnsZonesInterface : Zones π ζ) (pst : π) : Option ζ × Option String :=
  match dnsZonesInterface.List pst with
  | .error err => (none, some err)
  | .ok dnsZones =>
    let sorted := sortSlice dnsZones (longerName dnsZonesInterface)
    let findName := stringsTrimSuffix domain "."
    (GetDNSZone.find dnsZonesInterface findName sorted, none)

/-- The method `validateConfig`: the error and the controller, whose field `dnsZones` is set
when the configuration is valid. -/
def validateConfig {π ζ : Type} (idc : IngressDNSControllerSetup π ζ) :
    Option String × IngressDNSControllerSetup π ζ :=
  if idc.federationName = "" then
    (some "DNSController should not be run without federationName", idc)
  else if idc.domain = "" then
    (some "DNSController must be run with a domain", idc)
  else
    match idc.dns with
    | none => (some "DNSController should not be run without a dnsprovider", idc)
    | some dns =>
      if dns.zonesSupported = false then
        (some ("the dns provider does not support zone enumeration, " ++
          "which is required for creating dns records"), idc)
      else
        (none, { idc with dnsZones := some dns.zones })

/-- The method `retrieveOrCreateDNSZone`: how the call ended, the controller, whose field
`dnsZone` is set on success, and the state of the provider account. Listing the zones of
a nil `dnsZones` panics. -/
def retrieveOrCreateDNSZone {π ζ : Type} (sortSlice : List ζ → (ζ → ζ → Bool) → List ζ)
    (idc : IngressDNSControllerSetup π ζ) (pst : π) :
    Outcome Unit × IngressDNSControllerSetup π ζ × π :=
  match idc.dnsZones with
  | none => (.panic "invalid memory address or nil pointer dereference", idc, pst)
  | some dnsZones =>
    match GetDNSZone sortSlice idc.domain dnsZones pst with
    | (_, some err) => (.err ("error querying for DNS zones: " ++ err), idc, pst)
    | (none, none) =>
      if idc.domain = "" then
        (.err "DNSController must be run with domain to create zone automatically", idc, pst)
      else
        match dnsZones.New pst idc.domain with
        | (.error err, pst2) => (.err err, idc, pst2)
        | (.ok newZone, pst2) => (.ok (), { idc with dnsZone := some newZone }, pst2)
    | (some zone, none) => (.ok (), { idc with dnsZone := some zone }, pst)

/-- The function `newIngressDNSController`, up to the set-up of the informer, which the
model leaves out: the controller or the error, and the state of the provider account. -/
def newIngressDNSController {π ζ : Type} (sortSlice : List ζ → (ζ → ζ → Bool) → List ζ)
    (dns : Option (Interface π ζ)) (federationName ingressDNSSuffix domain : String) (pst : π) :
    Outcome (IngressDNSControllerSetup π ζ) × π :=
  let suffix := if ingressDNSSuffix = "" then defaultIngressSeperator else ingressDNSSuffix
  let d : IngressDNSControllerSetup π ζ :=
    IngressDNSControllerSetup.mk dns domain federationName suffix none none
  match validateConfig d with
  | (some err, _) => (.err err, pst)
  | (none, d1) =>
    match retrieveOrCreateDNSZone sortSlice d1 pst with
    | (.err err, _, pst2) => (.err err, pst2)
    | (.panic msg, _, pst2) => (.panic msg, pst2)
    | (.ok _, d2, pst2) => (.ok d2, pst2)

/-- The function `wantsDNSRecords`: whether the local status lists a load-balancer entry. -/
def wantsDNSRecords (ingress : Ingress) : Bool := decide (ingress.Status.Ingress.length > 0)

/-- The type of the reconciliation of one cluster: the state, the cluster name and the
ingress to how the call ended and the state left behind. -/
abbrev ClusterStep (τ : Type) := τ → String → Ingress → Outcome Unit × τ

/-- The loop `for clusterName := range *globalIngLbStatuses` of `workerFunction`: the error
of a step is dropped, a panic ends the loop. -/
def workerFunction.loop {τ : Type} (step : ClusterStep τ) (ingress : Ingress) :
    List String → τ → Outcome Unit × τ
  | [], st => (.ok (), st)
  | clusterName :: rest, st =>
    match step st clusterName ingress with
    | (.panic msg, st2) => (.panic msg, st2)
    | (_, st2) => workerFunction.loop step ingress rest st2

/-- The body of `workerFunction` over a step standing for the method `ensureDNSRecords`.
`item` is what the work queue hands out: `none` when the queue is shut down. Returns
whether the worker quits and the state left behind. -/
def workerFunctionWith {σ ρ τ : Type} (step : ClusterStep τ) (idc : IngressDNSController σ ρ)
    (item : Option Ingress) (st : τ) : Outcome Bool × τ :=
  match item with
  | none => (.ok true, st)
  | some ingress =>
    if wantsDNSRecords ingress = false then
      (.ok false, st)
    else
      match parseGlobalLbStatusAnnotation idc ingress with
      | (_, some _) => (.ok false, st)
      | (none, none) => (.ok false, st)
      | (some globalIngLbStatuses, none) =>
        match workerFunction.loop step ingress (globalIngLbStatuses.map Prod.fst) st with
        | (.panic msg, st2) => (.panic msg, st2)
        | (_, st2) => (.ok false, st2)

/-- The method `workerFunction`: process one item of the work queue. -/
def workerFunction {σ ρ : Type} (idc : IngressDNSController σ ρ) (item : Option Ingress)
    (st : σ) : Outcome Bool × σ :=
  workerFunctionWith (ensureDNSRecords idc) idc item st

/-- The method `workerFunction` with a log, next to the provider state, of the clusters it
calls `ensureDNSRecords` for. -/
def workerFunctionLogged {σ ρ : Type} (idc : IngressDNSController σ ρ) (item : Option Ingress)
    (st : σ) (log : List String) : Outcome Bool × (σ × List String) :=
  workerFunctionWith
    (fun st2 clusterName ingress =>
      ((ensureDNSRecords idc st2.1 clusterName ingress).1,
       ((ensureDNSRecords idc st2.1 clusterName ingress).2, st2.2 ++ [clusterName])))
    idc item (st, log)

/-- The interface `zones` with a journal next to the state of the account: every `New`
appends the name it was called with; `List` leaves it alone. -/
def journalledZones {π ζ : Type} (zones : Zones π ζ) : Zones (π × List String) ζ where
  List := fun st => zones.List st.1
  New := fun st name => ((zones.New st.1 name).1, ((zones.New st.1 name).2, st.2 ++ [name]))
  Name := zones.Name

/-! ## Concrete instances of start-up and topologies -/

/-- A stable stand-in for `sort.Slice`: insertion sort, with `a` before `b` unless `b` is
less than `a`. -/
def insertionSortSlice {ζ : Type} (l : List ζ) (less : ζ → ζ → Bool) : List ζ :=
  l.insertionSort (fun a b => less b a = false)

/-- An in-memory provider account: the state is the list of the names of its hosted zones,
a zone value is its name, and `New` registers the zone. -/
def memZones : Zones (List String) String where
  List := fun st => .ok st
  New := fun st name => (.ok name, st ++ [name])
  Name := fun zone => zone

/-- The provider of the in-memory account. -/
def memInterface : Interface (List String) String where
  zones := memZones
  zonesSupported := true

/-- The controller over the in-memory record store with the library functions of the
concrete instances, for a cluster topology `getCluster` and a JSON decoder
`jsonUnmarshal`. -/
def memIngressController (getCluster : String → Except String Cluster)
    (jsonUnmarshal : String → GlobalLbStat × Option String) :
    IngressDNSController (List RecordSet) RecordSet where
  toAbstract := memController
  domain := "federation.example.com"
  getCluster := getCluster
  federationName := "myfederation"
  ingressDNSSuffix := "ing"
  dnsZone := memZone
  jsonUnmarshal := jsonUnmarshal

/-- Three clusters of region `r`: `c1` in the zones `a` and `b`, `c2` in the zone `a`, and
`c3` in the zone `b`. -/
def multiZoneClusters (clusterName : String) : Except String Cluster :=
  if clusterName = "c1" then .ok (Cluster.mk (some ["a", "b"]) "r")
  else if clusterName = "c2" then .ok (Cluster.mk (some ["a"]) "r")
  else if clusterName = "c3" then .ok (Cluster.mk (some ["b"]) "r")
  else .error ("cluster not found: " ++ clusterName)

/-- A status map in which `c1`, `c2` and `c3` list one address each. -/
def threeClusterStatus : GlobalLbStat :=
  [("c1", [LoadBalancerStatus.mk [LoadBalancerIngress.mk "198.51.100.1" ""]]),
   ("c2", [LoadBalancerStatus.mk [LoadBalancerIngress.mk "198.51.100.2" ""]]),
   ("c3", [LoadBalancerStatus.mk [LoadBalancerIngress.mk "198.51.100.3" ""]])]

/-- Two clusters that share the zone name `z`: `c1` in region `r1` and `c2` in region `r2`. -/
def sharedZoneClusters (clusterName : String) : Except String Cluster :=
  if clusterName = "c1" then .ok (Cluster.mk (some ["z"]) "r1")
  else if clusterName = "c2" then .ok (Cluster.mk (some ["z"]) "r2")
  else .error ("cluster not found: " ++ clusterName)

/-- A status map in which `c1` and `c2` list one address each. -/
def twoClusterStatus : GlobalLbStat :=
  [("c1", [LoadBalancerStatus.mk [LoadBalancerIngress.mk "198.51.100.1" ""]]),
   ("c2", [LoadBalancerStatus.mk [LoadBalancerIngress.mk "198.51.100.2" ""]])]

/-! ## Go library functions used by the dyndns provider -/

/-- The function `strings.HasSuffix`. -/
def stringsHasSuffix (x suffix : String) : Bool := decide (suffix.data <:+ x.data)

/-- The pieces of a list of characters between the occurrences of `sep`. -/
def stringsSplit.chars (sep : Char) : List Char → List (List Char)
  | [] => [[]]
  | c :: cs =>
    if c = sep then [] :: stringsSplit.chars sep cs
    else
      match stringsSplit.chars sep cs with
      | [] => [[c]]
      | part :: parts => (c :: part) :: parts

/-- The function `strings.Split` for a separator of one character: the substrings of `x`
between the separators, one string (`x` itself) when `x` holds no separator. -/
def stringsSplit (x : String) (sep : Char) : List String :=
  (stringsSplit.chars sep x.data).map String.mk

/-- The decimal digits of `n`, most significant first; `fuel` bounds the number of digits. -/
def strconvFormatInt.digits : Nat → Nat → List Char
  | 0, _ => []
  | fuel + 1, n =>
    if n < 10 then [Char.ofNat (48 + n)]
    else strconvFormatInt.digits fuel (n / 10) ++ [Char.ofNat (48 + n % 10)]

/-- The function `strconv.FormatInt` for base 10. -/
def strconvFormatInt (i : Int) : String :=
  if i < 0 then String.mk ('-' :: strconvFormatInt.digits (i.natAbs + 1) i.natAbs)
  else String.mk (strconvFormatInt.digits (i.natAbs + 1) i.natAbs)

/-- The value of a run of decimal digits read after the value `acc`, or `none` when a
character is not a decimal digit. -/
def strconvParseInt.digits : List Char → Nat → Option Nat
  | [], acc => some acc
  | c :: cs, acc =>
    if 48 ≤ c.toNat ∧ c.toNat ≤ 57 then strconvParseInt.digits cs (acc * 10 + (c.toNat - 48))
    else none

/-- The function `strconv.ParseInt` for base 10 and bit size 64: the value, or `none` for
an error (no digit, a character that is not a digit after the optional sign, or a value
outside the range of `int64`). -/
def strconvParseInt (x : String) : Option Int :=
  match x.data with
  | [] => none
  | c :: rest =>
    if c = '-' then
      if rest = [] then none
      else
        match strconvParseInt.digits rest 0 with
        | none => none
        | some n => if n > 2 ^ 63 then none else some (-(n : Int))
    else if c = '+' then
      if rest = [] then none
      else
        match strconvParseInt.digits rest 0 with
        | none => none
        | some n => if n ≥ 2 ^ 63 then none else some (n : Int)
    else
      match strconvParseInt.digits (c :: rest) 0 with
      | none => none
      | some n => if n ≥ 2 ^ 63 then none else some (n : Int)

/-! ## `github.com/nesv/go-dynect/dynect` and `pkg/dnsprovider/providers/dyndns/stubs` -/

/-- The struct `godynect.Record`. The field `Type` of the Go struct is `RrType` here. -/
structure godynect.Record where
  ID : String
  Zone : String
  Name : String
  Value : String
  RrType : String
  FQDN : String
  TTL : String
deriving DecidableEq, Repr

/-- The value `new(godynect.Record)`: every field is the empty string. -/
def godynect.newRecord : godynect.Record := godynect.Record.mk "" "" "" "" "" "" ""

/-- The methods of the interface `stubs.DynDNSAPI` that the provider calls after login, over
a backend state `β`. `GetRecordID` returns the record as the call leaves it. -/
structure stubs.DynDNSAPI (β : Type) where
  CreateRecord : β → godynect.Record → Option String × β
  DeleteRecord : β → godynect.Record → Option String × β
  GetRecordByName : β → godynect.Record → Except String (List godynect.Record)
  GetRecordID : β → godynect.Record → Except String godynect.Record
  GetAllRecordList : β → godynect.Record → Except String (List godynect.Record)
  PublishZone : β → String → Option String × β

/-- The field `rrsets` of `DynDNSAPIStub`, a Go map from key to record, as the list of its
entries in an arbitrary order. -/
abbrev stubs.Store := List (String × godynect.Record)

/-- The function `hashKey` of the stub. -/
def stubs.hashKey (record : godynect.Record) : String :=
  record.Name ++ "-" ++ record.TTL ++ "-" ++ record.RrType ++ "-" ++ record.Value

/-- The method `CreateRecord` of the stub. -/
def stubs.CreateRecord (st : stubs.Store) (record : godynect.Record) :
    Option String × stubs.Store :=
  let key := stubs.hashKey record
  if (st.lookup key).isSome then
    (some ("Attempt to create duplicate record " ++ record.Name), st)
  else
    (none, st ++ [(key, record)])

/-- The method `DeleteRecord` of the stub. -/
def stubs.DeleteRecord (st : stubs.Store) (record : godynect.Record) :
    Option String × stubs.Store :=
  let key := stubs.hashKey record
  if (st.lookup key).isSome = false then
    (some ("Attempt to delete non-existent record " ++ record.Name), st)
  else
    (none, st.filter (fun entry => decide (entry.1 ≠ key)))

/-- The method `GetRecordByName` of the stub. -/
def stubs.GetRecordByName (st : stubs.Store) (record : godynect.Record) :
    Except String (List godynect.Record) :=
  .ok ((st.map Prod.snd).filter (fun rec => decide (rec.Name = record.Name)))

/-- The struct `DynDNSAPIStub` with its methods. -/
def stubs.DynDNSAPIStub : stubs.DynDNSAPI stubs.Store where
  CreateRecord := stubs.CreateRecord
  DeleteRecord := stubs.DeleteRecord
  GetRecordByName := stubs.GetRecordByName
  GetRecordID := fun _ record => .ok record
  GetAllRecordList := fun st _ => .ok (st.map Prod.snd)
  PublishZone := fun st _ => (none, st)

/-! ## `pkg/dnsprovider/providers/dyndns` -/

/-- The struct `ResourceRecordSet` of the dyndns provider as a value of the interface
`dnsprovider.ResourceRecordSet`: `isPointer` tells whether the dynamic type of the
interface value is `*ResourceRecordSet` (as made by `New` and `List`) or
`ResourceRecordSet` (as made by `Get`). -/
structure dyndns.ResourceRecordSet where
  impl : godynect.Record
  isPointer : Bool
deriving DecidableEq, Repr

/-- The method `Name` of a record set. -/
def dyndns.Name (rrset : dyndns.ResourceRecordSet) : String := rrset.impl.Name

/-- The method `Rrdatas` of a record set. -/
def dyndns.Rrdatas (rrset : dyndns.ResourceRecordSet) : List String :=
  stringsSplit rrset.impl.Value ','

/-- The method `Ttl` of a record set: the stored TTL, or 60 when it does not parse or is
negative. -/
def dyndns.Ttl (rrset : dyndns.ResourceRecordSet) : Int :=
  match strconvParseInt rrset.impl.TTL with
  | none => 60
  | some ttl => if ttl < 0 then 60 else ttl

/-- The method `Type` of a record set, `recordType` here. -/
def dyndns.recordType (rrset : dyndns.ResourceRecordSet) : RrsType := rrset.impl.RrType

/-- The method `populateRecordWithName`: set `Name` and `FQDN` of `record` from `name`,
which is relative to the zone of the record or fully qualified. -/
def dyndns.populateRecordWithName (name : String) (record : godynect.Record) :
    godynect.Record :=
  let name1 := stringsTrimSuffix name "."
  if stringsHasSuffix name1 ("." ++ record.Zone) then
    { record with FQDN := name1, Name := stringsTrimSuffix name1 ("." ++ record.Zone) }
  else
    { record with Name := name1, FQDN := name1 ++ "." ++ record.Zone }

/-- The method `newRecord` of the record sets of the zone `zoneName`. -/
def dyndns.newRecord (zoneName : String) (name : String) (rrdatas : List String) (ttl : Int)
    (rrsType : RrsType) : godynect.Record :=
  let record := dyndns.populateRecordWithName name { godynect.newRecord with Zone := zoneName }
  { record with RrType := rrsType, TTL := strconvFormatInt ttl, Value := stringsJoin rrdatas "," }

/-- The method `New` of the record sets of the zone `zoneName`. -/
def dyndns.New (zoneName : String) (name : String) (rrdatas : List String) (ttl : Int)
    (rrsType : RrsType) : dyndns.ResourceRecordSet :=
  dyndns.ResourceRecordSet.mk (dyndns.newRecord zoneName name rrdatas ttl rrsType) true

/-- The method `Get` of the record sets of the zone `zoneName`: the record sets of the
records the backend returns for the name; an error of the backend is logged and an
empty list is returned with a nil error. -/
def dyndns.Get {β : Type} (api : stubs.DynDNSAPI β) (zoneName : String) (st : β)
    (name : String) : Except String (List dyndns.ResourceRecordSet) :=
  let record := dyndns.populateRecordWithName name { godynect.newRecord with Zone := zoneName }
  match api.GetRecordByName st record with
  | .error _ => .ok []
  | .ok records => .ok (records.map (fun rec => dyndns.ResourceRecordSet.mk rec false))

/-- The method `GetRecordsFromDNSRRS`: the records, one for each data entry, that stand
for the record set `rrs` at the backend. -/
def dyndns.GetRecordsFromDNSRRS (zoneName : String) (rrs : dyndns.ResourceRecordSet) :
    List godynect.Record :=
  let impl :=
    if rrs.isPointer then rrs.impl
    else dyndns.newRecord zoneName (dyndns.Name rrs) (dyndns.Rrdatas rrs) (dyndns.Ttl rrs)
      (dyndns.recordType rrs)
  let rdatas := stringsSplit impl.Value ','
  if rdatas.length = 1 then [impl]
  else
    rdatas.map (fun rdata =>
      dyndns.newRecord zoneName (dyndns.Name rrs) [rdata] (dyndns.Ttl rrs) (dyndns.recordType rrs))

/-- The loop over `addRecords` of `Apply`. -/
def dyndns.Apply.addLoop {β : Type} (api : stubs.DynDNSAPI β) :
    List godynect.Record → β → Option String × β
  | [], st => (none, st)
  | addRecord :: rest, st =>
    match api.CreateRecord st addRecord with
    | (some err, st2) =>
      (some ("Couldn't add record " ++ addRecord.Name ++ " with value " ++ addRecord.Value ++
        ": " ++ err), st2)
    | (none, st2) => dyndns.Apply.addLoop api rest st2

/-- The loop over `deleteRecords` of `Apply`. -/
def dyndns.Apply.deleteLoop {β : Type} (api : stubs.DynDNSAPI β) :
    List godynect.Record → β → Option String × β
  | [], st => (none, st)
  | deleteRecord :: rest, st =>
    match api.GetRecordID st deleteRecord with
    | .error err =>
      (some ("Couldn't get record id " ++ deleteRecord.Name ++ " with value " ++
        deleteRecord.Value ++ ": " ++ err), st)
    | .ok withID =>
      match api.DeleteRecord st withID with
      | (some err, st2) =>
        (some ("Couldn't delete record " ++ withID.Name ++ " with value " ++ withID.Value ++
          ": " ++ err), st2)
      | (none, st2) => dyndns.Apply.deleteLoop api rest st2

/-- The loop over the queued changes of `Apply`. -/
def dyndns.Apply.loop {β : Type} (api : stubs.DynDNSAPI β) (zoneName : String) :
    List (Change dyndns.ResourceRecordSet) → β → Option String × β
  | [], st => (none, st)
  | Change.add rrset :: rest, st =>
    match dyndns.Apply.addLoop api (dyndns.GetRecordsFromDNSRRS zoneName rrset) st with
    | (some err, st2) => (some err, st2)
    | (none, st2) => dyndns.Apply.loop api zoneName rest st2
  | Change.remove rrset :: rest, st =>
    match dyndns.Apply.deleteLoop api (dyndns.GetRecordsFromDNSRRS zoneName rrset) st with
    | (some err, st2) => (some err, st2)
    | (none, st2) => dyndns.Apply.loop api zoneName rest st2

/-- The method `Apply` of a changeset of the zone `zoneName`: the error and the state the
backend is left in. -/
def dyndns.Apply {β : Type} (api : stubs.DynDNSAPI β) (zoneName : String) (st : β)
    (changeset : List (Change dyndns.ResourceRecordSet)) : Option String × β :=
  if changeset.length = 0 then (none, st)
  else
    match dyndns.Apply.loop api zoneName changeset st with
    | (some err, st2) => (some err, st2)
    | (none, st2) =>
      match api.PublishZone st2 zoneName with
      | (some err, st3) =>
        (some ("Couldn't publish the changes for the zone " ++ zoneName ++ ": " ++ err), st3)
      | (none, st3) => (none, st3)

/-- The record sets of the zone `zoneName` of the dyndns provider over the backend `api`. -/
def dyndns.rrsets {β : Type} (api : stubs.DynDNSAPI β) (zoneName : String) :
    ResourceRecordSets β dyndns.ResourceRecordSet where
  Get := dyndns.Get api zoneName
  New := dyndns.New zoneName
  Apply := dyndns.Apply api zoneName
  Name := dyndns.Name
  Rrdatas := dyndns.Rrdatas
  Ttl := dyndns.Ttl
  RrsType := dyndns.recordType

/-- The zone `zoneName` of the dyndns provider over the backend `api`. -/
def dyndns.zone {β : Type} (api : stubs.DynDNSAPI β) (zoneName : String) :
    Zone β dyndns.ResourceRecordSet where
  rrsets := dyndns.rrsets api zoneName
  supported := true

/-! ## `pkg/dnsprovider/providers/dyndns/dynect` -/

/-- The method `RecordFromURL`: the record named by a URL of the REST interface, `none` for
nil. -/
def dynect.RecordFromURL (url : String) : Option godynect.Record :=
  let parts := stringsSplit url '/'
  if parts.length ≠ 6 then none
  else
    some { godynect.newRecord with
      Zone := parts.getD 3 "",
      FQDN := parts.getD 4 "",
      ID := parts.getD 5 "",
      RrType := stringsTrimSuffix (parts.getD 2 "") "Record" }

/-! ## Calls of the backend and instances for the dyndns provider -/

/-- One call of the backend that changes its records. -/
inductive stubs.Call where
  | create (record : godynect.Record)
  | delete (record : godynect.Record)
deriving DecidableEq, Repr

/-- The backend `api` with a journal next to its state: every call of `CreateRecord` and of
`DeleteRecord` is appended to the journal, whether it succeeds or not. -/
def stubs.journalled {β : Type} (api : stubs.DynDNSAPI β) :
    stubs.DynDNSAPI (β × List stubs.Call) where
  CreateRecord := fun st record =>
    ((api.CreateRecord st.1 record).1,
     ((api.CreateRecord st.1 record).2, st.2 ++ [stubs.Call.create record]))
  DeleteRecord := fun st record =>
    ((api.DeleteRecord st.1 record).1,
     ((api.DeleteRecord st.1 record).2, st.2 ++ [stubs.Call.delete record]))
  GetRecordByName := fun st record => api.GetRecordByName st.1 record
  GetRecordID := fun st record => api.GetRecordID st.1 record
  GetAllRecordList := fun st record => api.GetAllRecordList st.1 record
  PublishZone := fun st zone => ((api.PublishZone st.1 zone).1, ((api.PublishZone st.1 zone).2, st.2))

/-- The store of the stub after the calls `calls`, made one after the other, when all of
them succeed; `none` when one of them fails. -/
def stubs.run : stubs.Store → List stubs.Call → Option stubs.Store
  | st, [] => some st
  | st, stubs.Call.create record :: rest =>
    match stubs.CreateRecord st record with
    | (some _, _) => none
    | (none, st2) => stubs.run st2 rest
  | st, stubs.Call.delete record :: rest =>
    match stubs.DeleteRecord st record with
    | (some _, _) => none
    | (none, st2) => stubs.run st2 rest

/-- The calls of the backend that a changeset of the zone `zoneName` stands for: one
creation or deletion for each record of each queued record set, in the order queued. -/
def dyndns.recordCalls (zoneName : String) :
    List (Change dyndns.ResourceRecordSet) → List stubs.Call
  | [] => []
  | Change.add rrset :: rest =>
    (dyndns.GetRecordsFromDNSRRS zoneName rrset).map stubs.Call.create ++
      dyndns.recordCalls zoneName rest
  | Change.remove rrset :: rest =>
    (dyndns.GetRecordsFromDNSRRS zoneName rrset).map stubs.Call.delete ++
      dyndns.recordCalls zoneName rest

/-- The controller of `util/dns.go` over record sets of the dyndns provider, with the
literal test and the resolver of the concrete instances and a library equivalence test
`equivalent`. -/
def dyndns.controller (equivalent : dyndns.ResourceRecordSet → dyndns.ResourceRecordSet → Bool) :
    AbstractDNSController dyndns.ResourceRecordSet where
  ParseIP := isIPv4Literal
  LookupHost := fun host => .error ("lookup " ++ host ++ ": no such host")
  ResourceRecordSetsEquivalent := equivalent

/-- Every address of the zone-level list and of the region-level list is in the global-level
list. -/
def lowerWithinGlobal (acc : EndpointLists) : Prop :=
  (∀ x ∈ acc.1, x ∈ acc.2.2) ∧ (∀ x ∈ acc.2.1, x ∈ acc.2.2)

/-- Two clusters of region `r` without zone name: the zone list of `c1` is empty and that
of `c2` is nil. -/
def emptyZoneClusters (clusterName : String) : Except String Cluster :=
  if clusterName = "c1" then .ok (Cluster.mk (some []) "r")
  else if clusterName = "c2" then .ok (Cluster.mk none "r")
  else .error ("cluster not found: " ++ clusterName)

/-- The record set of `getExampleRrs` in the tests of the provider. -/
def getExampleRrs (zoneName : String) : dyndns.ResourceRecordSet :=
  dyndns.New zoneName ("www11." ++ zoneName) ["10.10.10.10", "169.20.20.20"] 180 rrstype.A

/-! ## Lemmas -/

theorem removeAll_eq {ρ : Type} (l : List ρ) (cs : List (Change ρ)) :
    removeAll l cs = cs ++ l.map Change.remove := by
  induction l generalizing cs with
  | nil => simp [removeAll]
  | cons a t ih =>
    have h := ih (cs ++ [Change.remove a])
    simp only [removeAll, List.foldl_cons] at h ⊢
    rw [h]
    simp

theorem EnsureDNSRrsets_ok_cases {σ ρ : Type} (s : AbstractDNSController ρ) (zone : Zone σ ρ)
    (records : σ → List ρ) (hstore : FaithfulStore zone.rrsets records) (st st2 : σ)
    (dnsName : String) (endpoints : List String) (uplevelCname : String)
    (h : EnsureDNSRrsets s zone st dnsName endpoints uplevelCname = (none, st2)) :
    (findRrset s zone.rrsets
        ((records st).filter (fun r => decide (zone.rrsets.Name r = dnsName)))
        (desiredRrset s zone.rrsets dnsName endpoints uplevelCname) ≠ none ∧ st2 = st) ∨
    (findRrset s zone.rrsets
        ((records st).filter (fun r => decide (zone.rrsets.Name r = dnsName)))
        (desiredRrset s zone.rrsets dnsName endpoints uplevelCname) = none ∧
      ∀ r, r ∈ records st2 ↔
        (r ∈ records st ∧ zone.rrsets.Name r ≠ dnsName) ∨
        (r = desiredRrset s zone.rrsets dnsName endpoints uplevelCname ∧
          ¬ (endpoints.length < 1 ∧ uplevelCname = ""))) := by
  unfold EnsureDNSRrsets at h
  simp only [GetRrset] at h
  split at h
  · simp at h
  · split at h
    · simp at h
    · rename_i rrsetList hget
      have hl := hstore.get_ok st dnsName rrsetList hget
      have hmem : ∀ r, r ∈ rrsetList ↔ r ∈ records st ∧ zone.rrsets.Name r = dnsName := by
        intro r; rw [hl]; simp
      rw [← hl]
      split at h
      · -- no record set under the name
        rename_i hlen
        have hnil : rrsetList = [] := List.length_eq_zero.mp hlen
        subst hnil
        have hno : ∀ r, r ∈ records st → zone.rrsets.Name r ≠ dnsName := by
          intro r hr hn
          have := (hmem r).2 ⟨hr, hn⟩
          simp at this
        right
        refine ⟨by simp [findRrset], ?_⟩
        split at h
        · rename_i hemp
          split at h
          · rename_i hup
            intro r
            rw [hstore.apply_ok st _ st2 h r]
            simp only [desiredRrset, hemp, if_true]
            simp [hup]
            constructor
            · rintro (hr | hr)
              · exact Or.inl ⟨hr, hno r hr⟩
              · exact Or.inr hr
            · rintro (hr | hr)
              · exact Or.inl hr.1
              · exact Or.inr hr
          · rename_i hup
            simp only [ne_eq, not_not] at hup
            simp only [Prod.mk.injEq, true_and] at h
            subst h
            intro r
            simp [hup, hemp]
            exact fun hr => hno r hr
        · rename_i hemp
          split at h
          · simp at h
          · rename_i res hres
            intro r
            rw [hstore.apply_ok st _ st2 h r]
            simp only [desiredRrset, hemp, if_false, hres]
            simp
            constructor
            · rintro (hr | hr)
              · exact Or.inl ⟨hr, hno r hr⟩
              · exact Or.inr hr
            · rintro (hr | hr)
              · exact Or.inl hr.1
              · exact Or.inr hr
      · split at h
        · rename_i hemp
          simp only [desiredRrset, hemp, if_true]
          split at h
          · rename_i e hfound
            left
            simp only [Prod.mk.injEq, true_and] at h
            exact ⟨by simp [hfound], h.symm⟩
          · rename_i hfound
            right
            refine ⟨hfound, ?_⟩
            intro r
            split at h
            · rename_i hup
              rw [hstore.apply_ok st _ st2 h r]
              simp [removeAll_eq, hmem, hup]
              tauto
            · rename_i hup
              simp only [ne_eq, not_not] at hup
              rw [hstore.apply_ok st _ st2 h r]
              simp [removeAll_eq, hmem, hup]
              tauto
        · rename_i hemp
          split at h
          · simp at h
          · rename_i res hres
            simp only [desiredRrset, hemp, if_false, hres]
            split at h
            · rename_i e hfound
              left
              simp only [Prod.mk.injEq, true_and] at h
              exact ⟨by simp [hfound], h.symm⟩
            · rename_i hfound
              right
              refine ⟨hfound, ?_⟩
              intro r
              rw [hstore.apply_ok st _ st2 h r]
              simp [removeAll_eq, hmem]
              tauto

theorem findRrset_eq_none_iff {σ ρ : Type} (s : AbstractDNSController ρ)
    (rrsets : ResourceRecordSets σ ρ) (l : List ρ) (x : ρ) :
    findRrset s rrsets l x = none ↔
      ∀ e ∈ l, ¬ ((rrsets.Rrdatas e).length = (rrsets.Rrdatas x).length ∧
        s.ResourceRecordSetsEquivalent x e = true) := by
  induction l with
  | nil => simp [findRrset]
  | cons a t ih =>
    simp only [findRrset, List.mem_cons, forall_eq_or_imp]
    by_cases hlen : (rrsets.Rrdatas a).length = (rrsets.Rrdatas x).length
    · by_cases heq : s.ResourceRecordSetsEquivalent x a = true
      · simp [hlen, heq]
      · simp [hlen, heq, ih]
    · simp [hlen, ih]

theorem findRrset_eq_some {σ ρ : Type} (s : AbstractDNSController ρ)
    (rrsets : ResourceRecordSets σ ρ) (l : List ρ) (x e : ρ)
    (h : findRrset s rrsets l x = some e) :
    e ∈ l ∧ (rrsets.Rrdatas e).length = (rrsets.Rrdatas x).length ∧
      s.ResourceRecordSetsEquivalent x e = true := by
  induction l with
  | nil => simp [findRrset] at h
  | cons a t ih =>
    simp only [findRrset] at h
    by_cases hlen : (rrsets.Rrdatas a).length = (rrsets.Rrdatas x).length
    · by_cases heq : s.ResourceRecordSetsEquivalent x a = true
      · simp [hlen, heq] at h
        subst h
        exact ⟨List.mem_cons_self _ _, hlen, heq⟩
      · simp [hlen, heq] at h
        have := ih h
        exact ⟨List.mem_cons_of_mem _ this.1, this.2⟩
    · simp [hlen] at h
      have := ih h
      exact ⟨List.mem_cons_of_mem _ this.1, this.2⟩

theorem loop_literal {ρ : Type} (s : AbstractDNSController ρ) (endpoints : List String)
    (hip : ∀ e ∈ endpoints, s.ParseIP e = true) (acc : StringSet) :
    GetResolvedEndpoints.loop s endpoints acc = (StringSet.List (addAll endpoints acc), none) := by
  induction endpoints generalizing acc with
  | nil => simp [GetResolvedEndpoints.loop, addAll]
  | cons a t ih =>
    have ha : s.ParseIP a = true := hip a (List.mem_cons_self _ _)
    have ht : ∀ e ∈ t, s.ParseIP e = true := fun e he => hip e (List.mem_cons_of_mem _ he)
    simp [GetResolvedEndpoints.loop, ha, ih ht, addAll]

theorem mem_addAll (endpoints : List String) (acc : StringSet) (x : String) :
    x ∈ addAll endpoints acc ↔ x ∈ acc ∨ x ∈ endpoints := by
  induction endpoints generalizing acc with
  | nil => simp [addAll]
  | cons a t ih =>
    have h := ih (acc.Union [a])
    simp only [addAll, List.foldl_cons] at h ⊢
    rw [h]
    simp [StringSet.Union, List.mem_union_iff]
    tauto

theorem nodup_addAll (endpoints : List String) (acc : StringSet) (hacc : acc.Nodup) :
    (addAll endpoints acc).Nodup := by
  induction endpoints generalizing acc with
  | nil => simpa [addAll] using hacc
  | cons a t ih =>
    have h := ih (acc.Union [a]) (List.Nodup.union acc (List.nodup_singleton a))
    simpa [addAll] using h

theorem FaithfulStore.journalled {σ ρ : Type} {rrsets : ResourceRecordSets σ ρ}
    {records : σ → List ρ} (hstore : FaithfulStore rrsets records) :
    FaithfulStore rrsets.journalled (fun st => records st.1) where
  get_ok := fun st name l h => hstore.get_ok st.1 name l h
  apply_ok := by
    intro st cs st2 h r
    simp only [ResourceRecordSets.journalled, Prod.mk.injEq] at h
    obtain ⟨h1, h2⟩ := h
    have h3 : rrsets.Apply st.1 cs = (none, st2.1) := by
      rw [← h1, ← h2]
    exact hstore.apply_ok st.1 cs st2.1 h3 r
  new_Name := hstore.new_Name
  new_Rrdatas := hstore.new_Rrdatas
  new_Ttl := hstore.new_Ttl
  new_RrsType := hstore.new_RrsType

theorem desiredRrset_Name {σ ρ : Type} (s : AbstractDNSController ρ)
    {rrsets : ResourceRecordSets σ ρ} {records : σ → List ρ}
    (hstore : FaithfulStore rrsets records) (dnsName : String) (endpoints : List String)
    (uplevelCname : String) :
    rrsets.Name (desiredRrset s rrsets dnsName endpoints uplevelCname) = dnsName := by
  unfold desiredRrset
  split <;> exact hstore.new_Name _ _ _ _

theorem EnsureDNSRrsets_settled {σ ρ : Type} (s : AbstractDNSController ρ) (zone : Zone σ ρ)
    (records : σ → List ρ) (hstore : FaithfulStore zone.rrsets records)
    (hrefl : ∀ r, s.ResourceRecordSetsEquivalent r r = true)
    (st : σ) (dnsName : String) (endpoints : List String) (uplevelCname : String)
    (hall : ∀ r ∈ records st, zone.rrsets.Name r = dnsName →
      r = desiredRrset s zone.rrsets dnsName endpoints uplevelCname)
    (hin : ¬ (endpoints.length < 1 ∧ uplevelCname = "") →
      desiredRrset s zone.rrsets dnsName endpoints uplevelCname ∈ records st) :
    (EnsureDNSRrsets s zone st dnsName endpoints uplevelCname).2 = st := by
  have hname := desiredRrset_Name s hstore dnsName endpoints uplevelCname
  unfold EnsureDNSRrsets
  simp only [GetRrset]
  split
  · rfl
  · split
    · rfl
    · rename_i rrsetList hget
      have hl := hstore.get_ok st dnsName rrsetList hget
      have hmem : ∀ r, r ∈ rrsetList ↔ r ∈ records st ∧ zone.rrsets.Name r = dnsName := by
        intro r; rw [hl]; simp
      have hfind : rrsetList ≠ [] →
          ∃ e, findRrset s zone.rrsets rrsetList
            (desiredRrset s zone.rrsets dnsName endpoints uplevelCname) = some e := by
        intro hne
        cases hrl : rrsetList with
        | nil => exact absurd hrl hne
        | cons a t =>
          have ha : a ∈ rrsetList := by rw [hrl]; exact List.mem_cons_self _ _
          have had := hall a ((hmem a).1 ha).1 ((hmem a).1 ha).2
          refine ⟨a, ?_⟩
          simp only [findRrset]
          rw [had]
          simp [hrefl]
      have hd : ¬ (endpoints.length < 1 ∧ uplevelCname = "") → rrsetList ≠ [] := by
        intro hc hnil
        have := (hmem _).2 ⟨hin hc, hname⟩
        rw [hnil] at this
        simp at this
      split
      · rename_i hlen
        have hnil : rrsetList = [] := List.length_eq_zero.mp hlen
        split
        · rename_i hemp
          split
          · rename_i hup
            exact absurd hnil (hd (fun hc => hup hc.2))
          · rfl
        · rename_i hemp
          exact absurd hnil (hd (fun hc => hemp hc.1))
      · rename_i hlen
        have hne : rrsetList ≠ [] := fun hnil => hlen (by simp [hnil])
        obtain ⟨e, he⟩ := hfind hne
        split
        · rename_i hemp
          simp only [desiredRrset, hemp, if_true] at he
          simp only [he]
        · rename_i hemp
          split
          · rfl
          · rename_i res hres
            simp only [desiredRrset, hemp, if_false, hres] at he
            simp only [he]

theorem memRecordSets_faithful : FaithfulStore memRecordSets (fun st => st) where
  get_ok := by
    intro st name l h
    simp only [memRecordSets, Except.ok.injEq] at h
    exact h.symm
  apply_ok := by
    intro st cs st2 h r
    simp only [memRecordSets, Prod.mk.injEq, true_and] at h
    subst h
    simp only [List.mem_append, List.mem_filter, decide_eq_true_eq, List.mem_filterMap]
    constructor
    · rintro (h | ⟨c, hc, hr⟩)
      · exact Or.inl h
      · cases c with
        | add x => simp at hr; subst hr; exact Or.inr hc
        | remove x => simp at hr
    · rintro (h | h)
      · exact Or.inl h
      · exact Or.inr ⟨Change.add r, h, rfl⟩
  new_Name := fun _ _ _ _ => rfl
  new_Rrdatas := fun _ _ _ _ => rfl
  new_Ttl := fun _ _ _ _ => rfl
  new_RrsType := fun _ _ _ _ => rfl

theorem recordSetsEquivalent_refl (r : RecordSet) : recordSetsEquivalent r r = true := by
  simp [recordSetsEquivalent]

theorem recordSetsEquivalent_sound (a b : RecordSet) (h : recordSetsEquivalent a b = true) :
    b.rrsType = a.rrsType ∧ b.ttl = a.ttl ∧ b.rrdatas.Perm a.rrdatas := by
  simp only [recordSetsEquivalent, Bool.and_eq_true, decide_eq_true_eq] at h
  obtain ⟨⟨⟨_, h2⟩, h3⟩, h4⟩ := h
  refine ⟨h2.symm, h3.symm, ?_⟩
  have hb := List.perm_insertionSort strLE b.rrdatas
  have ha := List.perm_insertionSort strLE a.rrdatas
  exact hb.symm.trans (h4 ▸ ha)

theorem GetResolvedEndpoints_literal {ρ : Type} (s : AbstractDNSController ρ)
    (endpoints : List String) (hip : ∀ e ∈ endpoints, s.ParseIP e = true) :
    GetResolvedEndpoints s endpoints = (StringSet.List (addAll endpoints []), none) :=
  loop_literal s endpoints hip []

theorem mem_resolved_literal (endpoints : List String) (x : String) :
    x ∈ StringSet.List (addAll endpoints []) ↔ x ∈ endpoints := by
  simp [StringSet.List, List.mem_insertionSort, mem_addAll]

theorem nodup_resolved_literal (endpoints : List String) :
    (StringSet.List (addAll endpoints [])).Nodup := by
  have h := nodup_addAll endpoints [] List.nodup_nil
  exact (List.perm_insertionSort strLE _).nodup_iff.mpr h

theorem scenario_endpoints_c1 (s : AbstractDNSController RecordSet)
    (jsonUnmarshal : String → GlobalLbStat × Option String) (value : String)
    (hdec : jsonUnmarshal value = ([scenarioStatusC1, scenarioStatusC2], none) ∨
      jsonUnmarshal value = ([scenarioStatusC2, scenarioStatusC1], none)) :
    getHealthyEndpoints (scenarioController s jsonUnmarshal) "c1" (scenarioIngress value) =
      .ok (["198.51.100.1", "198.51.100.2"], ["198.51.100.1", "198.51.100.2"],
        ["198.51.100.1", "198.51.100.2"]) := by
  rcases hdec with hv | hv <;>
  simp +decide [getHealthyEndpoints, getClusterZoneNames, scenarioController, scenarioClusters,
    scenarioIngress, parseGlobalLbStatusAnnotation, List.lookup, hv, scenarioStatusC1,
    scenarioStatusC2, getHealthyEndpoints.clusterLoop, getHealthyEndpoints.statusLoop,
    getHealthyEndpoints.ingressLoop, sliceElems, lbAddress, appendZoneMatches]

theorem scenario_endpoints_c2 (s : AbstractDNSController RecordSet)
    (jsonUnmarshal : String → GlobalLbStat × Option String) (value : String)
    (hdec : jsonUnmarshal value = ([scenarioStatusC1, scenarioStatusC2], none) ∨
      jsonUnmarshal value = ([scenarioStatusC2, scenarioStatusC1], none)) :
    getHealthyEndpoints (scenarioController s jsonUnmarshal) "c2" (scenarioIngress value) =
      .ok ([], [], ["198.51.100.1", "198.51.100.2"]) := by
  rcases hdec with hv | hv <;>
  simp +decide [getHealthyEndpoints, getClusterZoneNames, scenarioController, scenarioClusters,
    scenarioIngress, parseGlobalLbStatusAnnotation, List.lookup, hv, scenarioStatusC1,
    scenarioStatusC2, getHealthyEndpoints.clusterLoop, getHealthyEndpoints.statusLoop,
    getHealthyEndpoints.ingressLoop, sliceElems, lbAddress, appendZoneMatches]

theorem scenario_resolved (s : AbstractDNSController RecordSet)
    (h1 : s.ParseIP "198.51.100.1" = true) (h2 : s.ParseIP "198.51.100.2" = true) :
    GetResolvedEndpoints s ["198.51.100.1", "198.51.100.2"] =
      (["198.51.100.1", "198.51.100.2"], none) := by
  simp only [GetResolvedEndpoints, GetResolvedEndpoints.loop, h1, h2, Bool.true_eq_false,
    if_false]
  decide

theorem lbAddress_length (lb : LoadBalancerIngress) :
    (lbAddress lb).length ≤ 0 ↔ lb.IP = "" ∧ lb.Hostname = "" := by
  have hlen : ∀ x : String, x.length ≤ 0 ↔ x = "" := by
    intro x
    rw [Nat.le_zero]
    constructor
    · intro h
      have hd : x.data = [] := List.length_eq_zero.mp h
      exact String.ext hd
    · rintro rfl; rfl
  rw [hlen]
  unfold lbAddress
  by_cases h1 : lb.IP = ""
  · by_cases h2 : lb.Hostname = ""
    · simp [h1, h2]
    · simp [h1, h2]
  · simp [h1]

theorem lbAddress_eq (lb : LoadBalancerIngress) :
    lbAddress lb = if lb.IP ≠ "" then lb.IP else lb.Hostname := by
  unfold lbAddress
  by_cases h1 : lb.IP = ""
  · by_cases h2 : lb.Hostname = ""
    · simp [h1, h2]
    · simp [h1, h2]
  · simp [h1]

theorem mem_appendZoneMatches (lbZoneNames zoneNames : List String) (address : String)
    (zoneEndpoints : List String) (x : String) :
    x ∈ appendZoneMatches lbZoneNames zoneNames address zoneEndpoints ↔
      x ∈ zoneEndpoints ∨ (x = address ∧ ∃ z ∈ lbZoneNames, z ∈ zoneNames) := by
  have inner : ∀ (lz : String) (zs : List String) (acc : List String),
      x ∈ zs.foldl (fun acc2 zoneName => if lz = zoneName then acc2 ++ [address] else acc2) acc ↔
        x ∈ acc ∨ (x = address ∧ lz ∈ zs) := by
    intro lz zs
    induction zs with
    | nil => intro acc; simp
    | cons z t ih =>
      intro acc
      rw [List.foldl_cons, ih]
      by_cases hz : lz = z
      · simp [hz]; tauto
      · simp [hz]
  unfold appendZoneMatches
  induction lbZoneNames generalizing zoneEndpoints with
  | nil => simp
  | cons lz t ih =>
    rw [List.foldl_cons]
    refine (ih _).trans ?_
    rw [inner]
    simp only [List.mem_cons, exists_eq_or_imp]
    tauto

theorem ingressLoop_ok (errMsg : String) (zoneNames : List String) (regionName : String)
    (lbZoneNames : List String) (lbRegionName : String) (l : List LoadBalancerIngress)
    (hl : ∀ lb ∈ l, lb.IP ≠ "" ∨ lb.Hostname ≠ "") (acc : EndpointLists) :
    ∃ acc2, getHealthyEndpoints.ingressLoop errMsg zoneNames regionName lbZoneNames lbRegionName
        l acc = .ok acc2 ∧
      (∀ a, a ∈ acc2.1 ↔ a ∈ acc.1 ∨
        ((∃ z ∈ lbZoneNames, z ∈ zoneNames) ∧ ∃ lb ∈ l, a = lbAddress lb)) ∧
      (∀ a, a ∈ acc2.2.1 ↔ a ∈ acc.2.1 ∨
        (lbRegionName = regionName ∧ ∃ lb ∈ l, a = lbAddress lb)) ∧
      (∀ a, a ∈ acc2.2.2 ↔ a ∈ acc.2.2 ∨ ∃ lb ∈ l, a = lbAddress lb) := by
  induction l generalizing acc with
  | nil =>
    refine ⟨acc, ?_, ?_, ?_, ?_⟩ <;> simp [getHealthyEndpoints.ingressLoop]
  | cons lb t ih =>
    obtain ⟨ze, re, ge⟩ := acc
    have hlb : ¬ (lbAddress lb).length ≤ 0 := by
      rw [lbAddress_length]
      rcases hl lb (List.mem_cons_self _ _) with h | h
      · exact fun hc => h hc.1
      · exact fun hc => h hc.2
    have ht : ∀ x ∈ t, x.IP ≠ "" ∨ x.Hostname ≠ "" :=
      fun x hx => hl x (List.mem_cons_of_mem _ hx)
    obtain ⟨acc2, hrun, hz, hr, hg⟩ := ih ht
      (appendZoneMatches lbZoneNames zoneNames (lbAddress lb) ze,
       (if lbRegionName = regionName then re ++ [lbAddress lb] else re),
       ge ++ [lbAddress lb])
    refine ⟨acc2, ?_, ?_, ?_, ?_⟩
    · simp only [getHealthyEndpoints.ingressLoop, hlb, if_false]
      exact hrun
    · intro a
      rw [hz a, mem_appendZoneMatches]
      simp only [List.mem_cons, exists_eq_or_imp]
      generalize (∃ z ∈ lbZoneNames, z ∈ zoneNames) = P
      generalize (∃ x ∈ t, a = lbAddress x) = Q
      clear hz hr hg hrun ih hl ht hlb
      tauto
    · intro a
      rw [hr a]
      simp only [List.mem_cons, exists_eq_or_imp]
      clear hz hr hg hrun ih hl ht hlb
      by_cases hreg : lbRegionName = regionName
      · simp only [hreg, if_true, List.mem_append, List.mem_singleton, true_and]
        generalize (∃ x ∈ t, a = lbAddress x) = Q
        tauto
      · simp [hreg]
    · intro a
      rw [hg a]
      simp only [List.mem_cons, exists_eq_or_imp, List.mem_append, List.mem_singleton]
      generalize (∃ x ∈ t, a = lbAddress x) = Q
      clear hz hr hg hrun ih hl ht hlb
      tauto

theorem statusLoop_ok (errMsg : String) (zoneNames : List String) (regionName : String)
    (lbZoneNames : List String) (lbRegionName : String) (sts : List LoadBalancerStatus)
    (hl : ∀ ls ∈ sts, ∀ lb ∈ ls.Ingress, lb.IP ≠ "" ∨ lb.Hostname ≠ "") (acc : EndpointLists) :
    ∃ acc2, getHealthyEndpoints.statusLoop errMsg zoneNames regionName lbZoneNames lbRegionName
        sts acc = .ok acc2 ∧
      (∀ a, a ∈ acc2.1 ↔ a ∈ acc.1 ∨
        ((∃ z ∈ lbZoneNames, z ∈ zoneNames) ∧ ∃ ls ∈ sts, ∃ lb ∈ ls.Ingress, a = lbAddress lb)) ∧
      (∀ a, a ∈ acc2.2.1 ↔ a ∈ acc.2.1 ∨
        (lbRegionName = regionName ∧ ∃ ls ∈ sts, ∃ lb ∈ ls.Ingress, a = lbAddress lb)) ∧
      (∀ a, a ∈ acc2.2.2 ↔ a ∈ acc.2.2 ∨ ∃ ls ∈ sts, ∃ lb ∈ ls.Ingress, a = lbAddress lb) := by
  induction sts generalizing acc with
  | nil =>
    refine ⟨acc, ?_, ?_, ?_, ?_⟩ <;> simp [getHealthyEndpoints.statusLoop]
  | cons ls t ih =>
    obtain ⟨acc1, hrun1, hz1, hr1, hg1⟩ := ingressLoop_ok errMsg zoneNames regionName lbZoneNames
      lbRegionName ls.Ingress (hl ls (List.mem_cons_self _ _)) acc
    obtain ⟨acc2, hrun2, hz2, hr2, hg2⟩ := ih
      (fun x hx => hl x (List.mem_cons_of_mem _ hx)) acc1
    refine ⟨acc2, ?_, ?_, ?_, ?_⟩
    · simp only [getHealthyEndpoints.statusLoop, hrun1]
      exact hrun2
    · intro a
      rw [hz2 a, hz1 a]
      simp only [List.mem_cons, exists_eq_or_imp]
      generalize (∃ z ∈ lbZoneNames, z ∈ zoneNames) = P
      generalize (∃ x ∈ ls.Ingress, a = lbAddress x) = Q1
      generalize (∃ x ∈ t, ∃ y ∈ x.Ingress, a = lbAddress y) = Q2
      clear hz1 hz2 hr1 hr2 hg1 hg2 hrun1 hrun2 ih hl
      tauto
    · intro a
      rw [hr2 a, hr1 a]
      simp only [List.mem_cons, exists_eq_or_imp]
      generalize (∃ x ∈ ls.Ingress, a = lbAddress x) = Q1
      generalize (∃ x ∈ t, ∃ y ∈ x.Ingress, a = lbAddress y) = Q2
      clear hz1 hz2 hr1 hr2 hg1 hg2 hrun1 hrun2 ih hl
      tauto
    · intro a
      rw [hg2 a, hg1 a]
      simp only [List.mem_cons, exists_eq_or_imp]
      generalize (∃ x ∈ ls.Ingress, a = lbAddress x) = Q1
      generalize (∃ x ∈ t, ∃ y ∈ x.Ingress, a = lbAddress y) = Q2
      clear hz1 hz2 hr1 hr2 hg1 hg2 hrun1 hrun2 ih hl
      tauto

theorem clusterLoop_ok {σ ρ : Type} (idc : IngressDNSController σ ρ) (errMsg : String)
    (zoneNames : List String) (regionName : String) (m : GlobalLbStat)
    (hl : ∀ c sts, (c, sts) ∈ m → ∀ ls ∈ sts, ∀ lb ∈ ls.Ingress, lb.IP ≠ "" ∨ lb.Hostname ≠ "")
    (hc : ∀ c sts, (c, sts) ∈ m → ∃ cl, idc.getCluster c = .ok cl) (acc : EndpointLists) :
    ∃ acc2, getHealthyEndpoints.clusterLoop idc errMsg zoneNames regionName m acc = .ok acc2 ∧
      (∀ a, a ∈ acc2.1 ↔ a ∈ acc.1 ∨
        ∃ c sts ls lb cl, (c, sts) ∈ m ∧ ls ∈ sts ∧ lb ∈ ls.Ingress ∧ a = lbAddress lb ∧
          idc.getCluster c = .ok cl ∧ ∃ z ∈ sliceElems cl.Zones, z ∈ zoneNames) ∧
      (∀ a, a ∈ acc2.2.1 ↔ a ∈ acc.2.1 ∨
        ∃ c sts ls lb cl, (c, sts) ∈ m ∧ ls ∈ sts ∧ lb ∈ ls.Ingress ∧ a = lbAddress lb ∧
          idc.getCluster c = .ok cl ∧ cl.Region = regionName) ∧
      (∀ a, a ∈ acc2.2.2 ↔ a ∈ acc.2.2 ∨
        ∃ c sts ls lb, (c, sts) ∈ m ∧ ls ∈ sts ∧ lb ∈ ls.Ingress ∧ a = lbAddress lb) := by
  induction m generalizing acc with
  | nil =>
    refine ⟨acc, ?_, ?_, ?_, ?_⟩ <;> simp [getHealthyEndpoints.clusterLoop]
  | cons entry t ih =>
    obtain ⟨c0, sts0⟩ := entry
    obtain ⟨cl0, hcl0⟩ := hc c0 sts0 (List.mem_cons_self _ _)
    obtain ⟨acc1, hrun1, hz1, hr1, hg1⟩ := statusLoop_ok errMsg zoneNames regionName
      (sliceElems cl0.Zones) cl0.Region sts0 (hl c0 sts0 (List.mem_cons_self _ _)) acc
    obtain ⟨acc2, hrun2, hz2, hr2, hg2⟩ := ih
      (fun c sts h => hl c sts (List.mem_cons_of_mem _ h))
      (fun c sts h => hc c sts (List.mem_cons_of_mem _ h)) acc1
    refine ⟨acc2, ?_, ?_, ?_, ?_⟩
    · simp only [getHealthyEndpoints.clusterLoop, getClusterZoneNames, hcl0, hrun1]
      exact hrun2
    · intro a
      rw [hz2 a, hz1 a]
      constructor
      · rintro ((h | ⟨hzn, ls, hls, lb, hlb, ha⟩) | ⟨c, sts, ls, lb, cl, hm, hrest⟩)
        · exact Or.inl h
        · exact Or.inr ⟨c0, sts0, ls, lb, cl0, List.mem_cons_self _ _, hls, hlb, ha, hcl0, hzn⟩
        · exact Or.inr ⟨c, sts, ls, lb, cl, List.mem_cons_of_mem _ hm, hrest⟩
      · rintro (h | ⟨c, sts, ls, lb, cl, hm, hls, hlb, ha, hcl, hzn⟩)
        · exact Or.inl (Or.inl h)
        · rcases List.mem_cons.mp hm with heq | hm
          · simp only [Prod.mk.injEq] at heq
            obtain ⟨rfl, rfl⟩ := heq
            rw [hcl0] at hcl
            cases hcl
            exact Or.inl (Or.inr ⟨hzn, ls, hls, lb, hlb, ha⟩)
          · exact Or.inr ⟨c, sts, ls, lb, cl, hm, hls, hlb, ha, hcl, hzn⟩
    · intro a
      rw [hr2 a, hr1 a]
      constructor
      · rintro ((h | ⟨hzn, ls, hls, lb, hlb, ha⟩) | ⟨c, sts, ls, lb, cl, hm, hrest⟩)
        · exact Or.inl h
        · exact Or.inr ⟨c0, sts0, ls, lb, cl0, List.mem_cons_self _ _, hls, hlb, ha, hcl0, hzn⟩
        · exact Or.inr ⟨c, sts, ls, lb, cl, List.mem_cons_of_mem _ hm, hrest⟩
      · rintro (h | ⟨c, sts, ls, lb, cl, hm, hls, hlb, ha, hcl, hzn⟩)
        · exact Or.inl (Or.inl h)
        · rcases List.mem_cons.mp hm with heq | hm
          · simp only [Prod.mk.injEq] at heq
            obtain ⟨rfl, rfl⟩ := heq
            rw [hcl0] at hcl
            cases hcl
            exact Or.inl (Or.inr ⟨hzn, ls, hls, lb, hlb, ha⟩)
          · exact Or.inr ⟨c, sts, ls, lb, cl, hm, hls, hlb, ha, hcl, hzn⟩
    · intro a
      rw [hg2 a, hg1 a]
      constructor
      · rintro ((h | ⟨ls, hls, lb, hlb, ha⟩) | ⟨c, sts, ls, lb, hm, hrest⟩)
        · exact Or.inl h
        · exact Or.inr ⟨c0, sts0, ls, lb, List.mem_cons_self _ _, hls, hlb, ha⟩
        · exact Or.inr ⟨c, sts, ls, lb, List.mem_cons_of_mem _ hm, hrest⟩
      · rintro (h | ⟨c, sts, ls, lb, hm, hls, hlb, ha⟩)
        · exact Or.inl (Or.inl h)
        · rcases List.mem_cons.mp hm with heq | hm
          · simp only [Prod.mk.injEq] at heq
            obtain ⟨rfl, rfl⟩ := heq
            exact Or.inl (Or.inr ⟨ls, hls, lb, hlb, ha⟩)
          · exact Or.inr ⟨c, sts, ls, lb, hm, hls, hlb, ha⟩

theorem ingressLoop_bad (errMsg : String) (zoneNames : List String) (regionName : String)
    (lbZoneNames : List String) (lbRegionName : String) (l : List LoadBalancerIngress)
    (lb : LoadBalancerIngress) (hlb : lb ∈ l) (hip : lb.IP = "") (hhost : lb.Hostname = "")
    (acc : EndpointLists) :
    ∃ e, getHealthyEndpoints.ingressLoop errMsg zoneNames regionName lbZoneNames lbRegionName
      l acc = .error e := by
  induction l generalizing acc with
  | nil => simp at hlb
  | cons x t ih =>
    obtain ⟨ze, re, ge⟩ := acc
    simp only [getHealthyEndpoints.ingressLoop]
    by_cases hx : (lbAddress x).length ≤ 0
    · exact ⟨errMsg, by simp [hx]⟩
    · simp only [hx, if_false]
      rcases List.mem_cons.mp hlb with h | h
      · subst h
        exact absurd ((lbAddress_length lb).2 ⟨hip, hhost⟩) hx
      · exact ih h _

theorem statusLoop_bad (errMsg : String) (zoneNames : List String) (regionName : String)
    (lbZoneNames : List String) (lbRegionName : String) (sts : List LoadBalancerStatus)
    (ls : LoadBalancerStatus) (hls : ls ∈ sts)
    (lb : LoadBalancerIngress) (hlb : lb ∈ ls.Ingress) (hip : lb.IP = "") (hhost : lb.Hostname = "")
    (acc : EndpointLists) :
    ∃ e, getHealthyEndpoints.statusLoop errMsg zoneNames regionName lbZoneNames lbRegionName
      sts acc = .error e := by
  induction sts generalizing acc with
  | nil => simp at hls
  | cons x t ih =>
    simp only [getHealthyEndpoints.statusLoop]
    cases hx : getHealthyEndpoints.ingressLoop errMsg zoneNames regionName lbZoneNames
        lbRegionName x.Ingress acc with
    | error e => exact ⟨e, rfl⟩
    | ok acc2 =>
      rcases List.mem_cons.mp hls with h | h
      · subst h
        obtain ⟨e, he⟩ := ingressLoop_bad errMsg zoneNames regionName lbZoneNames lbRegionName
          _ lb hlb hip hhost acc
        rw [he] at hx
        cases hx
      · exact ih h _

theorem clusterLoop_bad {σ ρ : Type} (idc : IngressDNSController σ ρ) (errMsg : String)
    (zoneNames : List String) (regionName : String) (m : GlobalLbStat)
    (c : String) (sts : List LoadBalancerStatus) (hc : (c, sts) ∈ m)
    (ls : LoadBalancerStatus) (hls : ls ∈ sts)
    (lb : LoadBalancerIngress) (hlb : lb ∈ ls.Ingress) (hip : lb.IP = "") (hhost : lb.Hostname = "")
    (acc : EndpointLists) :
    ∃ e, getHealthyEndpoints.clusterLoop idc errMsg zoneNames regionName m acc = .error e := by
  induction m generalizing acc with
  | nil => simp at hc
  | cons x t ih =>
    obtain ⟨c0, sts0⟩ := x
    simp only [getHealthyEndpoints.clusterLoop]
    cases hz : getClusterZoneNames idc c0 with
    | error e => exact ⟨e, rfl⟩
    | ok zr =>
      obtain ⟨lbZoneNames, lbRegionName⟩ := zr
      simp only []
      cases hx : getHealthyEndpoints.statusLoop errMsg zoneNames regionName
          (sliceElems lbZoneNames) lbRegionName sts0 acc with
      | error e => exact ⟨e, rfl⟩
      | ok acc2 =>
        rcases List.mem_cons.mp hc with h | h
        · simp only [Prod.mk.injEq] at h
          obtain ⟨rfl, rfl⟩ := h
          obtain ⟨e, he⟩ := statusLoop_bad errMsg zoneNames regionName (sliceElems lbZoneNames)
            lbRegionName _ ls hls lb hlb hip hhost acc
          rw [he] at hx
          cases hx
        · exact ih h _

theorem getHealthyEndpoints_bad {σ ρ : Type} (idc : IngressDNSController σ ρ)
    (clusterName : String) (ingress : Ingress) (annotations : List (String × String))
    (value : String) (c : String) (sts : List LoadBalancerStatus) (ls : LoadBalancerStatus)
    (lb : LoadBalancerIngress)
    (hdel : ingress.DeletionTimestamp = none)
    (hann : ingress.Annotations = some annotations)
    (hval : annotations.lookup globalIngressLBStatus = some value)
    (hc : (c, sts) ∈ (idc.jsonUnmarshal value).1) (hls : ls ∈ sts) (hlb : lb ∈ ls.Ingress)
    (hip : lb.IP = "") (hhost : lb.Hostname = "") :
    ∃ e, getHealthyEndpoints idc clusterName ingress = .err e := by
  unfold getHealthyEndpoints
  cases hz : getClusterZoneNames idc clusterName with
  | error e => exact ⟨e, rfl⟩
  | ok zr =>
    obtain ⟨zoneNames, regionName⟩ := zr
    simp only [hdel, Option.isSome_none, Bool.false_eq_true, if_false,
      parseGlobalLbStatusAnnotation, hann, hval]
    cases hj : idc.jsonUnmarshal value with
    | mk m perr =>
      rw [hj] at hc
      cases perr with
      | some e => exact ⟨e, rfl⟩
      | none =>
        simp only []
        obtain ⟨e, he⟩ := clusterLoop_bad idc
          ("Ingress " ++ ingress.Name ++ "/" ++ ingress.Namespace ++ " in cluster " ++
            clusterName ++ " has neither LoadBalancerStatus.ingress.ip nor " ++
            "LoadBalancerStatus.ingress.hostname. Cannot use it as endpoint for federated Ingress")
          (sliceElems zoneNames) regionName m c sts hc ls hls lb hlb hip hhost ([], [], [])
        exact ⟨e, by rw [he]⟩

theorem ensureDNSRecordsWith_of_endpoints_err {σ ρ τ : Type} (ensure : EnsureFn τ)
    (idc : IngressDNSController σ ρ) (st : τ) (clusterName : String) (ingress : Ingress)
    (e : String) (h : getHealthyEndpoints idc clusterName ingress = .err e) :
    ∃ e2, ensureDNSRecordsWith ensure idc st clusterName ingress = (.err e2, st) := by
  unfold ensureDNSRecordsWith
  cases hz : getClusterZoneNames idc clusterName with
  | error e1 => exact ⟨e1, rfl⟩
  | ok zr =>
    obtain ⟨zoneNames, regionName⟩ := zr
    cases zoneNames with
    | none => exact ⟨_, rfl⟩
    | some zs => exact ⟨e, by simp only [h]⟩

theorem loop_three {τ : Type} (ensure : EnsureFn τ) (n0 n1 n2 n3 : String)
    (e0 e1 e2 : List String) (st : τ) :
    ensureDNSRecords.loop ensure [n0, n1, n2, n3] 0 [e0, e1, e2] st =
      match ensure st n0 e0 n1 with
      | (some e, s1) => (.err e, s1)
      | (none, s1) =>
        match ensure s1 n1 e1 n2 with
        | (some e, s2) => (.err e, s2)
        | (none, s2) =>
          match ensure s2 n2 e2 n3 with
          | (some e, s3) => (.err e, s3)
          | (none, s3) => (.ok (), s3) := by
  simp only [ensureDNSRecords.loop, List.getD_cons_zero, List.getD_cons_succ]

theorem ensureDNSRecordsWith_levels {σ ρ τ : Type} (ensure : EnsureFn τ)
    (idc : IngressDNSController σ ρ) (st : τ) (clusterName : String) (ingress : Ingress)
    (zoneName0 : String) (zoneNames : List String) (regionName : String)
    (ze re ge : List String) (n0 n1 n2 n3 : String)
    (hc : getClusterZoneNames idc clusterName = .ok (some (zoneName0 :: zoneNames), regionName))
    (hh : getHealthyEndpoints idc clusterName ingress = .ok (ze, re, ge))
    (hn : dnsNamesOf idc ingress zoneName0 regionName = [n0, n1, n2, n3]) :
    ensureDNSRecordsWith ensure idc st clusterName ingress =
      match ensure st n0 ze n1 with
      | (some e, s1) => (.err e, s1)
      | (none, s1) =>
        match ensure s1 n1 re n2 with
        | (some e, s2) => (.err e, s2)
        | (none, s2) =>
          match ensure s2 n2 ge n3 with
          | (some e, s3) => (.err e, s3)
          | (none, s3) => (.ok (), s3) := by
  simp only [ensureDNSRecordsWith, hc, hh, hn]
  exact loop_three ensure n0 n1 n2 n3 ze re ge st

theorem EnsureDNSRrsets_err_state {σ ρ : Type} (s : AbstractDNSController ρ) (zone : Zone σ ρ)
    (hatomic : ∀ st cs e st2, zone.rrsets.Apply st cs = (some e, st2) → st2 = st)
    (st st2 : σ) (dnsName : String) (endpoints : List String) (uplevelCname : String) (e : String)
    (h : EnsureDNSRrsets s zone st dnsName endpoints uplevelCname = (some e, st2)) :
    st2 = st := by
  unfold EnsureDNSRrsets at h
  simp only [GetRrset] at h
  repeat' split at h
  all_goals first
    | exact (Prod.mk.inj h).2.symm
    | exact hatomic _ _ _ _ h

theorem dnsNamesOf_eq {σ ρ : Type} (idc : IngressDNSController σ ρ) (ingress : Ingress)
    (zoneName0 regionName : String) :
    dnsNamesOf idc ingress zoneName0 regionName =
      [ingress.Name ++ "." ++ ingress.Namespace ++ "." ++ idc.federationName ++ "." ++
         idc.ingressDNSSuffix ++ "." ++ zoneName0 ++ "." ++ regionName ++ "." ++ idc.domain,
       ingress.Name ++ "." ++ ingress.Namespace ++ "." ++ idc.federationName ++ "." ++
         idc.ingressDNSSuffix ++ "." ++ regionName ++ "." ++ idc.domain,
       ingress.Name ++ "." ++ ingress.Namespace ++ "." ++ idc.federationName ++ "." ++
         idc.ingressDNSSuffix ++ "." ++ idc.domain,
       ""] := by
  simp only [dnsNamesOf, stringsJoin, commonPrefixOf, String.intercalate, String.intercalate.go]

theorem validateConfig_fields {π ζ : Type} (idc : IngressDNSControllerSetup π ζ) :
    (validateConfig idc).2.ingressDNSSuffix = idc.ingressDNSSuffix ∧
      (validateConfig idc).2.federationName = idc.federationName ∧
      (validateConfig idc).2.domain = idc.domain := by
  unfold validateConfig
  repeat' split
  all_goals exact ⟨rfl, rfl, rfl⟩

theorem retrieveOrCreateDNSZone_fields {π ζ : Type}
    (sortSlice : List ζ → (ζ → ζ → Bool) → List ζ) (idc : IngressDNSControllerSetup π ζ)
    (pst : π) :
    (retrieveOrCreateDNSZone sortSlice idc pst).2.1.ingressDNSSuffix = idc.ingressDNSSuffix ∧
      (retrieveOrCreateDNSZone sortSlice idc pst).2.1.federationName = idc.federationName ∧
      (retrieveOrCreateDNSZone sortSlice idc pst).2.1.domain = idc.domain := by
  unfold retrieveOrCreateDNSZone
  repeat' split
  all_goals exact ⟨rfl, rfl, rfl⟩

theorem newIngressDNSController_fields {π ζ : Type}
    (sortSlice : List ζ → (ζ → ζ → Bool) → List ζ) (dns : Option (Interface π ζ))
    (federationName ingressDNSSuffix domain : String) (pst pst2 : π)
    (built : IngressDNSControllerSetup π ζ)
    (h : newIngressDNSController sortSlice dns federationName ingressDNSSuffix domain pst =
      (.ok built, pst2)) :
    built.ingressDNSSuffix =
        (if ingressDNSSuffix = "" then defaultIngressSeperator else ingressDNSSuffix) ∧
      built.federationName = federationName ∧ built.domain = domain := by
  unfold newIngressDNSController at h
  simp only at h
  have hv := validateConfig_fields (IngressDNSControllerSetup.mk dns domain federationName
    (if ingressDNSSuffix = "" then defaultIngressSeperator else ingressDNSSuffix) none none)
  split at h
  · exact absurd h (by simp)
  · rename_i d1 hd1
    rw [hd1] at hv
    have hr := retrieveOrCreateDNSZone_fields sortSlice d1 pst
    split at h
    · exact absurd h (by simp)
    · exact absurd h (by simp)
    · rename_i u d2 p2 hd2
      rw [hd2] at hr
      simp only [Prod.mk.injEq, Outcome.ok.injEq] at h
      obtain ⟨hb, -⟩ := h
      subst hb
      simp only at hr hv
      exact ⟨hr.1.trans hv.1, hr.2.1.trans hv.2.1, hr.2.2.trans hv.2.2⟩

theorem workerFunctionWith_gated {σ ρ τ : Type} (step : ClusterStep τ)
    (idc : IngressDNSController σ ρ) (ingress : Ingress) (st : τ)
    (hempty : ingress.Status.Ingress = []) :
    workerFunctionWith step idc (some ingress) st = (.ok false, st) := by
  simp [workerFunctionWith, wantsDNSRecords, hempty]

theorem recordSetsEquivalent_iff (a b : RecordSet) :
    recordSetsEquivalent a b = true ↔
      (a.name = b.name ∧ a.rrsType = b.rrsType ∧ a.ttl = b.ttl ∧ a.rrdatas.Perm b.rrdatas) := by
  simp only [recordSetsEquivalent, Bool.and_eq_true, decide_eq_true_eq]
  constructor
  · rintro ⟨⟨⟨h1, h2⟩, h3⟩, h4⟩
    refine ⟨h1, h2, h3, ?_⟩
    exact (List.perm_insertionSort strLE a.rrdatas).symm.trans
      (h4 ▸ List.perm_insertionSort strLE b.rrdatas)
  · rintro ⟨h1, h2, h3, h4⟩
    refine ⟨⟨⟨h1, h2⟩, h3⟩, ?_⟩
    apply List.eq_of_perm_of_sorted (r := strLE)
    · exact ((List.perm_insertionSort strLE a.rrdatas).trans h4).trans
        (List.perm_insertionSort strLE b.rrdatas).symm
    · exact List.sorted_insertionSort strLE _
    · exact List.sorted_insertionSort strLE _

theorem stringsContains_iff (x substr : String) :
    stringsContains x substr = true ↔ substr.data <:+: x.data := by
  simp [stringsContains]

theorem GetDNSZone_find_eq_none_iff {π ζ : Type} (zones : Zones π ζ) (findName : String) (l : List ζ) :
    GetDNSZone.find zones findName l = none ↔
      ∀ z ∈ l, ¬ ((stringsTrimSuffix (zones.Name z) ".").data <:+: findName.data) := by
  induction l with
  | nil => simp [GetDNSZone.find]
  | cons a t ih =>
    simp only [GetDNSZone.find, List.mem_cons, forall_eq_or_imp]
    by_cases h : stringsContains findName (stringsTrimSuffix (zones.Name a) ".") = true
    · have h2 := (stringsContains_iff _ _).1 h
      simp [h, h2]
    · have h2 : ¬ ((stringsTrimSuffix (zones.Name a) ".").data <:+: findName.data) :=
        fun hc => h ((stringsContains_iff _ _).2 hc)
      simp only [Bool.not_eq_true] at h
      simp [h, h2, ih]

theorem GetDNSZone_find_eq_some {π ζ : Type} (zones : Zones π ζ) (findName : String) (l : List ζ) (z : ζ)
    (h : GetDNSZone.find zones findName l = some z) :
    z ∈ l ∧ (stringsTrimSuffix (zones.Name z) ".").data <:+: findName.data ∧
      (l.Pairwise (fun a b => longerName zones b a = false) →
        ∀ y ∈ l, (stringsTrimSuffix (zones.Name y) ".").data <:+: findName.data →
          goLen (zones.Name y) ≤ goLen (zones.Name z)) := by
  induction l with
  | nil => simp [GetDNSZone.find] at h
  | cons a t ih =>
    simp only [GetDNSZone.find] at h
    by_cases hc : stringsContains findName (stringsTrimSuffix (zones.Name a) ".") = true
    · simp only [hc, Bool.true_eq_false, if_false, Option.some.injEq] at h
      subst h
      refine ⟨List.mem_cons_self _ _, (stringsContains_iff _ _).1 hc, ?_⟩
      intro hp y hy _
      rcases List.mem_cons.mp hy with rfl | hy
      · exact le_refl _
      · have := (List.pairwise_cons.mp hp).1 y hy
        simp only [longerName, decide_eq_false_iff_not, not_lt] at this
        exact this
    · simp only [Bool.not_eq_true] at hc
      simp only [hc, if_true] at h
      obtain ⟨h1, h2, h3⟩ := ih h
      refine ⟨List.mem_cons_of_mem _ h1, h2, ?_⟩
      intro hp y hy hm
      rcases List.mem_cons.mp hy with rfl | hy
      · have : stringsContains findName (stringsTrimSuffix (zones.Name y) ".") = true :=
          (stringsContains_iff _ _).2 hm
        rw [hc] at this
        cases this
      · exact h3 (List.pairwise_cons.mp hp).2 y hy hm

theorem insertionSortSlice_sorts {π ζ : Type} (zones : Zones π ζ) (l : List ζ) :
    (insertionSortSlice l (longerName zones)).Perm l ∧
      (insertionSortSlice l (longerName zones)).Pairwise
        (fun a b => longerName zones b a = false) := by
  constructor
  · exact List.perm_insertionSort _ l
  · haveI : IsTotal ζ (fun a b => longerName zones b a = false) := ⟨by
      intro a b
      simp only [longerName, decide_eq_false_iff_not, not_lt]
      exact le_total _ _⟩
    haveI : IsTrans ζ (fun a b => longerName zones b a = false) := ⟨by
      intro a b c
      simp only [longerName, decide_eq_false_iff_not, not_lt]
      intro h1 h2
      exact le_trans h2 h1⟩
    exact List.sorted_insertionSort (fun a b => longerName zones b a = false) l

theorem GetDNSZone_find_journalled {π ζ : Type} (zones : Zones π ζ) (findName : String) (l : List ζ) :
    GetDNSZone.find (journalledZones zones) findName l = GetDNSZone.find zones findName l := by
  induction l with
  | nil => rfl
  | cons a t ih =>
    simp only [GetDNSZone.find, ih]
    rfl

theorem GetDNSZone_journalled {π ζ : Type} (sortSlice : List ζ → (ζ → ζ → Bool) → List ζ)
    (domain : String) (zones : Zones π ζ) (pst : π) (log : List String) :
    GetDNSZone sortSlice domain (journalledZones zones) (pst, log) =
      GetDNSZone sortSlice domain zones pst := by
  have hl : (journalledZones zones).List (pst, log) = zones.List pst := rfl
  have hn : longerName (journalledZones zones) = longerName zones := rfl
  unfold GetDNSZone
  rw [hl, hn]
  cases zones.List pst with
  | error e => rfl
  | ok l => simp only [GetDNSZone_find_journalled]

theorem parseGlobalLbStatus_value {σ ρ : Type} (idc : IngressDNSController σ ρ)
    (ingress : Ingress) (annotations : List (String × String)) (value : String)
    (ha : ingress.Annotations = some annotations)
    (hl : annotations.lookup globalIngressLBStatus = some value) :
    parseGlobalLbStatusAnnotation idc ingress =
      (some (idc.jsonUnmarshal value).1, (idc.jsonUnmarshal value).2) := by
  unfold parseGlobalLbStatusAnnotation
  simp only [ha, hl]
  cases hj : idc.jsonUnmarshal value with
  | mk m perr => cases perr <;> rfl

theorem sorted_resolved_literal (endpoints : List String) :
    (StringSet.List (addAll endpoints [])).Sorted strLE :=
  List.sorted_insertionSort strLE _

theorem resolved_literal_ext (e1 e2 : List String) (h : ∀ x, x ∈ e1 ↔ x ∈ e2) :
    StringSet.List (addAll e1 []) = StringSet.List (addAll e2 []) := by
  apply List.eq_of_perm_of_sorted (r := strLE)
  · rw [List.perm_ext_iff_of_nodup (nodup_resolved_literal e1) (nodup_resolved_literal e2)]
    intro x
    rw [mem_resolved_literal, mem_resolved_literal]
    exact h x
  · exact sorted_resolved_literal e1
  · exact sorted_resolved_literal e2

theorem appendZoneMatches_sub (lbZoneNames zoneNames : List String) (address : String)
    (zoneEndpoints : List String) (x : String)
    (h : x ∈ appendZoneMatches lbZoneNames zoneNames address zoneEndpoints) :
    x ∈ zoneEndpoints ∨ x = address := by
  rcases (mem_appendZoneMatches lbZoneNames zoneNames address zoneEndpoints x).1 h with h | h
  · exact Or.inl h
  · exact Or.inr h.1

theorem ingressLoop_within (errMsg : String) (zoneNames : List String) (regionName : String)
    (lbZoneNames : List String) (lbRegionName : String) (l : List LoadBalancerIngress)
    (acc acc2 : EndpointLists) (hacc : lowerWithinGlobal acc)
    (h : getHealthyEndpoints.ingressLoop errMsg zoneNames regionName lbZoneNames lbRegionName
      l acc = .ok acc2) :
    lowerWithinGlobal acc2 := by
  induction l generalizing acc with
  | nil =>
    simp only [getHealthyEndpoints.ingressLoop, Except.ok.injEq] at h
    exact h ▸ hacc
  | cons lb t ih =>
    obtain ⟨ze, re, ge⟩ := acc
    simp only [getHealthyEndpoints.ingressLoop] at h
    split at h
    · cases h
    · refine ih _ ?_ h
      constructor
      · intro x hx
        rcases appendZoneMatches_sub _ _ _ _ x hx with hx | hx
        · exact List.mem_append_left _ (hacc.1 x hx)
        · simp [hx]
      · intro x hx
        simp only at hx
        split at hx
        · rcases List.mem_append.mp hx with hx | hx
          · exact List.mem_append_left _ (hacc.2 x hx)
          · exact List.mem_append_right _ hx
        · exact List.mem_append_left _ (hacc.2 x hx)

theorem statusLoop_within (errMsg : String) (zoneNames : List String) (regionName : String)
    (lbZoneNames : List String) (lbRegionName : String) (l : List LoadBalancerStatus)
    (acc acc2 : EndpointLists) (hacc : lowerWithinGlobal acc)
    (h : getHealthyEndpoints.statusLoop errMsg zoneNames regionName lbZoneNames lbRegionName
      l acc = .ok acc2) :
    lowerWithinGlobal acc2 := by
  induction l generalizing acc with
  | nil =>
    simp only [getHealthyEndpoints.statusLoop, Except.ok.injEq] at h
    exact h ▸ hacc
  | cons st t ih =>
    simp only [getHealthyEndpoints.statusLoop] at h
    split at h
    · cases h
    · rename_i acc1 h1
      exact ih acc1 (ingressLoop_within _ _ _ _ _ _ _ _ hacc h1) h

theorem clusterLoop_within {σ ρ : Type} (idc : IngressDNSController σ ρ) (errMsg : String)
    (zoneNames : List String) (regionName : String) (m : GlobalLbStat)
    (acc acc2 : EndpointLists) (hacc : lowerWithinGlobal acc)
    (h : getHealthyEndpoints.clusterLoop idc errMsg zoneNames regionName m acc = .ok acc2) :
    lowerWithinGlobal acc2 := by
  induction m generalizing acc with
  | nil =>
    simp only [getHealthyEndpoints.clusterLoop, Except.ok.injEq] at h
    exact h ▸ hacc
  | cons c t ih =>
    obtain ⟨name, sts⟩ := c
    simp only [getHealthyEndpoints.clusterLoop] at h
    split at h
    · cases h
    · split at h
      · cases h
      · rename_i acc1 h1
        exact ih acc1 (statusLoop_within _ _ _ _ _ _ _ _ hacc h1) h

theorem stringsSplit_chars_ne_nil (sep : Char) (l : List Char) :
    stringsSplit.chars sep l ≠ [] := by
  induction l with
  | nil => simp [stringsSplit.chars]
  | cons c cs ih =>
    simp only [stringsSplit.chars]
    split
    · simp
    · split <;> simp

theorem stringsSplit_chars_no_sep (sep : Char) (l : List Char) (h : sep ∉ l) :
    stringsSplit.chars sep l = [l] := by
  induction l with
  | nil => rfl
  | cons c cs ih =>
    have hc : c ≠ sep := fun e => h (e ▸ List.mem_cons_self _ _)
    have hcs : sep ∉ cs := fun e => h (List.mem_cons_of_mem _ e)
    simp [stringsSplit.chars, hc, ih hcs]

theorem stringsSplit_chars_append (sep : Char) (a rest : List Char) (h : sep ∉ a) :
    stringsSplit.chars sep (a ++ sep :: rest) = a :: stringsSplit.chars sep rest := by
  induction a with
  | nil => simp [stringsSplit.chars]
  | cons c cs ih =>
    have hc : c ≠ sep := fun e => h (e ▸ List.mem_cons_self _ _)
    have hcs : sep ∉ cs := fun e => h (List.mem_cons_of_mem _ e)
    simp [stringsSplit.chars, hc, ih hcs]

theorem stringsSplit_chars_mem (sep : Char) (l part : List Char)
    (h : part ∈ stringsSplit.chars sep l) : sep ∉ part := by
  induction l generalizing part with
  | nil =>
    simp only [stringsSplit.chars, List.mem_singleton] at h
    subst h
    simp
  | cons c cs ih =>
    simp only [stringsSplit.chars] at h
    split at h
    · rcases List.mem_cons.mp h with rfl | h
      · simp
      · exact ih part h
    · rename_i hc
      split at h
      · rename_i hnil
        exact absurd hnil (stringsSplit_chars_ne_nil sep cs)
      · rename_i p ps hps
        rcases List.mem_cons.mp h with rfl | h
        · intro hmem
          rcases List.mem_cons.mp hmem with e | e
          · exact hc e.symm
          · exact ih p (hps ▸ List.mem_cons_self _ _) e
        · exact ih part (hps ▸ List.mem_cons_of_mem _ h)

theorem stringsTrimSuffix_append (x suffix : String) :
    stringsTrimSuffix (x ++ suffix) suffix = x := by
  unfold stringsTrimSuffix
  have h : suffix.data <:+ (x ++ suffix).data := by
    rw [String.data_append]
    exact List.suffix_append _ _
  rw [if_pos h]
  apply String.ext
  simp [String.data_append]

theorem digitChar_toNat (d : Nat) (h : d < 10) : (Char.ofNat (48 + d)).toNat = 48 + d := by
  interval_cases d <;> rfl

theorem parseDigits_append (l : List Char) (c : Char) (acc : Nat) :
    strconvParseInt.digits (l ++ [c]) acc =
      match strconvParseInt.digits l acc with
      | none => none
      | some a => if 48 ≤ c.toNat ∧ c.toNat ≤ 57 then some (a * 10 + (c.toNat - 48)) else none := by
  induction l generalizing acc with
  | nil => simp [strconvParseInt.digits]
  | cons x xs ih =>
    simp only [List.cons_append, strconvParseInt.digits]
    split
    · exact ih _
    · rfl

theorem formatDigits_parse (fuel n : Nat) (h : n < fuel) :
    strconvParseInt.digits (strconvFormatInt.digits fuel n) 0 = some n := by
  induction fuel generalizing n with
  | zero => omega
  | succ fuel ih =>
    simp only [strconvFormatInt.digits]
    split
    · rename_i hn
      simp [strconvParseInt.digits, digitChar_toNat n hn]
      omega
    · rename_i hn
      have hdiv : n / 10 < fuel := by omega
      have hmod : n % 10 < 10 := Nat.mod_lt _ (by decide)
      rw [parseDigits_append, ih (n / 10) hdiv]
      simp only [digitChar_toNat (n % 10) hmod]
      have : 48 ≤ 48 + n % 10 ∧ 48 + n % 10 ≤ 57 := by omega
      rw [if_pos this]
      congr 1
      omega

theorem formatDigits_head (fuel n : Nat) (h : n < fuel) :
    ∃ c rest, strconvFormatInt.digits fuel n = c :: rest ∧ 48 ≤ c.toNat ∧ c.toNat ≤ 57 := by
  induction fuel generalizing n with
  | zero => omega
  | succ fuel ih =>
    simp only [strconvFormatInt.digits]
    split
    · rename_i hn
      exact ⟨_, [], rfl, by rw [digitChar_toNat n hn]; omega⟩
    · rename_i hn
      have hdiv : n / 10 < fuel := by omega
      obtain ⟨c, rest, hc, hd⟩ := ih (n / 10) hdiv
      exact ⟨c, rest ++ [Char.ofNat (48 + n % 10)], by rw [hc]; rfl, hd⟩

theorem strconvParseInt_FormatInt (i : Int) (hlo : -(2 : Int) ^ 63 ≤ i) (hhi : i < (2 : Int) ^ 63) :
    strconvParseInt (strconvFormatInt i) = some i := by
  unfold strconvFormatInt
  by_cases hneg : i < 0
  · rw [if_pos hneg]
    obtain ⟨c, rest, hc, -⟩ := formatDigits_head (i.natAbs + 1) i.natAbs (Nat.lt_succ_self _)
    have hparse := formatDigits_parse (i.natAbs + 1) i.natAbs (Nat.lt_succ_self _)
    have hne : strconvFormatInt.digits (i.natAbs + 1) i.natAbs ≠ [] := by rw [hc]; simp
    have hbound : ¬ i.natAbs > 2 ^ 63 := by omega
    have hval : -((i.natAbs : Nat) : Int) = i := by omega
    simp only [strconvParseInt, if_true, hne, if_false, hparse, hbound, hval]
  · rw [if_neg hneg]
    obtain ⟨c, rest, hc, hd⟩ := formatDigits_head (i.natAbs + 1) i.natAbs (Nat.lt_succ_self _)
    have hparse := formatDigits_parse (i.natAbs + 1) i.natAbs (Nat.lt_succ_self _)
    have hbound : ¬ i.natAbs ≥ 2 ^ 63 := by omega
    have hval : ((i.natAbs : Nat) : Int) = i := by omega
    have h1 : c ≠ '-' := by
      intro e
      rw [e] at hd
      revert hd
      decide
    have h2 : c ≠ '+' := by
      intro e
      rw [e] at hd
      revert hd
      decide
    rw [hc] at hparse
    simp only [strconvParseInt, hc, h1, h2, if_false, hparse, hbound, hval]

theorem dyndns_Ttl_New (zoneName name : String) (rrdatas : List String) (ttl : Int)
    (rrsType : RrsType) (hlo : -(2 : Int) ^ 63 ≤ ttl) (hhi : ttl < (2 : Int) ^ 63) :
    dyndns.Ttl (dyndns.New zoneName name rrdatas ttl rrsType) = if ttl < 0 then 60 else ttl := by
  have himpl : (dyndns.New zoneName name rrdatas ttl rrsType).impl.TTL = strconvFormatInt ttl := rfl
  unfold dyndns.Ttl
  rw [himpl, strconvParseInt_FormatInt ttl hlo hhi]

theorem stubs_lookup_isSome (st : stubs.Store) (k : String) :
    (st.lookup k).isSome = true ↔ k ∈ st.map Prod.fst := by
  induction st with
  | nil => simp
  | cons e t ih =>
    obtain ⟨k2, r⟩ := e
    by_cases h : k = k2
    · subst h
      simp [List.lookup]
    · have hb : (k == k2) = false := by simpa using h
      simp [List.lookup, hb, ih, h]

theorem stubs_CreateRecord_ok (st st2 : stubs.Store) (r : godynect.Record)
    (h : stubs.CreateRecord st r = (none, st2)) :
    stubs.hashKey r ∉ st.map Prod.fst ∧ st2 = st ++ [(stubs.hashKey r, r)] := by
  unfold stubs.CreateRecord at h
  by_cases hk : (st.lookup (stubs.hashKey r)).isSome = true
  · simp [hk] at h
  · have hk2 := hk
    simp only [Bool.not_eq_true] at hk
    simp only [hk, Bool.false_eq_true, if_false, Prod.mk.injEq, true_and] at h
    exact ⟨fun hm => hk2 ((stubs_lookup_isSome st _).2 hm), h.symm⟩

theorem stubs_CreateRecord_err (st st2 : stubs.Store) (r : godynect.Record) (e : String)
    (h : stubs.CreateRecord st r = (some e, st2)) :
    stubs.hashKey r ∈ st.map Prod.fst ∧ st2 = st := by
  unfold stubs.CreateRecord at h
  by_cases hk : (st.lookup (stubs.hashKey r)).isSome = true
  · simp only [hk, if_true, Prod.mk.injEq] at h
    exact ⟨(stubs_lookup_isSome st _).1 hk, h.2.symm⟩
  · simp [hk] at h

theorem stubs_CreateRecord_present (st : stubs.Store) (r : godynect.Record)
    (h : stubs.hashKey r ∈ st.map Prod.fst) :
    stubs.CreateRecord st r = (some ("Attempt to create duplicate record " ++ r.Name), st) := by
  unfold stubs.CreateRecord
  simp only [(stubs_lookup_isSome st _).2 h, if_true]

theorem stubs_DeleteRecord_ok (st st2 : stubs.Store) (r : godynect.Record)
    (h : stubs.DeleteRecord st r = (none, st2)) :
    stubs.hashKey r ∈ st.map Prod.fst ∧
      st2 = st.filter (fun entry => decide (entry.1 ≠ stubs.hashKey r)) := by
  unfold stubs.DeleteRecord at h
  by_cases hk : (st.lookup (stubs.hashKey r)).isSome = true
  · simp only [hk, Bool.true_eq_false, if_false, Prod.mk.injEq, true_and] at h
    exact ⟨(stubs_lookup_isSome st _).1 hk, h.symm⟩
  · simp only [Bool.not_eq_true] at hk
    simp [hk] at h

theorem stubs_DeleteRecord_err (st st2 : stubs.Store) (r : godynect.Record) (e : String)
    (h : stubs.DeleteRecord st r = (some e, st2)) :
    stubs.hashKey r ∉ st.map Prod.fst ∧ st2 = st := by
  unfold stubs.DeleteRecord at h
  by_cases hk : (st.lookup (stubs.hashKey r)).isSome = true
  · simp [hk] at h
  · have hk2 := hk
    simp only [Bool.not_eq_true] at hk
    simp only [hk, if_true, Prod.mk.injEq] at h
    exact ⟨fun hm => hk2 ((stubs_lookup_isSome st _).2 hm), h.2.symm⟩

theorem stubs_DeleteRecord_absent (st : stubs.Store) (r : godynect.Record)
    (h : stubs.hashKey r ∉ st.map Prod.fst) :
    stubs.DeleteRecord st r =
      (some ("Attempt to delete non-existent record " ++ r.Name), st) := by
  unfold stubs.DeleteRecord
  have hk : (st.lookup (stubs.hashKey r)).isSome = false := by
    rw [← Bool.not_eq_true]
    exact fun hs => h ((stubs_lookup_isSome st _).1 hs)
  simp only [hk, if_true]

theorem stubs_run_append (st : stubs.Store) (a b : List stubs.Call) :
    stubs.run st (a ++ b) = (stubs.run st a).bind (fun st1 => stubs.run st1 b) := by
  induction a generalizing st with
  | nil => rfl
  | cons c t ih =>
    cases c with
    | create r =>
      simp only [List.cons_append, stubs.run]
      split
      · rfl
      · exact ih _
    | delete r =>
      simp only [List.cons_append, stubs.run]
      split
      · rfl
      · exact ih _

theorem addLoop_run (recs : List godynect.Record) (st : stubs.Store) :
    (∀ st2, dyndns.Apply.addLoop stubs.DynDNSAPIStub recs st = (none, st2) →
      stubs.run st (recs.map stubs.Call.create) = some st2) ∧
    (∀ e st2, dyndns.Apply.addLoop stubs.DynDNSAPIStub recs st = (some e, st2) →
      ∃ done failed rest, recs.map stubs.Call.create = done ++ failed :: rest ∧
        stubs.run st done = some st2 ∧ stubs.run st2 [failed] = none) := by
  induction recs generalizing st with
  | nil =>
    constructor
    · intro st2 h
      simp only [dyndns.Apply.addLoop, Prod.mk.injEq, true_and] at h
      simp [stubs.run, h]
    · intro e st2 h
      simp [dyndns.Apply.addLoop] at h
  | cons r t ih =>
    have hapi : stubs.DynDNSAPIStub.CreateRecord st r = stubs.CreateRecord st r := rfl
    simp only [dyndns.Apply.addLoop, hapi, List.map_cons, stubs.run]
    rcases hc : stubs.CreateRecord st r with ⟨_ | e1, s1⟩
    · simp only
      constructor
      · intro st2 h
        exact (ih s1).1 st2 h
      · intro e st2 h
        obtain ⟨done, failed, rest, h1, h2, h3⟩ := (ih s1).2 e st2 h
        refine ⟨stubs.Call.create r :: done, failed, rest, by rw [h1]; rfl, ?_, h3⟩
        simp only [stubs.run, hc, h2]
    · simp only
      constructor
      · intro st2 h
        simp at h
      · intro e st2 h
        simp only [Prod.mk.injEq] at h
        obtain ⟨-, rfl⟩ := h
        obtain ⟨-, rfl⟩ := stubs_CreateRecord_err st s1 r e1 hc
        refine ⟨[], stubs.Call.create r, t.map stubs.Call.create, rfl, rfl, ?_⟩
        simp only [stubs.run, hc]

theorem deleteLoop_run (recs : List godynect.Record) (st : stubs.Store) :
    (∀ st2, dyndns.Apply.deleteLoop stubs.DynDNSAPIStub recs st = (none, st2) →
      stubs.run st (recs.map stubs.Call.delete) = some st2) ∧
    (∀ e st2, dyndns.Apply.deleteLoop stubs.DynDNSAPIStub recs st = (some e, st2) →
      ∃ done failed rest, recs.map stubs.Call.delete = done ++ failed :: rest ∧
        stubs.run st done = some st2 ∧ stubs.run st2 [failed] = none) := by
  induction recs generalizing st with
  | nil =>
    constructor
    · intro st2 h
      simp only [dyndns.Apply.deleteLoop, Prod.mk.injEq, true_and] at h
      simp [stubs.run, h]
    · intro e st2 h
      simp [dyndns.Apply.deleteLoop] at h
  | cons r t ih =>
    have hid : stubs.DynDNSAPIStub.GetRecordID st r = .ok r := rfl
    have hapi : stubs.DynDNSAPIStub.DeleteRecord st r = stubs.DeleteRecord st r := rfl
    simp only [dyndns.Apply.deleteLoop, hid, hapi, List.map_cons, stubs.run]
    rcases hc : stubs.DeleteRecord st r with ⟨_ | e1, s1⟩
    · simp only
      constructor
      · intro st2 h
        exact (ih s1).1 st2 h
      · intro e st2 h
        obtain ⟨done, failed, rest, h1, h2, h3⟩ := (ih s1).2 e st2 h
        refine ⟨stubs.Call.delete r :: done, failed, rest, by rw [h1]; rfl, ?_, h3⟩
        simp only [stubs.run, hc, h2]
    · simp only
      constructor
      · intro st2 h
        simp at h
      · intro e st2 h
        simp only [Prod.mk.injEq] at h
        obtain ⟨-, rfl⟩ := h
        obtain ⟨-, rfl⟩ := stubs_DeleteRecord_err st s1 r e1 hc
        refine ⟨[], stubs.Call.delete r, t.map stubs.Call.delete, rfl, rfl, ?_⟩
        simp only [stubs.run, hc]

theorem applyLoop_run (zoneName : String) (cs : List (Change dyndns.ResourceRecordSet))
    (st : stubs.Store) :
    (∀ st2, dyndns.Apply.loop stubs.DynDNSAPIStub zoneName cs st = (none, st2) →
      stubs.run st (dyndns.recordCalls zoneName cs) = some st2) ∧
    (∀ e st2, dyndns.Apply.loop stubs.DynDNSAPIStub zoneName cs st = (some e, st2) →
      ∃ done failed rest, dyndns.recordCalls zoneName cs = done ++ failed :: rest ∧
        stubs.run st done = some st2 ∧ stubs.run st2 [failed] = none) := by
  induction cs generalizing st with
  | nil =>
    constructor
    · intro st2 h
      simp only [dyndns.Apply.loop, Prod.mk.injEq, true_and] at h
      simp [dyndns.recordCalls, stubs.run, h]
    · intro e st2 h
      simp [dyndns.Apply.loop] at h
  | cons c t ih =>
    cases c with
    | add rrset =>
      simp only [dyndns.Apply.loop, dyndns.recordCalls]
      have hl := addLoop_run (dyndns.GetRecordsFromDNSRRS zoneName rrset) st
      rcases hc : dyndns.Apply.addLoop stubs.DynDNSAPIStub
          (dyndns.GetRecordsFromDNSRRS zoneName rrset) st with ⟨_ | e1, s1⟩
      · have h1 := hl.1 s1 hc
        simp only
        constructor
        · intro st2 h
          rw [stubs_run_append, h1]
          exact (ih s1).1 st2 h
        · intro e st2 h
          obtain ⟨done, failed, rest, h2, h3, h4⟩ := (ih s1).2 e st2 h
          refine ⟨_ ++ done, failed, rest, by rw [h2, List.append_assoc], ?_, h4⟩
          rw [stubs_run_append, h1]
          exact h3
      · simp only
        constructor
        · intro st2 h
          simp at h
        · intro e st2 h
          simp only [Prod.mk.injEq] at h
          obtain ⟨-, rfl⟩ := h
          obtain ⟨done, failed, rest, h2, h3, h4⟩ := hl.2 e1 s1 hc
          exact ⟨done, failed, rest ++ dyndns.recordCalls zoneName t,
            by rw [h2]; simp, h3, h4⟩
    | remove rrset =>
      simp only [dyndns.Apply.loop, dyndns.recordCalls]
      have hl := deleteLoop_run (dyndns.GetRecordsFromDNSRRS zoneName rrset) st
      rcases hc : dyndns.Apply.deleteLoop stubs.DynDNSAPIStub
          (dyndns.GetRecordsFromDNSRRS zoneName rrset) st with ⟨_ | e1, s1⟩
      · have h1 := hl.1 s1 hc
        simp only
        constructor
        · intro st2 h
          rw [stubs_run_append, h1]
          exact (ih s1).1 st2 h
        · intro e st2 h
          obtain ⟨done, failed, rest, h2, h3, h4⟩ := (ih s1).2 e st2 h
          refine ⟨_ ++ done, failed, rest, by rw [h2, List.append_assoc], ?_, h4⟩
          rw [stubs_run_append, h1]
          exact h3
      · simp only
        constructor
        · intro st2 h
          simp at h
        · intro e st2 h
          simp only [Prod.mk.injEq] at h
          obtain ⟨-, rfl⟩ := h
          obtain ⟨done, failed, rest, h2, h3, h4⟩ := hl.2 e1 s1 hc
          exact ⟨done, failed, rest ++ dyndns.recordCalls zoneName t,
            by rw [h2]; simp, h3, h4⟩

theorem dyndns_Apply_run (zoneName : String) (cs : List (Change dyndns.ResourceRecordSet))
    (st : stubs.Store) :
    (∀ st2, dyndns.Apply stubs.DynDNSAPIStub zoneName st cs = (none, st2) →
      stubs.run st (dyndns.recordCalls zoneName cs) = some st2) ∧
    (∀ e st2, dyndns.Apply stubs.DynDNSAPIStub zoneName st cs = (some e, st2) →
      ∃ done failed rest, dyndns.recordCalls zoneName cs = done ++ failed :: rest ∧
        stubs.run st done = some st2 ∧ stubs.run st2 [failed] = none) := by
  have hl := applyLoop_run zoneName cs st
  have hpub : ∀ s, stubs.DynDNSAPIStub.PublishZone s zoneName = (none, s) := fun _ => rfl
  unfold dyndns.Apply
  by_cases hlen : cs.length = 0
  · have hnil : cs = [] := List.length_eq_zero.mp hlen
    subst hnil
    simp [dyndns.recordCalls, stubs.run]
  · rw [if_neg hlen]
    rcases hc : dyndns.Apply.loop stubs.DynDNSAPIStub zoneName cs st with ⟨_ | e1, s1⟩
    · simp only [hpub]
      constructor
      · intro st2 h
        simp only [Prod.mk.injEq, true_and] at h
        subst h
        exact hl.1 s1 hc
      · intro e st2 h
        simp at h
    · simp only
      constructor
      · intro st2 h
        simp at h
      · intro e st2 h
        simp only [Prod.mk.injEq] at h
        obtain ⟨-, rfl⟩ := h
        exact hl.2 e1 s1 hc

theorem GetRecordsFromDNSRRS_ne_nil (zoneName : String) (rrs : dyndns.ResourceRecordSet) :
    dyndns.GetRecordsFromDNSRRS zoneName rrs ≠ [] := by
  unfold dyndns.GetRecordsFromDNSRRS
  simp only
  generalize (if rrs.isPointer = true then rrs.impl
    else dyndns.newRecord zoneName (dyndns.Name rrs) (dyndns.Rrdatas rrs) (dyndns.Ttl rrs)
      (dyndns.recordType rrs)) = impl
  split
  · simp
  · intro h
    rw [List.map_eq_nil_iff] at h
    unfold stringsSplit at h
    rw [List.map_eq_nil_iff] at h
    exact stringsSplit_chars_ne_nil _ _ h

theorem dyndns_add_present_fails (zoneName : String) (st : stubs.Store)
    (rs : dyndns.ResourceRecordSet)
    (h : ∀ rec ∈ dyndns.GetRecordsFromDNSRRS zoneName rs, stubs.hashKey rec ∈ st.map Prod.fst) :
    ∃ e, dyndns.Apply stubs.DynDNSAPIStub zoneName st [Change.add rs] = (some e, st) := by
  cases hrecs : dyndns.GetRecordsFromDNSRRS zoneName rs with
  | nil => exact absurd hrecs (GetRecordsFromDNSRRS_ne_nil zoneName rs)
  | cons r t =>
    have hr := h r (hrecs ▸ List.mem_cons_self _ _)
    have hapi : stubs.DynDNSAPIStub.CreateRecord st r = stubs.CreateRecord st r := rfl
    refine ⟨"Couldn't add record " ++ r.Name ++ " with value " ++ r.Value ++ ": " ++
      ("Attempt to create duplicate record " ++ r.Name), ?_⟩
    simp only [dyndns.Apply, List.length_singleton, one_ne_zero, if_false, dyndns.Apply.loop,
      hrecs, dyndns.Apply.addLoop, hapi, stubs_CreateRecord_present st r hr]

theorem dyndns_remove_absent_fails (zoneName : String) (st : stubs.Store)
    (rs : dyndns.ResourceRecordSet)
    (h : ∀ rec ∈ dyndns.GetRecordsFromDNSRRS zoneName rs, stubs.hashKey rec ∉ st.map Prod.fst) :
    ∃ e, dyndns.Apply stubs.DynDNSAPIStub zoneName st [Change.remove rs] = (some e, st) := by
  cases hrecs : dyndns.GetRecordsFromDNSRRS zoneName rs with
  | nil => exact absurd hrecs (GetRecordsFromDNSRRS_ne_nil zoneName rs)
  | cons r t =>
    have hr := h r (hrecs ▸ List.mem_cons_self _ _)
    have hid : stubs.DynDNSAPIStub.GetRecordID st r = .ok r := rfl
    have hapi : stubs.DynDNSAPIStub.DeleteRecord st r = stubs.DeleteRecord st r := rfl
    refine ⟨"Couldn't delete record " ++ r.Name ++ " with value " ++ r.Value ++ ": " ++
      ("Attempt to delete non-existent record " ++ r.Name), ?_⟩
    simp only [dyndns.Apply, List.length_singleton, one_ne_zero, if_false, dyndns.Apply.loop,
      hrecs, dyndns.Apply.deleteLoop, hid, hapi, stubs_DeleteRecord_absent st r hr]

theorem stubs_run_create_all (recs : List godynect.Record) (st st1 : stubs.Store)
    (h : stubs.run st (recs.map stubs.Call.create) = some st1) :
    st1 = st ++ recs.map (fun r => (stubs.hashKey r, r)) ∧
      ∀ r ∈ recs, stubs.hashKey r ∉ st.map Prod.fst := by
  induction recs generalizing st with
  | nil =>
    simp only [List.map_nil, stubs.run, Option.some.injEq] at h
    simp [h]
  | cons r t ih =>
    simp only [List.map_cons, stubs.run] at h
    rcases hc : stubs.CreateRecord st r with ⟨_ | e1, s1⟩
    · rw [hc] at h
      simp only at h
      obtain ⟨hk, rfl⟩ := stubs_CreateRecord_ok st s1 r hc
      obtain ⟨h1, h2⟩ := ih _ h
      refine ⟨by rw [h1]; simp, ?_⟩
      intro r2 hr2
      rcases List.mem_cons.mp hr2 with rfl | hr2
      · exact hk
      · intro hm
        apply h2 r2 hr2
        simp only [List.map_append, List.mem_append]
        exact Or.inl hm
    · rw [hc] at h
      simp at h

theorem stubs_run_delete_all (recs : List godynect.Record) (st st2 : stubs.Store)
    (h : stubs.run st (recs.map stubs.Call.delete) = some st2) :
    st2 = st.filter (fun entry => decide (entry.1 ∉ recs.map stubs.hashKey)) := by
  induction recs generalizing st with
  | nil =>
    simp only [List.map_nil, stubs.run, Option.some.injEq] at h
    simp [h]
  | cons r t ih =>
    simp only [List.map_cons, stubs.run] at h
    rcases hc : stubs.DeleteRecord st r with ⟨_ | e1, s1⟩
    · rw [hc] at h
      simp only at h
      obtain ⟨-, rfl⟩ := stubs_DeleteRecord_ok st s1 r hc
      rw [ih _ h, List.filter_filter]
      apply List.filter_congr
      intro entry _
      rw [Bool.eq_iff_iff]
      simp only [Bool.and_eq_true, decide_eq_true_eq, List.map_cons, List.mem_cons, not_or,
        ne_eq]
      tauto
    · rw [hc] at h
      simp at h

theorem stubs_add_then_delete (recs : List godynect.Record) (st : stubs.Store)
    (hfresh : ∀ r ∈ recs, stubs.hashKey r ∉ st.map Prod.fst) :
    (st ++ recs.map (fun r => (stubs.hashKey r, r))).filter
      (fun entry => decide (entry.1 ∉ recs.map stubs.hashKey)) = st := by
  rw [List.filter_append]
  have h1 : st.filter (fun entry => decide (entry.1 ∉ recs.map stubs.hashKey)) = st := by
    rw [List.filter_eq_self]
    intro entry he
    simp only [decide_eq_true_eq, List.mem_map, not_exists, not_and]
    intro r hr hk
    apply hfresh r hr
    rw [hk]
    exact List.mem_map_of_mem Prod.fst he
  have h2 : (recs.map (fun r => (stubs.hashKey r, r))).filter
      (fun entry => decide (entry.1 ∉ recs.map stubs.hashKey)) = [] := by
    rw [List.filter_eq_nil_iff]
    intro entry he
    simp only [List.mem_map] at he
    obtain ⟨r, hr, rfl⟩ := he
    simp only [decide_eq_true_eq, not_not]
    exact List.mem_map_of_mem _ hr
  rw [h1, h2, List.append_nil]

theorem strconvParseInt_range (x : String) (v : Int) (h : strconvParseInt x = some v) :
    -(2 : Int) ^ 63 ≤ v ∧ v < (2 : Int) ^ 63 := by
  unfold strconvParseInt at h
  repeat' split at h
  all_goals try cases h
  all_goals constructor <;> omega

theorem dyndns_Ttl_range (rrset : dyndns.ResourceRecordSet) :
    0 ≤ dyndns.Ttl rrset ∧ dyndns.Ttl rrset < (2 : Int) ^ 63 := by
  unfold dyndns.Ttl
  split
  · constructor <;> decide
  · rename_i v hv
    have := strconvParseInt_range _ v hv
    split
    · constructor <;> decide
    · constructor <;> omega

theorem dyndns_Ttl_of_formatted (rec : godynect.Record) (p : Bool) (ttl : Int)
    (hlo : 0 ≤ ttl) (hhi : ttl < (2 : Int) ^ 63) (h : rec.TTL = strconvFormatInt ttl) :
    dyndns.Ttl (dyndns.ResourceRecordSet.mk rec p) = ttl := by
  unfold dyndns.Ttl
  simp only [h]
  rw [strconvParseInt_FormatInt ttl (by omega) hhi]
  have : ¬ ttl < 0 := by omega
  simp [this]

theorem stringsJoin_singleton (d sep : String) : stringsJoin [d] sep = d := by
  simp [stringsJoin, String.intercalate, String.intercalate.go]

theorem stringsSplit_part (x d : String) (sep : Char) (h : d ∈ stringsSplit x sep) :
    stringsSplit d sep = [d] := by
  unfold stringsSplit at h ⊢
  rw [List.mem_map] at h
  obtain ⟨part, hpart, rfl⟩ := h
  rw [stringsSplit_chars_no_sep sep _ (stringsSplit_chars_mem sep _ part hpart)]
  rfl

theorem dyndns_records_of_pointer (zoneName : String) (rs : dyndns.ResourceRecordSet)
    (hp : rs.isPointer = true)
    (hname : (dyndns.populateRecordWithName (dyndns.Name rs)
      { godynect.newRecord with Zone := zoneName }).Name = dyndns.Name rs)
    (d : String) (hd : d ∈ dyndns.Rrdatas rs) :
    ∃ rec ∈ dyndns.GetRecordsFromDNSRRS zoneName rs,
      rec.Name = dyndns.Name rs ∧ rec.RrType = dyndns.recordType rs ∧
      dyndns.Ttl (dyndns.ResourceRecordSet.mk rec false) = dyndns.Ttl rs ∧
      stringsSplit rec.Value ',' = [d] := by
  unfold dyndns.GetRecordsFromDNSRRS
  simp only [hp, if_true]
  unfold dyndns.Rrdatas at hd
  by_cases hlen : (stringsSplit rs.impl.Value ',').length = 1
  · rw [if_pos hlen]
    refine ⟨rs.impl, List.mem_singleton_self _, rfl, rfl, rfl, ?_⟩
    obtain ⟨a, ha⟩ := List.length_eq_one.mp hlen
    rw [ha] at hd ⊢
    rw [List.mem_singleton.mp hd]
  · rw [if_neg hlen]
    refine ⟨dyndns.newRecord zoneName (dyndns.Name rs) [d] (dyndns.Ttl rs) (dyndns.recordType rs),
      List.mem_map_of_mem _ hd, ?_, ?_, ?_, ?_⟩
    · have : (dyndns.newRecord zoneName (dyndns.Name rs) [d] (dyndns.Ttl rs)
          (dyndns.recordType rs)).Name =
          (dyndns.populateRecordWithName (dyndns.Name rs)
            { godynect.newRecord with Zone := zoneName }).Name := rfl
      rw [this, hname]
    · rfl
    · exact dyndns_Ttl_of_formatted _ false (dyndns.Ttl rs) (dyndns_Ttl_range rs).1
        (dyndns_Ttl_range rs).2 rfl
    · have : (dyndns.newRecord zoneName (dyndns.Name rs) [d] (dyndns.Ttl rs)
          (dyndns.recordType rs)).Value = stringsJoin [d] "," := rfl
      rw [this, stringsJoin_singleton]
      exact stringsSplit_part _ d ',' hd

theorem dyndns_Get_stub (zoneName : String) (st : stubs.Store) (name : String) :
    dyndns.Get stubs.DynDNSAPIStub zoneName st name =
      .ok (((st.map Prod.snd).filter (fun rec => decide (rec.Name =
        (dyndns.populateRecordWithName name
          { godynect.newRecord with Zone := zoneName }).Name))).map
        (fun rec => dyndns.ResourceRecordSet.mk rec false)) := rfl

theorem parseGlobalLbStatus_missing {σ ρ : Type} (idc : IngressDNSController σ ρ)
    (ingress : Ingress)
    (hmissing : ingress.Annotations = none ∨
      ∃ a, ingress.Annotations = some a ∧ a.lookup globalIngressLBStatus = none) :
    parseGlobalLbStatusAnnotation idc ingress = (none, none) := by
  rcases hmissing with ha | ⟨a, ha, hl⟩
  · simp only [ parseGlobalLbStatusAnnotation, ha]
  · simp only [ parseGlobalLbStatusAnnotation, ha, hl]

theorem workerFunctionWith_missing {σ ρ τ : Type} (step : ClusterStep τ)
    (idc : IngressDNSController σ ρ) (ingress : Ingress) (st : τ)
    (hp : parseGlobalLbStatusAnnotation idc ingress = (none, none)) :
    workerFunctionWith step idc (some ingress) st = (.ok false, st) := by
  unfold workerFunctionWith
  simp only [hp]
  split <;> rfl

theorem ensureLoop_no_panic {τ : Type} (ensure : EnsureFn τ) (names : List String)
    (l : List (List String)) (i : Nat) (st : τ) (msg : String) :
    (ensureDNSRecords.loop ensure names i l st).1 ≠ .panic msg := by
  induction l generalizing i st with
  | nil => simp [ensureDNSRecords.loop]
  | cons a t ih =>
    simp only [ensureDNSRecords.loop]
    split
    · simp
    · exact ih _ _

theorem getHealthyEndpoints_present_no_panic {σ ρ : Type} (idc : IngressDNSController σ ρ)
    (clusterName : String) (ingress : Ingress) (m : GlobalLbStat) (msg : String)
    (hp : parseGlobalLbStatusAnnotation idc ingress = (some m, none)) :
    getHealthyEndpoints idc clusterName ingress ≠ .panic msg := by
  unfold getHealthyEndpoints
  split
  · simp
  · split
    · simp
    · simp only [hp]
      split <;> simp

theorem ensureDNSRecords_present_no_nil_panic {σ ρ : Type} (idc : IngressDNSController σ ρ)
    (st : σ) (clusterName : String) (ingress : Ingress) (m : GlobalLbStat)
    (hp : parseGlobalLbStatusAnnotation idc ingress = (some m, none)) :
    (ensureDNSRecords idc st clusterName ingress).1 ≠
      .panic "invalid memory address or nil pointer dereference" := by
  unfold ensureDNSRecords ensureDNSRecordsWith
  split
  · simp
  · split
    · simp
    · split
      · simp
      · rename_i msg hmsg
        exact absurd hmsg (getHealthyEndpoints_present_no_panic idc clusterName ingress m msg hp)
      · split
        · simp only [ne_eq, Outcome.panic.injEq]
          decide
        · exact ensureLoop_no_panic _ _ _ _ _ _

theorem workerLoop_no_nil_panic {τ : Type} (step : ClusterStep τ) (ingress : Ingress)
    (hstep : ∀ st c, (step st c ingress).1 ≠
      .panic "invalid memory address or nil pointer dereference")
    (clusters : List String) (st : τ) :
    (workerFunction.loop step ingress clusters st).1 ≠
      .panic "invalid memory address or nil pointer dereference" := by
  induction clusters generalizing st with
  | nil => simp [workerFunction.loop]
  | cons c t ih =>
    simp only [workerFunction.loop]
    have h := hstep st c
    split
    · rename_i msg st2 heq
      rw [heq] at h
      exact h
    · exact ih _

theorem workerFunction_no_nil_panic {σ ρ : Type} (idc : IngressDNSController σ ρ)
    (item : Option Ingress) (st : σ) :
    (workerFunction idc item st).1 ≠
      .panic "invalid memory address or nil pointer dereference" := by
  unfold workerFunction workerFunctionWith
  cases item with
  | none => simp
  | some ingress =>
    simp only
    split
    · simp
    · split
      · simp
      · simp
      · rename_i m hp
        have h := workerLoop_no_nil_panic (ensureDNSRecords idc) ingress
          (fun st c => ensureDNSRecords_present_no_nil_panic idc st c ingress m hp)
          (m.map Prod.fst) st
        split
        · rename_i msg st2 heq
          rw [heq] at h
          intro hc
          apply h
          simp only [Outcome.panic.injEq] at hc ⊢
          exact hc
        · simp

/-! ## The claims -/

/-- C1: hierarchical fallback scenario. With cluster c1 in region fooregion and zone foozone,
cluster c2 in region barregion and zone barzone, domain federation.example.com, federation
myfederation, suffix ing, an ingress ingname of namespace ingns whose status annotation
decodes to the addresses 198.51.100.1 and 198.51.100.2 for c1 and to no address for c2 (in
either iteration order of the map), and a record store that holds no record, running
ensureDNSRecords for c1 and then for c2 returns nil twice and leaves exactly the five
record sets of the scenario: the store is a permutation of them. It holds for any
library functions that accept the two addresses as IP literals. -/
theorem ensureDNSRecords_scenario (s : AbstractDNSController RecordSet)
    (jsonUnmarshal : String → GlobalLbStat × Option String) (value : String)
    (h1 : s.ParseIP "198.51.100.1" = true) (h2 : s.ParseIP "198.51.100.2" = true)
    (hdec : jsonUnmarshal value = ([scenarioStatusC1, scenarioStatusC2], none) ∨
      jsonUnmarshal value = ([scenarioStatusC2, scenarioStatusC1], none)) :
    ∃ st1 st2,
      ensureDNSRecords (scenarioController s jsonUnmarshal) [] "c1" (scenarioIngress value) =
        (.ok (), st1) ∧
      ensureDNSRecords (scenarioController s jsonUnmarshal) st1 "c2" (scenarioIngress value) =
        (.ok (), st2) ∧
      st2.Perm scenarioRecords := by
  have e1 := scenario_endpoints_c1 s jsonUnmarshal value hdec
  have e2 := scenario_endpoints_c2 s jsonUnmarshal value hdec
  have hr := scenario_resolved s h1 h2
  have hc1 : getClusterZoneNames (scenarioController s jsonUnmarshal) "c1" =
      .ok (some ["foozone"], "fooregion") := by
    simp [getClusterZoneNames, scenarioController, scenarioClusters]
  have hc2 : getClusterZoneNames (scenarioController s jsonUnmarshal) "c2" =
      .ok (some ["barzone"], "barregion") := by
    simp +decide [getClusterZoneNames, scenarioController, scenarioClusters]
  have hn1 : dnsNamesOf (scenarioController s jsonUnmarshal) (scenarioIngress value) "foozone" "fooregion" =
    ["ingname.ingns.myfederation.ing.foozone.fooregion.federation.example.com",
     "ingname.ingns.myfederation.ing.fooregion.federation.example.com",
     "ingname.ingns.myfederation.ing.federation.example.com", ""] := by
    simp only [dnsNamesOf, commonPrefixOf, scenarioController, scenarioIngress, stringsJoin]
    decide
  have hn2 : dnsNamesOf (scenarioController s jsonUnmarshal) (scenarioIngress value) "barzone" "barregion" =
    ["ingname.ingns.myfederation.ing.barzone.barregion.federation.example.com",
     "ingname.ingns.myfederation.ing.barregion.federation.example.com",
     "ingname.ingns.myfederation.ing.federation.example.com", ""] := by
    simp only [dnsNamesOf, commonPrefixOf, scenarioController, scenarioIngress, stringsJoin]
    decide
  simp only [ensureDNSRecords, ensureDNSRecordsWith, hc1, hc2, e1, e2, hn1, hn2]
  simp +decide [ensureDNSRecords.loop, EnsureDNSRrsets, GetRrset, scenarioController, memZone, memRecordSets, hr,
    removeAll, findRrset, minDNSTTL, rrstype.A, rrstype.CNAME]
  split_ifs
  · refine ⟨_, rfl, ?_⟩
    decide
  · refine ⟨_, rfl, ?_⟩
    decide

/-- Witness of C1 with the library functions of the concrete instances. -/
theorem ensureDNSRecords_scenario_witness :
    ∃ st1 st2,
      ensureDNSRecords
          (scenarioController memController (fun _ => ([scenarioStatusC1, scenarioStatusC2], none)))
          [] "c1" (scenarioIngress "global-lb-status") = (.ok (), st1) ∧
      ensureDNSRecords
          (scenarioController memController (fun _ => ([scenarioStatusC1, scenarioStatusC2], none)))
          st1 "c2" (scenarioIngress "global-lb-status") = (.ok (), st2) ∧
      st2.Perm scenarioRecords :=
  ensureDNSRecords_scenario memController (fun _ => ([scenarioStatusC1, scenarioStatusC2], none))
    "global-lb-status" (by decide) (by decide) (Or.inl rfl)

/-- C2: idempotence of EnsureDNSRrsets. Over a record store whose Get returns the record sets
as they were added, and a library equivalence test that holds between a record set and
itself, if a call of EnsureDNSRrsets returns nil then the call repeated with the same
arguments on the state it left appends nothing to the journal of applied changesets and
leaves the store as it is. The endpoints are literal IP addresses, as in the claim; the
proof does not use it, as the model resolves a host name to the same addresses in both
calls. -/
theorem EnsureDNSRrsets_idempotent {σ ρ : Type} (s : AbstractDNSController ρ) (zone : Zone σ ρ)
    (records : σ → List ρ) (hstore : FaithfulStore zone.rrsets records)
    (hrefl : ∀ r, s.ResourceRecordSetsEquivalent r r = true)
    (st : σ) (journal : Journal ρ) (dnsName : String) (endpoints : List String)
    (uplevelCname : String) (_hip : ∀ e ∈ endpoints, s.ParseIP e = true)
    (st1 : σ) (journal1 : Journal ρ)
    (h1 : EnsureDNSRrsets s zone.journalled (st, journal) dnsName endpoints uplevelCname =
      (none, (st1, journal1))) :
    (EnsureDNSRrsets s zone.journalled (st1, journal1) dnsName endpoints uplevelCname).2 =
      (st1, journal1) := by
  have hj : FaithfulStore zone.journalled.rrsets (fun st => records st.1) :=
    FaithfulStore.journalled hstore
  rcases EnsureDNSRrsets_ok_cases s zone.journalled _ hj _ _ dnsName endpoints uplevelCname h1
    with ⟨_, hsame⟩ | ⟨_, hrec⟩
  · rw [hsame, h1]
    exact hsame
  · apply EnsureDNSRrsets_settled s zone.journalled _ hj hrefl
    · intro r hr hn
      rcases (hrec r).1 hr with h | h
      · exact absurd hn h.2
      · exact h.1
    · intro hc
      exact (hrec _).2 (Or.inr ⟨rfl, hc⟩)

/-- Witness of C2: the second reconciliation of www.example.com with two addresses over the
in-memory store. -/
theorem EnsureDNSRrsets_idempotent_witness :
    (EnsureDNSRrsets memController memZone.journalled
        ([RecordSet.mk "www.example.com" ["198.51.100.1", "198.51.100.2"] 180 "A"],
         [[Change.add (RecordSet.mk "www.example.com" ["198.51.100.1", "198.51.100.2"] 180 "A")]])
        "www.example.com" ["198.51.100.2", "198.51.100.1"] "up.example.com").2 =
      ([RecordSet.mk "www.example.com" ["198.51.100.1", "198.51.100.2"] 180 "A"],
       [[Change.add (RecordSet.mk "www.example.com" ["198.51.100.1", "198.51.100.2"] 180 "A")]]) :=
  EnsureDNSRrsets_idempotent memController memZone (fun st => st) memRecordSets_faithful
    recordSetsEquivalent_refl [] [] "www.example.com" ["198.51.100.2", "198.51.100.1"]
    "up.example.com" (by decide) _ _ (by decide)

/-- C3, the code at the failing input: the store holds, under www.example.com, the wanted A
record set and an AAAA record set. EnsureDNSRrsets finds the A record set, returns nil and
changes nothing, so two record sets remain under the name and not exactly one. -/
theorem EnsureDNSRrsets_keeps_other_record_sets :
    EnsureDNSRrsets memController memZone
        [RecordSet.mk "www.example.com" ["198.51.100.1"] 180 "A",
         RecordSet.mk "www.example.com" ["2001:db8::1"] 180 "AAAA"]
        "www.example.com" ["198.51.100.1"] "up.example.com" =
      (none, [RecordSet.mk "www.example.com" ["198.51.100.1"] 180 "A",
              RecordSet.mk "www.example.com" ["2001:db8::1"] 180 "AAAA"]) ∧
    ¬ ∃ r : RecordSet, ∀ x,
      (x ∈ [RecordSet.mk "www.example.com" ["198.51.100.1"] 180 "A",
            RecordSet.mk "www.example.com" ["2001:db8::1"] 180 "AAAA"] ∧
        x.name = "www.example.com") ↔ x = r := by
  refine ⟨by decide, ?_⟩
  rintro ⟨r, hr⟩
  have h1 := (hr (RecordSet.mk "www.example.com" ["198.51.100.1"] 180 "A")).1 (by decide)
  have h2 := (hr (RecordSet.mk "www.example.com" ["2001:db8::1"] 180 "AAAA")).1 (by decide)
  rw [← h2] at h1
  exact absurd h1 (by decide)

/-- The replace path of EnsureDNSRrsets with endpoints, which removes every record set of the
name: over a record store whose Get returns the record sets as they were added,
for a non-empty list of literal IP endpoints, if EnsureDNSRrsets returns nil and, before
the call, every record set of dnsName that the library deems equivalent to the wanted A
record set was the only record set of dnsName, then afterwards the record sets stored
under dnsName are exactly one record set, of type A, with TTL 180, whose data has no
duplicate and holds exactly the endpoints. The library equivalence test is taken to
imply equal type, equal TTL and equal data up to order. -/
theorem EnsureDNSRrsets_endpoints_single_A {σ ρ : Type} (s : AbstractDNSController ρ)
    (zone : Zone σ ρ) (records : σ → List ρ) (hstore : FaithfulStore zone.rrsets records)
    (hsound : ∀ a b, s.ResourceRecordSetsEquivalent a b = true →
      zone.rrsets.RrsType b = zone.rrsets.RrsType a ∧ zone.rrsets.Ttl b = zone.rrsets.Ttl a ∧
        (zone.rrsets.Rrdatas b).Perm (zone.rrsets.Rrdatas a))
    (st st2 : σ) (dnsName : String) (endpoints : List String) (uplevelCname : String)
    (hne : endpoints ≠ []) (hip : ∀ e ∈ endpoints, s.ParseIP e = true)
    (halone : ∀ e ∈ records st, zone.rrsets.Name e = dnsName →
      s.ResourceRecordSetsEquivalent
        (zone.rrsets.New dnsName (GetResolvedEndpoints s endpoints).1 minDNSTTL rrstype.A) e = true →
      ∀ x ∈ records st, zone.rrsets.Name x = dnsName → x = e)
    (h : EnsureDNSRrsets s zone st dnsName endpoints uplevelCname = (none, st2)) :
    ∃ r, (∀ x, (x ∈ records st2 ∧ zone.rrsets.Name x = dnsName) ↔ x = r) ∧
      zone.rrsets.RrsType r = rrstype.A ∧ zone.rrsets.Ttl r = 180 ∧
      (zone.rrsets.Rrdatas r).Nodup ∧ ∀ a, a ∈ zone.rrsets.Rrdatas r ↔ a ∈ endpoints := by
  have hlen : ¬ endpoints.length < 1 := by
    cases endpoints with
    | nil => exact absurd rfl hne
    | cons a t => simp
  have hd : desiredRrset s zone.rrsets dnsName endpoints uplevelCname =
      zone.rrsets.New dnsName (GetResolvedEndpoints s endpoints).1 minDNSTTL rrstype.A := by
    simp [desiredRrset, hlen]
  have hres := GetResolvedEndpoints_literal s endpoints hip
  have hdn := desiredRrset_Name s hstore dnsName endpoints uplevelCname
  rcases EnsureDNSRrsets_ok_cases s zone records hstore st st2 dnsName endpoints uplevelCname h
    with ⟨hfound, hsame⟩ | ⟨_, hrec⟩
  · -- an equivalent record set is stored: it is the only one of the name
    obtain ⟨e, he⟩ := Option.ne_none_iff_exists'.mp hfound
    obtain ⟨hmem, _, heq⟩ := findRrset_eq_some s zone.rrsets _ _ e he
    simp only [List.mem_filter, decide_eq_true_eq] at hmem
    rw [hd] at heq
    obtain ⟨hty, httl, hperm⟩ := hsound _ _ heq
    rw [hstore.new_RrsType] at hty
    rw [hstore.new_Ttl] at httl
    rw [hstore.new_Rrdatas, hres] at hperm
    refine ⟨e, ?_, hty, httl, ?_, ?_⟩
    · intro x
      rw [hsame]
      constructor
      · rintro ⟨hx, hn⟩
        exact halone e hmem.1 hmem.2 heq x hx hn
      · rintro rfl
        exact hmem
    · exact hperm.nodup_iff.mpr (nodup_resolved_literal endpoints)
    · intro a
      rw [hperm.mem_iff]
      exact mem_resolved_literal endpoints a
  · refine ⟨desiredRrset s zone.rrsets dnsName endpoints uplevelCname, ?_, ?_, ?_, ?_, ?_⟩
    · intro x
      rw [hrec x]
      constructor
      · rintro ⟨h1 | h1, hn⟩
        · exact absurd hn h1.2
        · exact h1.1
      · rintro rfl
        exact ⟨Or.inr ⟨rfl, fun hc => hlen hc.1⟩, hdn⟩
    · rw [hd, hstore.new_RrsType]
    · rw [hd, hstore.new_Ttl]; rfl
    · rw [hd, hstore.new_Rrdatas, hres]
      exact nodup_resolved_literal endpoints
    · intro a
      rw [hd, hstore.new_Rrdatas, hres]
      exact mem_resolved_literal endpoints a

/-- The replace path at an instance: a CNAME record set of www.example.com is replaced by the A
record set of two distinct addresses given with a repetition. -/
theorem EnsureDNSRrsets_endpoints_single_A_witness :
    ∃ r, (∀ x, (x ∈ (EnsureDNSRrsets memController memZone
              [RecordSet.mk "www.example.com" ["up.example.com"] 180 "CNAME"]
              "www.example.com" ["198.51.100.2", "198.51.100.1", "198.51.100.2"]
              "up.example.com").2 ∧
            x.name = "www.example.com") ↔ x = r) ∧
      r.rrsType = rrstype.A ∧ r.ttl = 180 ∧ r.rrdatas.Nodup ∧
      ∀ a, a ∈ r.rrdatas ↔ a ∈ ["198.51.100.2", "198.51.100.1", "198.51.100.2"] :=
  EnsureDNSRrsets_endpoints_single_A memController memZone (fun st => st) memRecordSets_faithful
    recordSetsEquivalent_sound [RecordSet.mk "www.example.com" ["up.example.com"] 180 "CNAME"] _
    "www.example.com" ["198.51.100.2", "198.51.100.1", "198.51.100.2"] "up.example.com"
    (by decide) (by decide) (by decide) (by decide)

/-- C4, the code at the failing input: the store holds, under www.example.com, the wanted CNAME
record set and an A record set. EnsureDNSRrsets with no endpoint finds the CNAME record set, returns
nil and changes nothing, so the A record set is still stored. -/
theorem EnsureDNSRrsets_keeps_A_next_to_cname :
    EnsureDNSRrsets memController memZone
        [RecordSet.mk "www.example.com" ["up.example.com"] 180 "CNAME",
         RecordSet.mk "www.example.com" ["198.51.100.1"] 180 "A"]
        "www.example.com" [] "up.example.com" =
      (none, [RecordSet.mk "www.example.com" ["up.example.com"] 180 "CNAME",
              RecordSet.mk "www.example.com" ["198.51.100.1"] 180 "A"]) ∧
    RecordSet.mk "www.example.com" ["198.51.100.1"] 180 "A" ∈
      (EnsureDNSRrsets memController memZone
        [RecordSet.mk "www.example.com" ["up.example.com"] 180 "CNAME",
         RecordSet.mk "www.example.com" ["198.51.100.1"] 180 "A"]
        "www.example.com" [] "up.example.com").2 := by
  decide

/-- The replace path of EnsureDNSRrsets without endpoints, which removes every record set of
the name: over a record store whose Get returns the record sets as they were added, if
EnsureDNSRrsets is called with no endpoint and returns nil and, before the call, every
record set of dnsName that the library deems equivalent to the CNAME record set to
uplevelCname was the only record set of dnsName, with uplevelCname non-empty, then
afterwards dnsName holds exactly one record set, a CNAME with TTL 180 and data
[uplevelCname], when uplevelCname is non-empty, and no record set at all when
uplevelCname is empty. The library equivalence test is taken to imply equal type, equal
TTL and equal data up to order. -/
theorem EnsureDNSRrsets_no_endpoints_cname {σ ρ : Type} (s : AbstractDNSController ρ)
    (zone : Zone σ ρ) (records : σ → List ρ) (hstore : FaithfulStore zone.rrsets records)
    (hsound : ∀ a b, s.ResourceRecordSetsEquivalent a b = true →
      zone.rrsets.RrsType b = zone.rrsets.RrsType a ∧ zone.rrsets.Ttl b = zone.rrsets.Ttl a ∧
        (zone.rrsets.Rrdatas b).Perm (zone.rrsets.Rrdatas a))
    (st st2 : σ) (dnsName : String) (uplevelCname : String)
    (halone : ∀ e ∈ records st, zone.rrsets.Name e = dnsName →
      s.ResourceRecordSetsEquivalent
        (zone.rrsets.New dnsName [uplevelCname] minDNSTTL rrstype.CNAME) e = true →
      uplevelCname ≠ "" ∧ ∀ x ∈ records st, zone.rrsets.Name x = dnsName → x = e)
    (h : EnsureDNSRrsets s zone st dnsName [] uplevelCname = (none, st2)) :
    (uplevelCname ≠ "" →
      ∃ r, (∀ x, (x ∈ records st2 ∧ zone.rrsets.Name x = dnsName) ↔ x = r) ∧
        zone.rrsets.RrsType r = rrstype.CNAME ∧ zone.rrsets.Ttl r = 180 ∧
        zone.rrsets.Rrdatas r = [uplevelCname]) ∧
    (uplevelCname = "" → ∀ x ∈ records st2, zone.rrsets.Name x ≠ dnsName) := by
  have hd : desiredRrset s zone.rrsets dnsName [] uplevelCname =
      zone.rrsets.New dnsName [uplevelCname] minDNSTTL rrstype.CNAME := by
    simp [desiredRrset]
  have hdn := desiredRrset_Name s hstore dnsName [] uplevelCname
  rcases EnsureDNSRrsets_ok_cases s zone records hstore st st2 dnsName [] uplevelCname h
    with ⟨hfound, hsame⟩ | ⟨_, hrec⟩
  · obtain ⟨e, he⟩ := Option.ne_none_iff_exists'.mp hfound
    obtain ⟨hmem, _, heq⟩ := findRrset_eq_some s zone.rrsets _ _ e he
    simp only [List.mem_filter, decide_eq_true_eq] at hmem
    rw [hd] at heq
    obtain ⟨hup, hone⟩ := halone e hmem.1 hmem.2 heq
    obtain ⟨hty, httl, hperm⟩ := hsound _ _ heq
    rw [hstore.new_RrsType] at hty
    rw [hstore.new_Ttl] at httl
    rw [hstore.new_Rrdatas] at hperm
    refine ⟨fun _ => ⟨e, ?_, hty, httl, List.perm_singleton.mp hperm⟩, fun hc => absurd hc hup⟩
    intro x
    rw [hsame]
    constructor
    · rintro ⟨hx, hn⟩
      exact hone x hx hn
    · rintro rfl
      exact hmem
  · constructor
    · intro hup
      refine ⟨desiredRrset s zone.rrsets dnsName [] uplevelCname, ?_, ?_, ?_, ?_⟩
      · intro x
        rw [hrec x]
        constructor
        · rintro ⟨h1 | h1, hn⟩
          · exact absurd hn h1.2
          · exact h1.1
        · rintro rfl
          exact ⟨Or.inr ⟨rfl, fun hc => hup hc.2⟩, hdn⟩
      · rw [hd, hstore.new_RrsType]
      · rw [hd, hstore.new_Ttl]; rfl
      · rw [hd, hstore.new_Rrdatas]
    · intro hup x hx hn
      rcases (hrec x).1 hx with h1 | h1
      · exact h1.2 hn
      · exact h1.2 ⟨by simp, hup⟩

/-- The replace path at an instance: an A and an AAAA record set of www.example.com are
replaced by the CNAME record set to up.example.com. -/
theorem EnsureDNSRrsets_no_endpoints_cname_witness :
    (("up.example.com" : String) ≠ "" →
      ∃ r, (∀ x, (x ∈ (EnsureDNSRrsets memController memZone
                [RecordSet.mk "www.example.com" ["198.51.100.1"] 180 "A",
                 RecordSet.mk "www.example.com" ["2001:db8::1"] 180 "AAAA"]
                "www.example.com" [] "up.example.com").2 ∧
              x.name = "www.example.com") ↔ x = r) ∧
        r.rrsType = rrstype.CNAME ∧ r.ttl = 180 ∧ r.rrdatas = ["up.example.com"]) ∧
    (("up.example.com" : String) = "" →
      ∀ x ∈ (EnsureDNSRrsets memController memZone
                [RecordSet.mk "www.example.com" ["198.51.100.1"] 180 "A",
                 RecordSet.mk "www.example.com" ["2001:db8::1"] 180 "AAAA"]
                "www.example.com" [] "up.example.com").2,
        x.name ≠ "www.example.com") :=
  EnsureDNSRrsets_no_endpoints_cname memController memZone (fun st => st) memRecordSets_faithful
    recordSetsEquivalent_sound
    [RecordSet.mk "www.example.com" ["198.51.100.1"] 180 "A",
     RecordSet.mk "www.example.com" ["2001:db8::1"] 180 "AAAA"] _
    "www.example.com" "up.example.com" (by decide) (by decide)

/-- C5: for an ingress that carries a deletion timestamp and a target cluster whose lookup
succeeds, getHealthyEndpoints returns empty zone-level, region-level and global-level
lists and no error, whatever the annotations hold. -/
theorem getHealthyEndpoints_deleted {σ ρ : Type} (idc : IngressDNSController σ ρ)
    (clusterName : String) (ingress : Ingress) (cluster : Cluster)
    (hdel : ingress.DeletionTimestamp ≠ none)
    (hcluster : idc.getCluster clusterName = .ok cluster) :
    getHealthyEndpoints idc clusterName ingress = .ok ([], [], []) := by
  have hsome : ingress.DeletionTimestamp.isSome = true := by
    cases h : ingress.DeletionTimestamp with
    | none => exact absurd h hdel
    | some t => rfl
  simp only [getHealthyEndpoints, getClusterZoneNames, hcluster, hsome, if_true]

/-- Witness of C5: a deleted ingress whose status annotation does not decode. -/
theorem getHealthyEndpoints_deleted_witness :
    getHealthyEndpoints
        (scenarioController memController (fun _ => ([], some "unexpected end of JSON input")))
        "c1" (deletedIngress "not a status map") = .ok ([], [], []) :=
  getHealthyEndpoints_deleted _ "c1" (deletedIngress "not a status map")
    (Cluster.mk (some ["foozone"]) "fooregion") (by decide) rfl

/-- C6: for an ingress without deletion timestamp whose status annotation decodes to a map
with a load-balancer entry that has neither IP nor host name, getHealthyEndpoints returns
an error, ensureDNSRecords returns an error and leaves the provider state as it was, and
the log of the calls of the reconciliation step stays as it was: EnsureDNSRrsets is not
called. -/
theorem malformed_entry_rejected {σ ρ τ : Type} (idc : IngressDNSController σ ρ)
    (clusterName : String) (ingress : Ingress) (annotations : List (String × String))
    (value : String) (c : String) (sts : List LoadBalancerStatus) (ls : LoadBalancerStatus)
    (lb : LoadBalancerIngress)
    (hdel : ingress.DeletionTimestamp = none)
    (hann : ingress.Annotations = some annotations)
    (hval : annotations.lookup globalIngressLBStatus = some value)
    (hc : (c, sts) ∈ (idc.jsonUnmarshal value).1) (hls : ls ∈ sts) (hlb : lb ∈ ls.Ingress)
    (hip : lb.IP = "") (hhost : lb.Hostname = "")
    (st : σ) (ensure : EnsureFn τ) (st0 : τ) (log : List EnsureCall) :
    (∃ e, getHealthyEndpoints idc clusterName ingress = .err e) ∧
    (∃ e, ensureDNSRecords idc st clusterName ingress = (.err e, st)) ∧
    (∃ e, ensureDNSRecordsWith ensure.logged idc (st0, log) clusterName ingress =
      (.err e, (st0, log))) := by
  obtain ⟨e, he⟩ := getHealthyEndpoints_bad idc clusterName ingress annotations value c sts ls lb
    hdel hann hval hc hls hlb hip hhost
  exact ⟨⟨e, he⟩, ensureDNSRecordsWith_of_endpoints_err _ idc st clusterName ingress e he,
    ensureDNSRecordsWith_of_endpoints_err _ idc (st0, log) clusterName ingress e he⟩

/-- Witness of C6: cluster c1 lists one entry with neither IP nor host name. -/
theorem malformed_entry_rejected_witness :
    (∃ e, getHealthyEndpoints
        (scenarioController memController (fun _ => (emptyEntryStatus, none))) "c1"
        (scenarioIngress "global-lb-status") = .err e) ∧
    (∃ e, ensureDNSRecords
        (scenarioController memController (fun _ => (emptyEntryStatus, none))) [] "c1"
        (scenarioIngress "global-lb-status") = (.err e, [])) ∧
    (∃ e, ensureDNSRecordsWith (EnsureFn.logged (EnsureDNSRrsets memController memZone))
        (scenarioController memController (fun _ => (emptyEntryStatus, none))) ([], []) "c1"
        (scenarioIngress "global-lb-status") = (.err e, ([], []))) :=
  malformed_entry_rejected (scenarioController memController (fun _ => (emptyEntryStatus, none)))
    "c1" (scenarioIngress "global-lb-status") [(globalIngressLBStatus, "global-lb-status")]
    "global-lb-status" "c1" [LoadBalancerStatus.mk [LoadBalancerIngress.mk "" ""]]
    (LoadBalancerStatus.mk [LoadBalancerIngress.mk "" ""]) (LoadBalancerIngress.mk "" "")
    rfl rfl (by decide) (by decide) (by decide) (by decide) rfl rfl [] _ [] []

/-- Counterexample to C7: for an ingress without deletion timestamp and without annotations,
and a cluster whose lookup succeeds, getHealthyEndpoints, called on its own, does not
return: it dereferences the nil pointer returned by the annotation read and panics. -/
theorem getHealthyEndpoints_nil_status_panics :
    getHealthyEndpoints (scenarioController memController (fun _ => ([], none))) "c1" bareIngress =
      .panic "invalid memory address or nil pointer dereference" := by
  decide

/-- C7, as amended: a missing status annotation is not an error for the worker. For an ingress
whose annotation map is nil or lacks the key of the global status, the annotation read
returns no map and no error, and workerFunction, which tests the map for nil before it
ranges over it, returns false with the state as it was given, over any reconciliation
step: ensureDNSRecords, and with it getHealthyEndpoints, is not run for any cluster.
For every item and state, workerFunction never ends in the nil dereference. And for an
ingress without deletion timestamp whose annotation is present and decodes to a map
without entry, with a target cluster whose lookup succeeds, getHealthyEndpoints returns a
nil error and three empty lists. -/
theorem workerFunction_skips_missing_status {σ ρ τ : Type} (idc : IngressDNSController σ ρ)
    (ingress : Ingress)
    (hmissing : ingress.Annotations = none ∨
      ∃ a, ingress.Annotations = some a ∧ a.lookup globalIngressLBStatus = none) :
    parseGlobalLbStatusAnnotation idc ingress = (none, none) ∧
    (∀ (step : ClusterStep τ) (st : τ),
      workerFunctionWith step idc (some ingress) st = (.ok false, st)) ∧
    (∀ st : σ, workerFunction idc (some ingress) st = (.ok false, st)) ∧
    (∀ (item : Option Ingress) (st : σ), (workerFunction idc item st).1 ≠
      .panic "invalid memory address or nil pointer dereference") ∧
    (∀ (ingress2 : Ingress) (clusterName : String) (zoneNames : Option (List String))
        (regionName : String),
      getClusterZoneNames idc clusterName = .ok (zoneNames, regionName) →
      ingress2.DeletionTimestamp = none →
      parseGlobalLbStatusAnnotation idc ingress2 = (some [], none) →
      getHealthyEndpoints idc clusterName ingress2 = .ok ([], [], [])) := by
  have hp := parseGlobalLbStatus_missing idc ingress hmissing
  refine ⟨hp, fun step st => workerFunctionWith_missing step idc ingress st hp,
    fun st => workerFunctionWith_missing _ idc ingress st hp,
    workerFunction_no_nil_panic idc, ?_⟩
  intro ingress2 clusterName zoneNames regionName hc hd hp2
  simp [getHealthyEndpoints, hc, hd, hp2, getHealthyEndpoints.clusterLoop]

/-- Witness of C7: the ingress without annotations of the counterexample, whose local status
lists an address. -/
theorem workerFunction_skips_missing_status_witness :
    parseGlobalLbStatusAnnotation (scenarioController memController (fun _ => ([], none)))
        bareIngress = (none, none) ∧
    (∀ (step : ClusterStep Nat) (st : Nat),
      workerFunctionWith step (scenarioController memController (fun _ => ([], none)))
        (some bareIngress) st = (.ok false, st)) ∧
    (∀ st : List RecordSet,
      workerFunction (scenarioController memController (fun _ => ([], none)))
        (some bareIngress) st = (.ok false, st)) ∧
    (∀ (item : Option Ingress) (st : List RecordSet),
      (workerFunction (scenarioController memController (fun _ => ([], none))) item st).1 ≠
        .panic "invalid memory address or nil pointer dereference") ∧
    (∀ (ingress2 : Ingress) (clusterName : String) (zoneNames : Option (List String))
        (regionName : String),
      getClusterZoneNames (scenarioController memController (fun _ => ([], none))) clusterName =
        .ok (zoneNames, regionName) →
      ingress2.DeletionTimestamp = none →
      parseGlobalLbStatusAnnotation (scenarioController memController (fun _ => ([], none)))
        ingress2 = (some [], none) →
      getHealthyEndpoints (scenarioController memController (fun _ => ([], none))) clusterName
        ingress2 = .ok ([], [], [])) :=
  workerFunction_skips_missing_status (scenarioController memController (fun _ => ([], none)))
    bareIngress (Or.inl rfl)

/-- C8: aggregation by zone, region and globally. For an ingress without deletion timestamp
whose annotation decodes to the map `m` without error, whose every listed entry has an IP
or a host name, and for which the lookups of the target cluster and of every cluster of
`m` succeed, getHealthyEndpoints returns three lists such that, with the address of an
entry being its IP when that is non-empty and its host name otherwise: an address is in
the global list iff it is listed for some cluster; in the region list iff it is listed
for some cluster whose region is the region of the target; in the zone list iff it is
listed for some cluster one of whose zone names is a zone name of the target. -/
theorem getHealthyEndpoints_aggregates {σ ρ : Type} (idc : IngressDNSController σ ρ)
    (clusterName : String) (ingress : Ingress) (m : GlobalLbStat) (target : Cluster)
    (hdel : ingress.DeletionTimestamp = none)
    (hparse : parseGlobalLbStatusAnnotation idc ingress = (some m, none))
    (hl : ∀ c sts, (c, sts) ∈ m → ∀ ls ∈ sts, ∀ lb ∈ ls.Ingress, lb.IP ≠ "" ∨ lb.Hostname ≠ "")
    (htarget : idc.getCluster clusterName = .ok target)
    (hc : ∀ c sts, (c, sts) ∈ m → ∃ cl, idc.getCluster c = .ok cl) :
    ∃ zoneEndpoints regionEndpoints globalEndpoints,
      getHealthyEndpoints idc clusterName ingress =
        .ok (zoneEndpoints, regionEndpoints, globalEndpoints) ∧
      (∀ a, a ∈ globalEndpoints ↔
        ∃ c sts ls lb, (c, sts) ∈ m ∧ ls ∈ sts ∧ lb ∈ ls.Ingress ∧
          a = (if lb.IP ≠ "" then lb.IP else lb.Hostname)) ∧
      (∀ a, a ∈ regionEndpoints ↔
        ∃ c sts ls lb cl, (c, sts) ∈ m ∧ ls ∈ sts ∧ lb ∈ ls.Ingress ∧
          a = (if lb.IP ≠ "" then lb.IP else lb.Hostname) ∧
          idc.getCluster c = .ok cl ∧ cl.Region = target.Region) ∧
      (∀ a, a ∈ zoneEndpoints ↔
        ∃ c sts ls lb cl, (c, sts) ∈ m ∧ ls ∈ sts ∧ lb ∈ ls.Ingress ∧
          a = (if lb.IP ≠ "" then lb.IP else lb.Hostname) ∧
          idc.getCluster c = .ok cl ∧
          ∃ z ∈ sliceElems cl.Zones, z ∈ sliceElems target.Zones) := by
  obtain ⟨acc2, hrun, hz, hr, hg⟩ := clusterLoop_ok idc
    ("Ingress " ++ ingress.Name ++ "/" ++ ingress.Namespace ++ " in cluster " ++
          clusterName ++ " has neither LoadBalancerStatus.ingress.ip nor " ++
          "LoadBalancerStatus.ingress.hostname. Cannot use it as endpoint for federated Ingress")
    (sliceElems target.Zones) target.Region m hl hc ([], [], [])
  obtain ⟨ze, re, ge⟩ := acc2
  refine ⟨ze, re, ge, ?_, ?_, ?_, ?_⟩
  · simp only [getHealthyEndpoints, getClusterZoneNames, htarget, hdel, hparse, hrun]
    simp
  · intro a
    rw [hg a]
    simp only [lbAddress_eq, List.not_mem_nil, false_or]
  · intro a
    rw [hr a]
    simp only [lbAddress_eq, List.not_mem_nil, false_or]
  · intro a
    rw [hz a]
    simp only [lbAddress_eq, List.not_mem_nil, false_or]

/-- Witness of C8: cluster c1 lists an address and cluster c2 a host name; the target is c1. -/
theorem getHealthyEndpoints_aggregates_witness :
    ∃ zoneEndpoints regionEndpoints globalEndpoints,
      getHealthyEndpoints (scenarioController memController (fun _ => (hostNameStatus, none)))
          "c1" (scenarioIngress "global-lb-status") =
        .ok (zoneEndpoints, regionEndpoints, globalEndpoints) ∧
      (∀ a, a ∈ globalEndpoints ↔
        ∃ c sts ls lb, (c, sts) ∈ hostNameStatus ∧ ls ∈ sts ∧ lb ∈ ls.Ingress ∧
          a = (if lb.IP ≠ "" then lb.IP else lb.Hostname)) ∧
      (∀ a, a ∈ regionEndpoints ↔
        ∃ c sts ls lb cl, (c, sts) ∈ hostNameStatus ∧ ls ∈ sts ∧ lb ∈ ls.Ingress ∧
          a = (if lb.IP ≠ "" then lb.IP else lb.Hostname) ∧
          scenarioClusters c = .ok cl ∧ cl.Region = "fooregion") ∧
      (∀ a, a ∈ zoneEndpoints ↔
        ∃ c sts ls lb cl, (c, sts) ∈ hostNameStatus ∧ ls ∈ sts ∧ lb ∈ ls.Ingress ∧
          a = (if lb.IP ≠ "" then lb.IP else lb.Hostname) ∧
          scenarioClusters c = .ok cl ∧
          ∃ z ∈ sliceElems cl.Zones, z ∈ sliceElems (some ["foozone"])) :=
  getHealthyEndpoints_aggregates (scenarioController memController (fun _ => (hostNameStatus, none)))
    "c1" (scenarioIngress "global-lb-status") hostNameStatus
    (Cluster.mk (some ["foozone"]) "fooregion") rfl rfl
    (by
      intro c sts h ls hls lb hlb
      simp only [hostNameStatus, List.mem_cons, Prod.mk.injEq, List.mem_singleton,
        List.not_mem_nil, or_false] at h
      rcases h with ⟨_, rfl⟩ | ⟨_, rfl⟩
      · simp only [List.mem_singleton] at hls
        subst hls
        simp only [List.mem_singleton] at hlb
        subst hlb
        decide
      · simp only [List.mem_singleton] at hls
        subst hls
        simp only [List.mem_singleton] at hlb
        subst hlb
        decide)
    rfl
    (by
      intro c sts h
      simp only [hostNameStatus, List.mem_cons, Prod.mk.injEq, List.mem_singleton,
        List.not_mem_nil, or_false] at h
      rcases h with ⟨rfl, _⟩ | ⟨rfl, _⟩
      · exact ⟨_, rfl⟩
      · exact ⟨_, rfl⟩)

/-- Counterexample to C9: cluster c1 lists an address and cluster c2, of another region, a
host name that does not resolve. ensureDNSRecords for c1 over the empty store writes the
A record sets of the zone level and of the region level, then fails at the global level:
it returns the error and the store holds two record sets. -/
theorem ensureDNSRecords_error_after_writes :
    ensureDNSRecords (scenarioController memController (fun _ => (hostNameStatus, none))) []
        "c1" (scenarioIngress "global-lb-status") =
      (.err "lookup lb.example.net: no such host",
       [RecordSet.mk "ingname.ingns.myfederation.ing.foozone.fooregion.federation.example.com"
          ["198.51.100.1"] 180 "A",
        RecordSet.mk "ingname.ingns.myfederation.ing.fooregion.federation.example.com"
          ["198.51.100.1"] 180 "A"]) ∧
    (ensureDNSRecords (scenarioController memController (fun _ => (hostNameStatus, none))) []
        "c1" (scenarioIngress "global-lb-status")).2 ≠ [] := by
  decide

/-- C9, as amended: over a provider whose failing Apply leaves the state as it was, if
ensureDNSRecords returns the error `e` then the state after the call is tied to the step
that failed. Either the cluster lookup failed with `e`, or the zone list was nil, or
getHealthyEndpoints failed with `e`, and the state is the state before the call. Or the
lookups succeeded and, with `n0`, `n1`, `n2` the names of the three levels: the
zone-level call of EnsureDNSRrsets failed with `e` and the state is the state before the
call; or the zone-level call returned nil, the region-level call failed with `e` and the
state is the one the zone-level call left; or the zone-level and region-level calls
returned nil, the global-level call failed with `e` and the state is the one the
region-level call left. -/
theorem ensureDNSRecords_error_state_by_level {σ ρ : Type} (idc : IngressDNSController σ ρ)
    (hatomic : ∀ st cs e st2, idc.dnsZone.rrsets.Apply st cs = (some e, st2) → st2 = st)
    (st st2 : σ) (clusterName : String) (ingress : Ingress) (e : String)
    (h : ensureDNSRecords idc st clusterName ingress = (.err e, st2)) :
    (st2 = st ∧
      (getClusterZoneNames idc clusterName = .error e ∨
        (∃ regionName, getClusterZoneNames idc clusterName = .ok (none, regionName)) ∨
        getHealthyEndpoints idc clusterName ingress = .err e)) ∨
    ∃ zoneName0 zoneNames regionName ze re ge n0 n1 n2,
      getClusterZoneNames idc clusterName = .ok (some (zoneName0 :: zoneNames), regionName) ∧
      getHealthyEndpoints idc clusterName ingress = .ok (ze, re, ge) ∧
      dnsNamesOf idc ingress zoneName0 regionName = [n0, n1, n2, ""] ∧
      ((EnsureDNSRrsets idc.toAbstract idc.dnsZone st n0 ze n1 = (some e, st) ∧ st2 = st) ∨
        (∃ s1, EnsureDNSRrsets idc.toAbstract idc.dnsZone st n0 ze n1 = (none, s1) ∧
          EnsureDNSRrsets idc.toAbstract idc.dnsZone s1 n1 re n2 = (some e, s1) ∧ st2 = s1) ∨
        (∃ s1 s2, EnsureDNSRrsets idc.toAbstract idc.dnsZone st n0 ze n1 = (none, s1) ∧
          EnsureDNSRrsets idc.toAbstract idc.dnsZone s1 n1 re n2 = (none, s2) ∧
          EnsureDNSRrsets idc.toAbstract idc.dnsZone s2 n2 ge "" = (some e, s2) ∧
          st2 = s2)) := by
  unfold ensureDNSRecords ensureDNSRecordsWith at h
  cases hz : getClusterZoneNames idc clusterName with
  | error e1 =>
    simp only [hz, Prod.mk.injEq, Outcome.err.injEq] at h
    exact Or.inl ⟨h.2.symm, Or.inl (by rw [h.1])⟩
  | ok zr =>
    obtain ⟨zoneNames, regionName⟩ := zr
    cases zoneNames with
    | none =>
      simp only [hz, Prod.mk.injEq] at h
      exact Or.inl ⟨h.2.symm, Or.inr (Or.inl ⟨regionName, rfl⟩)⟩
    | some zs =>
      cases hh : getHealthyEndpoints idc clusterName ingress with
      | err e1 =>
        simp only [hz, hh, Prod.mk.injEq, Outcome.err.injEq] at h
        exact Or.inl ⟨h.2.symm, Or.inr (Or.inr (by rw [h.1]))⟩
      | panic msg =>
        simp only [hz, hh, Prod.mk.injEq] at h
        exact absurd h.1 (by simp)
      | ok acc =>
        obtain ⟨ze, re, ge⟩ := acc
        cases zs with
        | nil =>
          simp only [hz, hh, Prod.mk.injEq] at h
          exact absurd h.1 (by simp)
        | cons zoneName0 zoneNames =>
          simp only [hz, hh] at h
          have hn : dnsNamesOf idc ingress zoneName0 regionName =
              [(dnsNamesOf idc ingress zoneName0 regionName).getD 0 "",
               (dnsNamesOf idc ingress zoneName0 regionName).getD 1 "",
               (dnsNamesOf idc ingress zoneName0 regionName).getD 2 "", ""] := by
            simp [dnsNamesOf]
          rw [hn, loop_three] at h
          right
          refine ⟨zoneName0, zoneNames, regionName, ze, re, ge, _, _, _, rfl, rfl, hn, ?_⟩
          rcases h0 : EnsureDNSRrsets idc.toAbstract idc.dnsZone st
              ((dnsNamesOf idc ingress zoneName0 regionName).getD 0 "") ze
              ((dnsNamesOf idc ingress zoneName0 regionName).getD 1 "") with ⟨_ | e0, s1⟩
          · simp only [h0] at h
            rcases h1 : EnsureDNSRrsets idc.toAbstract idc.dnsZone s1
                ((dnsNamesOf idc ingress zoneName0 regionName).getD 1 "") re
                ((dnsNamesOf idc ingress zoneName0 regionName).getD 2 "") with ⟨_ | e1, s2⟩
            · simp only [h1] at h
              rcases h2 : EnsureDNSRrsets idc.toAbstract idc.dnsZone s2
                  ((dnsNamesOf idc ingress zoneName0 regionName).getD 2 "") ge "" with
                ⟨_ | e2, s3⟩
              · simp only [h2, Prod.mk.injEq] at h
                exact absurd h.1 (by simp)
              · simp only [h2, Prod.mk.injEq, Outcome.err.injEq] at h
                obtain ⟨he, hst⟩ := h
                have hs := EnsureDNSRrsets_err_state _ _ hatomic _ _ _ _ _ _ h2
                exact Or.inr (Or.inr ⟨s1, s2, rfl, h1, by rw [h2, he, hs],
                  hst.symm.trans hs⟩)
            · simp only [h1, Prod.mk.injEq, Outcome.err.injEq] at h
              obtain ⟨he, hst⟩ := h
              have hs := EnsureDNSRrsets_err_state _ _ hatomic _ _ _ _ _ _ h1
              exact Or.inr (Or.inl ⟨s1, rfl, by rw [h1, he, hs], hst.symm.trans hs⟩)
          · simp only [h0, Prod.mk.injEq, Outcome.err.injEq] at h
            obtain ⟨he, hst⟩ := h
            have hs := EnsureDNSRrsets_err_state _ _ hatomic _ _ _ _ _ _ h0
            exact Or.inl ⟨by rw [he, hs], hst.symm.trans hs⟩

/-- Witness of C9: the run that fails at the global level leaves the state of the zone-level
and region-level calls. -/
theorem ensureDNSRecords_error_state_by_level_witness :
    (([RecordSet.mk "ingname.ingns.myfederation.ing.foozone.fooregion.federation.example.com"
          ["198.51.100.1"] 180 "A",
       RecordSet.mk "ingname.ingns.myfederation.ing.fooregion.federation.example.com"
          ["198.51.100.1"] 180 "A"] : List RecordSet) = [] ∧
      (getClusterZoneNames (scenarioController memController (fun _ => (hostNameStatus, none)))
          "c1" = .error "lookup lb.example.net: no such host" ∨
        (∃ regionName,
          getClusterZoneNames (scenarioController memController (fun _ => (hostNameStatus, none)))
            "c1" = .ok (none, regionName)) ∨
        getHealthyEndpoints (scenarioController memController (fun _ => (hostNameStatus, none)))
          "c1" (scenarioIngress "global-lb-status") =
            .err "lookup lb.example.net: no such host")) ∨
    ∃ zoneName0 zoneNames regionName ze re ge n0 n1 n2,
      getClusterZoneNames (scenarioController memController (fun _ => (hostNameStatus, none)))
          "c1" = .ok (some (zoneName0 :: zoneNames), regionName) ∧
      getHealthyEndpoints (scenarioController memController (fun _ => (hostNameStatus, none)))
          "c1" (scenarioIngress "global-lb-status") = .ok (ze, re, ge) ∧
      dnsNamesOf (scenarioController memController (fun _ => (hostNameStatus, none)))
          (scenarioIngress "global-lb-status") zoneName0 regionName = [n0, n1, n2, ""] ∧
      ((EnsureDNSRrsets memController memZone [] n0 ze n1 =
            (some "lookup lb.example.net: no such host", []) ∧
          ([RecordSet.mk "ingname.ingns.myfederation.ing.foozone.fooregion.federation.example.com"
              ["198.51.100.1"] 180 "A",
            RecordSet.mk "ingname.ingns.myfederation.ing.fooregion.federation.example.com"
              ["198.51.100.1"] 180 "A"] : List RecordSet) = []) ∨
        (∃ s1, EnsureDNSRrsets memController memZone [] n0 ze n1 = (none, s1) ∧
          EnsureDNSRrsets memController memZone s1 n1 re n2 =
            (some "lookup lb.example.net: no such host", s1) ∧
          [RecordSet.mk "ingname.ingns.myfederation.ing.foozone.fooregion.federation.example.com"
              ["198.51.100.1"] 180 "A",
           RecordSet.mk "ingname.ingns.myfederation.ing.fooregion.federation.example.com"
              ["198.51.100.1"] 180 "A"] = s1) ∨
        (∃ s1 s2, EnsureDNSRrsets memController memZone [] n0 ze n1 = (none, s1) ∧
          EnsureDNSRrsets memController memZone s1 n1 re n2 = (none, s2) ∧
          EnsureDNSRrsets memController memZone s2 n2 ge "" =
            (some "lookup lb.example.net: no such host", s2) ∧
          [RecordSet.mk "ingname.ingns.myfederation.ing.foozone.fooregion.federation.example.com"
              ["198.51.100.1"] 180 "A",
           RecordSet.mk "ingname.ingns.myfederation.ing.fooregion.federation.example.com"
              ["198.51.100.1"] 180 "A"] = s2)) :=
  ensureDNSRecords_error_state_by_level
    (scenarioController memController (fun _ => (hostNameStatus, none)))
    (by
      intro st cs e st2 h
      simp [scenarioController, memZone, memRecordSets] at h)
    [] _ "c1" (scenarioIngress "global-lb-status") "lookup lb.example.net: no such host"
    (by decide)

/-- C10: fixed level order and abort on failure. When the cluster lookup gives a first zone
name and the endpoints are computed, with `[n0, n1, n2, n3]` the names `dnsNames`:
`n3` is empty, and ensureDNSRecords calls EnsureDNSRrsets for `(n0, zone endpoints, n1)`,
then `(n1, region endpoints, n2)`, then `(n2, global endpoints, "")`, each on the state
left by the call before; the first call that returns an error ends the run with that
error, and the log holds the calls up to that one and none after it. -/
theorem ensureDNSRecords_levels_in_order {σ ρ : Type} (idc : IngressDNSController σ ρ) (st : σ)
    (log : List EnsureCall) (clusterName : String) (ingress : Ingress)
    (zoneName0 : String) (zoneNames : List String) (regionName : String)
    (ze re ge : List String) (n0 n1 n2 n3 : String)
    (hc : getClusterZoneNames idc clusterName = .ok (some (zoneName0 :: zoneNames), regionName))
    (hh : getHealthyEndpoints idc clusterName ingress = .ok (ze, re, ge))
    (hn : dnsNamesOf idc ingress zoneName0 regionName = [n0, n1, n2, n3]) :
    n3 = "" ∧
    (∀ e s1, EnsureDNSRrsets idc.toAbstract idc.dnsZone st n0 ze n1 = (some e, s1) →
      ensureDNSRecords idc st clusterName ingress = (.err e, s1) ∧
      ensureDNSRecordsLogged idc st log clusterName ingress =
        (.err e, (s1, log ++ [EnsureCall.mk n0 ze n1]))) ∧
    (∀ s1 e s2, EnsureDNSRrsets idc.toAbstract idc.dnsZone st n0 ze n1 = (none, s1) →
      EnsureDNSRrsets idc.toAbstract idc.dnsZone s1 n1 re n2 = (some e, s2) →
      ensureDNSRecords idc st clusterName ingress = (.err e, s2) ∧
      ensureDNSRecordsLogged idc st log clusterName ingress =
        (.err e, (s2, log ++ [EnsureCall.mk n0 ze n1, EnsureCall.mk n1 re n2]))) ∧
    (∀ s1 s2 e s3, EnsureDNSRrsets idc.toAbstract idc.dnsZone st n0 ze n1 = (none, s1) →
      EnsureDNSRrsets idc.toAbstract idc.dnsZone s1 n1 re n2 = (none, s2) →
      EnsureDNSRrsets idc.toAbstract idc.dnsZone s2 n2 ge "" = (some e, s3) →
      ensureDNSRecords idc st clusterName ingress = (.err e, s3) ∧
      ensureDNSRecordsLogged idc st log clusterName ingress =
        (.err e, (s3, log ++ [EnsureCall.mk n0 ze n1, EnsureCall.mk n1 re n2,
          EnsureCall.mk n2 ge ""]))) ∧
    (∀ s1 s2 s3, EnsureDNSRrsets idc.toAbstract idc.dnsZone st n0 ze n1 = (none, s1) →
      EnsureDNSRrsets idc.toAbstract idc.dnsZone s1 n1 re n2 = (none, s2) →
      EnsureDNSRrsets idc.toAbstract idc.dnsZone s2 n2 ge "" = (none, s3) →
      ensureDNSRecords idc st clusterName ingress = (.ok (), s3) ∧
      ensureDNSRecordsLogged idc st log clusterName ingress =
        (.ok (), (s3, log ++ [EnsureCall.mk n0 ze n1, EnsureCall.mk n1 re n2,
          EnsureCall.mk n2 ge ""]))) := by
  have hn3 : n3 = "" := by
    simp only [dnsNamesOf, List.cons.injEq, and_true] at hn
    exact hn.2.2.2.symm
  subst hn3
  have hrun := ensureDNSRecordsWith_levels (EnsureDNSRrsets idc.toAbstract idc.dnsZone) idc st
    clusterName ingress zoneName0 zoneNames regionName ze re ge n0 n1 n2 "" hc hh hn
  have hlog := ensureDNSRecordsWith_levels
    (EnsureFn.logged (EnsureDNSRrsets idc.toAbstract idc.dnsZone)) idc (st, log)
    clusterName ingress zoneName0 zoneNames regionName ze re ge n0 n1 n2 "" hc hh hn
  refine ⟨rfl, ?_, ?_, ?_, ?_⟩
  · intro e s1 h0
    simp only [ensureDNSRecords, ensureDNSRecordsLogged, hrun, hlog, EnsureFn.logged, h0]
    simp
  · intro s1 e s2 h0 h1
    simp only [ensureDNSRecords, ensureDNSRecordsLogged, hrun, hlog, EnsureFn.logged, h0, h1]
    simp
  · intro s1 s2 e s3 h0 h1 h2
    simp only [ensureDNSRecords, ensureDNSRecordsLogged, hrun, hlog, EnsureFn.logged, h0, h1, h2]
    simp
  · intro s1 s2 s3 h0 h1 h2
    simp only [ensureDNSRecords, ensureDNSRecordsLogged, hrun, hlog, EnsureFn.logged, h0, h1, h2]
    simp

/-- Witness of C10: the run that fails at the global level has logged the three calls in
order. -/
theorem ensureDNSRecords_levels_in_order_witness :
    ensureDNSRecordsLogged (scenarioController memController (fun _ => (hostNameStatus, none)))
        [] [] "c1" (scenarioIngress "global-lb-status") =
      (.err "lookup lb.example.net: no such host",
       ([RecordSet.mk "ingname.ingns.myfederation.ing.foozone.fooregion.federation.example.com"
          ["198.51.100.1"] 180 "A",
         RecordSet.mk "ingname.ingns.myfederation.ing.fooregion.federation.example.com"
          ["198.51.100.1"] 180 "A"],
        [] ++ [EnsureCall.mk
           "ingname.ingns.myfederation.ing.foozone.fooregion.federation.example.com"
           ["198.51.100.1"] "ingname.ingns.myfederation.ing.fooregion.federation.example.com",
         EnsureCall.mk "ingname.ingns.myfederation.ing.fooregion.federation.example.com"
           ["198.51.100.1"] "ingname.ingns.myfederation.ing.federation.example.com",
         EnsureCall.mk "ingname.ingns.myfederation.ing.federation.example.com"
           ["198.51.100.1", "lb.example.net"] ""])) :=
  ((ensureDNSRecords_levels_in_order
      (scenarioController memController (fun _ => (hostNameStatus, none))) [] []
      "c1" (scenarioIngress "global-lb-status") "foozone" [] "fooregion"
      ["198.51.100.1"] ["198.51.100.1"] ["198.51.100.1", "lb.example.net"]
      "ingname.ingns.myfederation.ing.foozone.fooregion.federation.example.com"
      "ingname.ingns.myfederation.ing.fooregion.federation.example.com"
      "ingname.ingns.myfederation.ing.federation.example.com" ""
      rfl (by decide) (by decide)).2.2.2.1
    [RecordSet.mk "ingname.ingns.myfederation.ing.foozone.fooregion.federation.example.com"
       ["198.51.100.1"] 180 "A"]
    [RecordSet.mk "ingname.ingns.myfederation.ing.foozone.fooregion.federation.example.com"
       ["198.51.100.1"] 180 "A",
     RecordSet.mk "ingname.ingns.myfederation.ing.fooregion.federation.example.com"
       ["198.51.100.1"] 180 "A"]
    "lookup lb.example.net: no such host"
    [RecordSet.mk "ingname.ingns.myfederation.ing.foozone.fooregion.federation.example.com"
       ["198.51.100.1"] 180 "A",
     RecordSet.mk "ingname.ingns.myfederation.ing.fooregion.federation.example.com"
       ["198.51.100.1"] 180 "A"]
    (by decide) (by decide) (by decide)).2

/-- C11: name chain construction. With n, ns the name and namespace of the ingress, f, s, d
the federation name, suffix and domain of the controller and z, r the first zone name and
the region of the target cluster, the names `dnsNames` are n.ns.f.s.z.r.d, n.ns.f.s.r.d,
n.ns.f.s.d and the empty string, in that order. When the cluster lookup and the endpoint
computation succeed, the calls of EnsureDNSRrsets that ensureDNSRecords makes are a
non-empty initial run of: the zone-level name with the region-level name as alias target,
the region-level name with the global-level name as alias target, the global-level name
with no alias target; all three when it returns nil. A controller that
newIngressDNSController builds from an empty suffix has the suffix ing, and the federation
name and domain it was given. -/
theorem ensureDNSRecords_name_chain {σ ρ π ζ : Type} (idc : IngressDNSController σ ρ) (st : σ)
    (log : List EnsureCall) (clusterName : String) (ingress : Ingress)
    (zoneName0 : String) (zoneNames : List String) (regionName : String)
    (ze re ge : List String)
    (hc : getClusterZoneNames idc clusterName = .ok (some (zoneName0 :: zoneNames), regionName))
    (hh : getHealthyEndpoints idc clusterName ingress = .ok (ze, re, ge)) :
    dnsNamesOf idc ingress zoneName0 regionName =
      [ingress.Name ++ "." ++ ingress.Namespace ++ "." ++ idc.federationName ++ "." ++
         idc.ingressDNSSuffix ++ "." ++ zoneName0 ++ "." ++ regionName ++ "." ++ idc.domain,
       ingress.Name ++ "." ++ ingress.Namespace ++ "." ++ idc.federationName ++ "." ++
         idc.ingressDNSSuffix ++ "." ++ regionName ++ "." ++ idc.domain,
       ingress.Name ++ "." ++ ingress.Namespace ++ "." ++ idc.federationName ++ "." ++
         idc.ingressDNSSuffix ++ "." ++ idc.domain,
       ""] ∧
    (∃ calls, (ensureDNSRecordsLogged idc st log clusterName ingress).2.2 = log ++ calls ∧
      calls ≠ [] ∧
      calls <+:
        [EnsureCall.mk
           (ingress.Name ++ "." ++ ingress.Namespace ++ "." ++ idc.federationName ++ "." ++
             idc.ingressDNSSuffix ++ "." ++ zoneName0 ++ "." ++ regionName ++ "." ++ idc.domain)
           ze
           (ingress.Name ++ "." ++ ingress.Namespace ++ "." ++ idc.federationName ++ "." ++
             idc.ingressDNSSuffix ++ "." ++ regionName ++ "." ++ idc.domain),
         EnsureCall.mk
           (ingress.Name ++ "." ++ ingress.Namespace ++ "." ++ idc.federationName ++ "." ++
             idc.ingressDNSSuffix ++ "." ++ regionName ++ "." ++ idc.domain)
           re
           (ingress.Name ++ "." ++ ingress.Namespace ++ "." ++ idc.federationName ++ "." ++
             idc.ingressDNSSuffix ++ "." ++ idc.domain),
         EnsureCall.mk
           (ingress.Name ++ "." ++ ingress.Namespace ++ "." ++ idc.federationName ++ "." ++
             idc.ingressDNSSuffix ++ "." ++ idc.domain)
           ge ""] ∧
      ((ensureDNSRecordsLogged idc st log clusterName ingress).1 = .ok () → calls.length = 3)) ∧
    (∀ (sortSlice : List ζ → (ζ → ζ → Bool) → List ζ) (dns : Option (Interface π ζ))
        (federationName domain : String) (pst pst2 : π) (built : IngressDNSControllerSetup π ζ),
      newIngressDNSController sortSlice dns federationName "" domain pst = (.ok built, pst2) →
        built.ingressDNSSuffix = "ing" ∧ built.federationName = federationName ∧
          built.domain = domain) := by
  have hn := dnsNamesOf_eq idc ingress zoneName0 regionName
  refine ⟨hn, ?_, ?_⟩
  · have hlog := ensureDNSRecordsWith_levels
      (EnsureFn.logged (EnsureDNSRrsets idc.toAbstract idc.dnsZone)) idc (st, log)
      clusterName ingress zoneName0 zoneNames regionName ze re ge _ _ _ _ hc hh hn
    simp only [ensureDNSRecordsLogged]
    rw [hlog]
    simp only [EnsureFn.logged]
    generalize (ingress.Name ++ "." ++ ingress.Namespace ++ "." ++ idc.federationName ++ "." ++
         idc.ingressDNSSuffix ++ "." ++ zoneName0 ++ "." ++ regionName ++ "." ++ idc.domain) = n0
    generalize (ingress.Name ++ "." ++ ingress.Namespace ++ "." ++ idc.federationName ++ "." ++
         idc.ingressDNSSuffix ++ "." ++ regionName ++ "." ++ idc.domain) = n1
    generalize (ingress.Name ++ "." ++ ingress.Namespace ++ "." ++ idc.federationName ++ "." ++
         idc.ingressDNSSuffix ++ "." ++ idc.domain) = n2
    rcases h0 : EnsureDNSRrsets idc.toAbstract idc.dnsZone st n0 ze n1 with ⟨_ | e0, s1⟩
    · rcases h1 : EnsureDNSRrsets idc.toAbstract idc.dnsZone s1 n1 re n2 with ⟨_ | e1, s2⟩
      · rcases h2 : EnsureDNSRrsets idc.toAbstract idc.dnsZone s2 n2 ge "" with ⟨_ | e2, s3⟩
        · refine ⟨[EnsureCall.mk n0 ze n1, EnsureCall.mk n1 re n2, EnsureCall.mk n2 ge ""],
            ?_, by simp, List.prefix_refl _, fun _ => rfl⟩
          simp [h0, h1, h2]
        · refine ⟨[EnsureCall.mk n0 ze n1, EnsureCall.mk n1 re n2, EnsureCall.mk n2 ge ""],
            ?_, by simp, List.prefix_refl _, fun _ => rfl⟩
          simp [h0, h1, h2]
      · refine ⟨[EnsureCall.mk n0 ze n1, EnsureCall.mk n1 re n2],
            ?_, by simp, ⟨[EnsureCall.mk n2 ge ""], rfl⟩, ?_⟩
        · simp [h0, h1]
        · simp [h0, h1]
    · refine ⟨[EnsureCall.mk n0 ze n1], ?_, by simp, ⟨_, rfl⟩, ?_⟩
      · simp [h0]
      · simp [h0]
  · intro sortSlice dns federationName domain pst pst2 built h
    have := newIngressDNSController_fields sortSlice dns federationName "" domain pst pst2 built h
    simpa [defaultIngressSeperator] using this

/-- Witness of C11: cluster c1 of zone z and region r1, and the controller built from an
empty suffix over an account without hosted zone. -/
theorem ensureDNSRecords_name_chain_witness :
    getClusterZoneNames (memIngressController sharedZoneClusters (fun _ => (twoClusterStatus, none)))
        "c1" = .ok (some ["z"], "r1") ∧
    newIngressDNSController insertionSortSlice (some memInterface) "myfederation" ""
        "federation.example.com" [] =
      (.ok (IngressDNSControllerSetup.mk (some memInterface) "federation.example.com"
        "myfederation" "ing" (some "federation.example.com") (some memZones)),
       ["federation.example.com"]) ∧
    dnsNamesOf (memIngressController sharedZoneClusters (fun _ => (twoClusterStatus, none)))
        (scenarioIngress "global-lb-status") "z" "r1" =
      ["ingname.ingns.myfederation.ing.z.r1.federation.example.com",
       "ingname.ingns.myfederation.ing.r1.federation.example.com",
       "ingname.ingns.myfederation.ing.federation.example.com", ""] :=
  ⟨rfl, rfl,
   (@ensureDNSRecords_name_chain _ _ (List String) String
      (memIngressController sharedZoneClusters (fun _ => (twoClusterStatus, none))) [] []
      "c1" (scenarioIngress "global-lb-status") "z" [] "r1"
      ["198.51.100.1", "198.51.100.2"] ["198.51.100.1"] ["198.51.100.1", "198.51.100.2"]
      rfl (by decide)).1⟩

/-- C12: worker gating. For a dequeued ingress whose local status lists no load-balancer
entry, workerFunction returns false and leaves the provider state as it was, whatever the
controller, its cluster lookup and the status annotation of the ingress; the log of the
clusters it reconciles is unchanged; and, over any reconciliation step and any state, the
state is returned as it was given, so the step, and with it every cluster lookup and
provider call it makes, is never run. -/
theorem workerFunction_gated {σ ρ τ : Type} (idc : IngressDNSController σ ρ) (ingress : Ingress)
    (st : σ) (log : List String) (step : ClusterStep τ) (st0 : τ)
    (hempty : ingress.Status.Ingress = []) :
    workerFunction idc (some ingress) st = (.ok false, st) ∧
    workerFunctionLogged idc (some ingress) st log = (.ok false, (st, log)) ∧
    workerFunctionWith step idc (some ingress) st0 = (.ok false, st0) :=
  ⟨workerFunctionWith_gated _ idc ingress st hempty,
   workerFunctionWith_gated _ idc ingress (st, log) hempty,
   workerFunctionWith_gated step idc ingress st0 hempty⟩

/-- Witness of C12: the ingress of the scenario has an empty local status and an annotation
that lists endpoints of c1 and c2; a step that counts its calls is not called. -/
theorem workerFunction_gated_witness :
    workerFunction (scenarioController memController (fun _ => (hostNameStatus, none)))
        (some (scenarioIngress "global-lb-status")) [] = (.ok false, []) ∧
    workerFunctionLogged (scenarioController memController (fun _ => (hostNameStatus, none)))
        (some (scenarioIngress "global-lb-status")) [] [] = (.ok false, ([], [])) ∧
    workerFunctionWith
        (fun (st : Nat) (_ : String) (_ : Ingress) => ((Outcome.ok (), st + 1) : Outcome Unit × Nat))
        (scenarioController memController (fun _ => (hostNameStatus, none)))
        (some (scenarioIngress "global-lb-status")) 0 = (.ok false, 0) :=
  workerFunction_gated (scenarioController memController (fun _ => (hostNameStatus, none)))
    (scenarioIngress "global-lb-status") [] [] _ 0 rfl

/-- C13, the code at the failing input: three clusters of region r, c1 in the zones a and b,
c2 in the zone a, c3 in the zone b, each listing one address, over the empty store. All
four calls of ensureDNSRecords return nil. Both c1 and c2 write the zone-level name of
zone a: c1 with the addresses of all three clusters, c2 with those of c1 and c2. Running
c1 and then c2 leaves the zone-level record set with two addresses, running c2 and then c1
leaves it with three. -/
theorem ensureDNSRecords_cluster_order_matters :
    (ensureDNSRecords (memIngressController multiZoneClusters (fun _ => (threeClusterStatus, none)))
        [] "c1" (scenarioIngress "global-lb-status")).1 = .ok () ∧
    (ensureDNSRecords (memIngressController multiZoneClusters (fun _ => (threeClusterStatus, none)))
        [] "c2" (scenarioIngress "global-lb-status")).1 = .ok () ∧
    ensureDNSRecords (memIngressController multiZoneClusters (fun _ => (threeClusterStatus, none)))
        (ensureDNSRecords
          (memIngressController multiZoneClusters (fun _ => (threeClusterStatus, none)))
          [] "c1" (scenarioIngress "global-lb-status")).2
        "c2" (scenarioIngress "global-lb-status") =
      (.ok (),
       [RecordSet.mk "ingname.ingns.myfederation.ing.r.federation.example.com"
          ["198.51.100.1", "198.51.100.2", "198.51.100.3"] 180 "A",
        RecordSet.mk "ingname.ingns.myfederation.ing.federation.example.com"
          ["198.51.100.1", "198.51.100.2", "198.51.100.3"] 180 "A",
        RecordSet.mk "ingname.ingns.myfederation.ing.a.r.federation.example.com"
          ["198.51.100.1", "198.51.100.2"] 180 "A"]) ∧
    ensureDNSRecords (memIngressController multiZoneClusters (fun _ => (threeClusterStatus, none)))
        (ensureDNSRecords
          (memIngressController multiZoneClusters (fun _ => (threeClusterStatus, none)))
          [] "c2" (scenarioIngress "global-lb-status")).2
        "c1" (scenarioIngress "global-lb-status") =
      (.ok (),
       [RecordSet.mk "ingname.ingns.myfederation.ing.r.federation.example.com"
          ["198.51.100.1", "198.51.100.2", "198.51.100.3"] 180 "A",
        RecordSet.mk "ingname.ingns.myfederation.ing.federation.example.com"
          ["198.51.100.1", "198.51.100.2", "198.51.100.3"] 180 "A",
        RecordSet.mk "ingname.ingns.myfederation.ing.a.r.federation.example.com"
          ["198.51.100.1", "198.51.100.2", "198.51.100.3"] 180 "A"]) := by
  decide

/-- C14: order-insensitive equivalence check. When the library function
ResourceRecordSetsEquivalent holds exactly between record sets of the same name, type, TTL
and data up to a reordering of the data list: findRrset returns an element of the list
whenever the list holds a record set with the name, type, TTL and, up to order, data of the
desired one, and returns nothing when no element of the list has them. -/
theorem findRrset_order_insensitive {σ ρ : Type} (s : AbstractDNSController ρ)
    (rrsets : ResourceRecordSets σ ρ)
    (hspec : ∀ a b, s.ResourceRecordSetsEquivalent a b = true ↔
      (rrsets.Name a = rrsets.Name b ∧ rrsets.RrsType a = rrsets.RrsType b ∧
        rrsets.Ttl a = rrsets.Ttl b ∧ (rrsets.Rrdatas a).Perm (rrsets.Rrdatas b)))
    (list : List ρ) (rrset : ρ) :
    ((∃ e ∈ list, rrsets.Name e = rrsets.Name rrset ∧ rrsets.RrsType e = rrsets.RrsType rrset ∧
        rrsets.Ttl e = rrsets.Ttl rrset ∧ (rrsets.Rrdatas e).Perm (rrsets.Rrdatas rrset)) →
      ∃ e ∈ list, findRrset s rrsets list rrset = some e) ∧
    ((∀ e ∈ list, ¬ (rrsets.Name e = rrsets.Name rrset ∧
        rrsets.RrsType e = rrsets.RrsType rrset ∧ rrsets.Ttl e = rrsets.Ttl rrset ∧
        (rrsets.Rrdatas e).Perm (rrsets.Rrdatas rrset))) →
      findRrset s rrsets list rrset = none) := by
  constructor
  · rintro ⟨e, he, hn, hty, httl, hperm⟩
    cases hfind : findRrset s rrsets list rrset with
    | some f => exact ⟨f, (findRrset_eq_some s rrsets list rrset f hfind).1, rfl⟩
    | none =>
      have hnone := (findRrset_eq_none_iff s rrsets list rrset).1 hfind e he
      exact absurd ⟨hperm.length_eq, (hspec rrset e).2 ⟨hn.symm, hty.symm, httl.symm, hperm.symm⟩⟩
        hnone
  · intro hno
    rw [findRrset_eq_none_iff]
    rintro e he ⟨_, heq⟩
    obtain ⟨hn, hty, httl, hperm⟩ := (hspec rrset e).1 heq
    exact hno e he ⟨hn.symm, hty.symm, httl.symm, hperm.symm⟩

/-- Witness of C14: the in-memory controller, whose equivalence test compares the sorted
data lists, on a stored record set with the two addresses in the other order. -/
theorem findRrset_order_insensitive_witness :
    ((∃ e ∈ [RecordSet.mk "www.example.com" ["198.51.100.2", "198.51.100.1"] 180 "A"],
        e.name = "www.example.com" ∧ e.rrsType = "A" ∧ e.ttl = 180 ∧
        e.rrdatas.Perm ["198.51.100.1", "198.51.100.2"]) →
      ∃ e ∈ [RecordSet.mk "www.example.com" ["198.51.100.2", "198.51.100.1"] 180 "A"],
        findRrset memController memRecordSets
          [RecordSet.mk "www.example.com" ["198.51.100.2", "198.51.100.1"] 180 "A"]
          (RecordSet.mk "www.example.com" ["198.51.100.1", "198.51.100.2"] 180 "A") = some e) ∧
    ((∀ e ∈ [RecordSet.mk "www.example.com" ["198.51.100.2", "198.51.100.1"] 180 "A"],
        ¬ (e.name = "www.example.com" ∧ e.rrsType = "A" ∧ e.ttl = 180 ∧
          e.rrdatas.Perm ["198.51.100.1", "198.51.100.2"])) →
      findRrset memController memRecordSets
        [RecordSet.mk "www.example.com" ["198.51.100.2", "198.51.100.1"] 180 "A"]
        (RecordSet.mk "www.example.com" ["198.51.100.1", "198.51.100.2"] 180 "A") = none) :=
  findRrset_order_insensitive memController memRecordSets recordSetsEquivalent_iff
    [RecordSet.mk "www.example.com" ["198.51.100.2", "198.51.100.1"] 180 "A"]
    (RecordSet.mk "www.example.com" ["198.51.100.1", "198.51.100.2"] 180 "A")

/-- C15: the most specific zone wins. When listing the hosted zones succeeds with the list
`l`, and sort.Slice returns a permutation of it in which no zone stands before a zone of
longer name: GetDNSZone returns a nil error; it returns no zone iff no zone of `l` has a
name that, without one trailing dot, occurs within the domain without one trailing dot;
a zone it returns is in `l`, matches in that sense, and its name is at least as long as the
name of every matching zone of `l`. With the zones example.com and d1.example.com, in
either order, and the domain d1.example.com it returns the zone d1.example.com. -/
theorem GetDNSZone_most_specific {π ζ : Type} (sortSlice : List ζ → (ζ → ζ → Bool) → List ζ)
    (domain : String) (zones : Zones π ζ) (pst : π) (l : List ζ)
    (hlist : zones.List pst = .ok l)
    (hsort : (sortSlice l (longerName zones)).Perm l ∧
      (sortSlice l (longerName zones)).Pairwise (fun a b => longerName zones b a = false)) :
    (GetDNSZone sortSlice domain zones pst).2 = none ∧
    ((GetDNSZone sortSlice domain zones pst).1 = none ↔
      ∀ z ∈ l, ¬ ((stringsTrimSuffix (zones.Name z) ".").data <:+:
        (stringsTrimSuffix domain ".").data)) ∧
    (∀ z, (GetDNSZone sortSlice domain zones pst).1 = some z →
      z ∈ l ∧
      (stringsTrimSuffix (zones.Name z) ".").data <:+: (stringsTrimSuffix domain ".").data ∧
      ∀ y ∈ l, (stringsTrimSuffix (zones.Name y) ".").data <:+:
          (stringsTrimSuffix domain ".").data →
        goLen (zones.Name y) ≤ goLen (zones.Name z)) ∧
    (∀ z1 z2, (l = [z1, z2] ∨ l = [z2, z1]) → zones.Name z1 = "example.com" →
      zones.Name z2 = "d1.example.com" → domain = "d1.example.com" →
      (GetDNSZone sortSlice domain zones pst).1 = some z2) := by
  have hval : GetDNSZone sortSlice domain zones pst =
      (GetDNSZone.find zones (stringsTrimSuffix domain ".") (sortSlice l (longerName zones)),
        none) := by
    simp [GetDNSZone, hlist]
  have hnone : (GetDNSZone sortSlice domain zones pst).1 = none ↔
      ∀ z ∈ l, ¬ ((stringsTrimSuffix (zones.Name z) ".").data <:+:
        (stringsTrimSuffix domain ".").data) := by
    rw [hval, GetDNSZone_find_eq_none_iff]
    constructor
    · intro h z hz
      exact h z (hsort.1.mem_iff.2 hz)
    · intro h z hz
      exact h z (hsort.1.mem_iff.1 hz)
  have hsome : ∀ z, (GetDNSZone sortSlice domain zones pst).1 = some z →
      z ∈ l ∧
      (stringsTrimSuffix (zones.Name z) ".").data <:+: (stringsTrimSuffix domain ".").data ∧
      ∀ y ∈ l, (stringsTrimSuffix (zones.Name y) ".").data <:+:
          (stringsTrimSuffix domain ".").data →
        goLen (zones.Name y) ≤ goLen (zones.Name z) := by
    intro z hz
    rw [hval] at hz
    obtain ⟨h1, h2, h3⟩ := GetDNSZone_find_eq_some zones _ _ z hz
    exact ⟨hsort.1.mem_iff.1 h1, h2, fun y hy hm => h3 hsort.2 y (hsort.1.mem_iff.2 hy) hm⟩
  refine ⟨by rw [hval], hnone, hsome, ?_⟩
  intro z1 z2 hl hn1 hn2 hd
  have hz2 : z2 ∈ l := by rcases hl with rfl | rfl <;> simp
  have hm2 : (stringsTrimSuffix (zones.Name z2) ".").data <:+:
      (stringsTrimSuffix domain ".").data := by
    have h0 : (stringsTrimSuffix "d1.example.com" ".").data <:+:
        (stringsTrimSuffix "d1.example.com" ".").data := List.infix_refl _
    simpa only [hn2, hd] using h0
  cases hres : (GetDNSZone sortSlice domain zones pst).1 with
  | none => exact absurd hm2 (hnone.1 hres z2 hz2)
  | some z =>
    obtain ⟨hz, _, hmax⟩ := hsome z hres
    have hle := hmax z2 hz2 hm2
    have hzz : z = z1 ∨ z = z2 := by
      rcases hl with rfl | rfl
      · simpa using hz
      · simpa [or_comm] using hz
    rcases hzz with rfl | rfl
    · rw [hn1, hn2] at hle
      exact absurd hle (by decide)
    · rfl

/-- Witness of C15: the account with the zones example.com and d1.example.com, sorted by
insertion sort. -/
theorem GetDNSZone_most_specific_witness :
    GetDNSZone insertionSortSlice "d1.example.com" memZones ["example.com", "d1.example.com"] =
      (some "d1.example.com", none) :=
  Prod.ext
    ((GetDNSZone_most_specific insertionSortSlice "d1.example.com" memZones
      ["example.com", "d1.example.com"] ["example.com", "d1.example.com"] rfl
      (insertionSortSlice_sorts memZones _)).2.2.2 "example.com" "d1.example.com"
      (Or.inl rfl) rfl rfl rfl)
    (GetDNSZone_most_specific insertionSortSlice "d1.example.com" memZones
      ["example.com", "d1.example.com"] ["example.com", "d1.example.com"] rfl
      (insertionSortSlice_sorts memZones _)).1

/-- C16, the code at the failing input: with the single hosted zone example.com and the
domain federation.myexample.com, GetDNSZone returns the zone example.com, whose name
occurs within the domain, although the name is not the domain and the domain does not end
with a dot followed by the name. -/
theorem GetDNSZone_selects_non_suffix :
    GetDNSZone insertionSortSlice "federation.myexample.com" memZones ["example.com"] =
      (some "example.com", none) ∧
    stringsTrimSuffix "example.com" "." ≠ "federation.myexample.com" ∧
    ¬ (("." ++ stringsTrimSuffix "example.com" ".").data <:+ "federation.myexample.com".data) := by
  decide

/-- C17: retrieve or create the hosted zone. Over an account whose calls of `New` are
journalled, when listing the zones succeeds with the list `l` and sort.Slice returns a
permutation of it: if some zone of `l` matches the domain, retrieveOrCreateDNSZone returns
nil, sets dnsZone to the zone GetDNSZone selects and leaves account and journal alone; if
none matches and the domain is non-empty, it calls `New` once, with exactly the domain,
and sets dnsZone to the zone created (or returns the error of `New` and leaves the
controller alone); if none matches and the domain is empty, it returns an error and
leaves controller, account and journal alone. -/
theorem retrieveOrCreateDNSZone_cases {π ζ : Type}
    (sortSlice : List ζ → (ζ → ζ → Bool) → List ζ) (zones : Zones π ζ)
    (idc : IngressDNSControllerSetup (π × List String) ζ) (pst : π) (log : List String)
    (l : List ζ)
    (hzones : idc.dnsZones = some (journalledZones zones))
    (hlist : zones.List pst = .ok l)
    (hperm : (sortSlice l (longerName zones)).Perm l) :
    ((∃ z ∈ l, (stringsTrimSuffix (zones.Name z) ".").data <:+:
        (stringsTrimSuffix idc.domain ".").data) →
      ∃ z, GetDNSZone sortSlice idc.domain zones pst = (some z, none) ∧
        retrieveOrCreateDNSZone sortSlice idc (pst, log) =
          (.ok (), { idc with dnsZone := some z }, (pst, log))) ∧
    ((∀ z ∈ l, ¬ ((stringsTrimSuffix (zones.Name z) ".").data <:+:
        (stringsTrimSuffix idc.domain ".").data)) → idc.domain ≠ "" →
      (∀ newZone pst2, zones.New pst idc.domain = (.ok newZone, pst2) →
        retrieveOrCreateDNSZone sortSlice idc (pst, log) =
          (.ok (), { idc with dnsZone := some newZone }, (pst2, log ++ [idc.domain]))) ∧
      (∀ err pst2, zones.New pst idc.domain = (.error err, pst2) →
        retrieveOrCreateDNSZone sortSlice idc (pst, log) =
          (.err err, idc, (pst2, log ++ [idc.domain])))) ∧
    ((∀ z ∈ l, ¬ ((stringsTrimSuffix (zones.Name z) ".").data <:+:
        (stringsTrimSuffix idc.domain ".").data)) → idc.domain = "" →
      ∃ e, retrieveOrCreateDNSZone sortSlice idc (pst, log) = (.err e, idc, (pst, log))) := by
  have hval : GetDNSZone sortSlice idc.domain zones pst =
      (GetDNSZone.find zones (stringsTrimSuffix idc.domain ".")
        (sortSlice l (longerName zones)), none) := by
    simp [GetDNSZone, hlist]
  have hnone : (∀ z ∈ l, ¬ ((stringsTrimSuffix (zones.Name z) ".").data <:+:
        (stringsTrimSuffix idc.domain ".").data)) →
      GetDNSZone sortSlice idc.domain zones pst = (none, none) := by
    intro h
    rw [hval]
    have : GetDNSZone.find zones (stringsTrimSuffix idc.domain ".")
        (sortSlice l (longerName zones)) = none := by
      rw [GetDNSZone_find_eq_none_iff]
      intro z hz
      exact h z (hperm.mem_iff.1 hz)
    rw [this]
  refine ⟨?_, ?_, ?_⟩
  · rintro ⟨z, hz, hm⟩
    cases hfind : GetDNSZone.find zones (stringsTrimSuffix idc.domain ".")
        (sortSlice l (longerName zones)) with
    | none =>
      exact absurd hm ((GetDNSZone_find_eq_none_iff _ _ _).1 hfind z (hperm.mem_iff.2 hz))
    | some z0 =>
      refine ⟨z0, by rw [hval, hfind], ?_⟩
      simp only [retrieveOrCreateDNSZone, hzones, GetDNSZone_journalled, hval, hfind]
  · intro hno hd
    have hg := hnone hno
    constructor
    · intro newZone pst2 hnew
      simp only [retrieveOrCreateDNSZone, hzones, GetDNSZone_journalled, hg, hd, if_false]
      simp only [journalledZones, hnew]
    · intro err pst2 hnew
      simp only [retrieveOrCreateDNSZone, hzones, GetDNSZone_journalled, hg, hd, if_false]
      simp only [journalledZones, hnew]
  · intro hno hd
    have hg := hnone hno
    refine ⟨"DNSController must be run with domain to create zone automatically", ?_⟩
    simp only [retrieveOrCreateDNSZone, hzones, GetDNSZone_journalled, hg]
    simp [hd]

/-- Witness of C17: the account holds the zone example.org only, so the zone
federation.example.com is created. -/
theorem retrieveOrCreateDNSZone_cases_witness :
    retrieveOrCreateDNSZone insertionSortSlice
        (IngressDNSControllerSetup.mk none "federation.example.com" "myfederation" "ing" none
          (some (journalledZones memZones)))
        (["example.org"], []) =
      (.ok (),
       IngressDNSControllerSetup.mk none "federation.example.com" "myfederation" "ing"
         (some "federation.example.com") (some (journalledZones memZones)),
       (["example.org", "federation.example.com"], ["federation.example.com"])) :=
  ((retrieveOrCreateDNSZone_cases insertionSortSlice memZones
      (IngressDNSControllerSetup.mk none "federation.example.com" "myfederation" "ing" none
        (some (journalledZones memZones)))
      ["example.org"] [] ["example.org"] rfl rfl (by decide)).2.1
    (by decide) (by decide)).1 "federation.example.com"
      ["example.org", "federation.example.com"] rfl

/-- C18: configuration validation. validateConfig returns nil iff the federation name is
non-empty, the domain is non-empty, the provider is present and it supports zone
enumeration; and newIngressDNSController returns an error, no controller, and the
provider account untouched whenever the federation name or the domain is empty. -/
theorem validateConfig_iff {π ζ : Type} (idc : IngressDNSControllerSetup π ζ)
    (sortSlice : List ζ → (ζ → ζ → Bool) → List ζ) (dns : Option (Interface π ζ))
    (federationName ingressDNSSuffix domain : String) (pst : π) :
    ((validateConfig idc).1 = none ↔
      (idc.federationName ≠ "" ∧ idc.domain ≠ "" ∧
        ∃ provider, idc.dns = some provider ∧ provider.zonesSupported = true)) ∧
    ((federationName = "" ∨ domain = "") →
      ∃ e, newIngressDNSController sortSlice dns federationName ingressDNSSuffix domain pst =
        (.err e, pst)) := by
  constructor
  · unfold validateConfig
    by_cases hf : idc.federationName = ""
    · simp [hf]
    · by_cases hd : idc.domain = ""
      · simp [hf, hd]
      · cases hdns : idc.dns with
        | none => simp [hf, hd]
        | some provider =>
          by_cases hs : provider.zonesSupported = false
          · simp [hf, hd, hs]
          · simp [hf, hd, hs]
  · intro h
    unfold newIngressDNSController validateConfig
    by_cases hf : federationName = ""
    · exact ⟨"DNSController should not be run without federationName", by simp [hf]⟩
    · have hd : domain = "" := h.resolve_left hf
      exact ⟨"DNSController must be run with a domain", by simp [hf, hd]⟩

/-- C19: annotation parsing. parseGlobalLbStatusAnnotation returns no map and no error iff
the ingress has no annotation map or its map lacks the key of the global status; when
the key is present with the value `value`, it returns a non-nil map: the decoded map and a
nil error when the decoder accepts the value, and a non-nil error when the decoder
rejects it. -/
theorem parseGlobalLbStatus_cases {σ ρ : Type} (idc : IngressDNSController σ ρ)
    (ingress : Ingress) :
    ( parseGlobalLbStatusAnnotation idc ingress = (none, none) ↔
      (ingress.Annotations = none ∨
        ∃ annotations, ingress.Annotations = some annotations ∧
          annotations.lookup globalIngressLBStatus = none)) ∧
    (∀ annotations value, ingress.Annotations = some annotations →
      annotations.lookup globalIngressLBStatus = some value →
      ∀ m, (idc.jsonUnmarshal value = (m, none) →
          parseGlobalLbStatusAnnotation idc ingress = (some m, none)) ∧
        (∀ e, idc.jsonUnmarshal value = (m, some e) →
          parseGlobalLbStatusAnnotation idc ingress = (some m, some e))) := by
  constructor
  · constructor
    · intro h
      cases ha : ingress.Annotations with
      | none => exact Or.inl rfl
      | some annotations =>
        cases hl : annotations.lookup globalIngressLBStatus with
        | none => exact Or.inr ⟨annotations, rfl, hl⟩
        | some value =>
          rw [parseGlobalLbStatus_value idc ingress annotations value ha hl] at h
          cases h
    · rintro (ha | ⟨annotations, ha, hl⟩)
      · simp only [ parseGlobalLbStatusAnnotation, ha]
      · simp only [ parseGlobalLbStatusAnnotation, ha, hl]
  · intro annotations value ha hl m
    rw [parseGlobalLbStatus_value idc ingress annotations value ha hl]
    constructor
    · intro hj
      rw [hj]
    · intro e hj
      rw [hj]

/-- C20: the zone set is not always inside the region set. Clusters c1 and c2 share the zone
name z, c1 lies in region r1 and c2 in region r2; for c1, getHealthyEndpoints returns
nil and the address of c2 is in the zone-level list and not in the region-level list. -/
theorem zone_endpoints_outside_region :
    getHealthyEndpoints (memIngressController sharedZoneClusters (fun _ => (twoClusterStatus, none)))
        "c1" (scenarioIngress "global-lb-status") =
      .ok (["198.51.100.1", "198.51.100.2"], ["198.51.100.1"],
        ["198.51.100.1", "198.51.100.2"]) ∧
    "198.51.100.2" ∈ ["198.51.100.1", "198.51.100.2"] ∧
    "198.51.100.2" ∉ ["198.51.100.1"] := by
  decide

/-- C21: resolution of literal addresses. When every entry of the endpoint list is a literal
IP address, GetResolvedEndpoints returns a nil error; its result does not depend on the
resolver, so no name is looked up; the list it returns holds exactly the entries of the
input, each once, in ascending string order; the result is the same for every
permutation of the input and for every input with the same entries, repeated or not; and
resolving the returned list returns it unchanged. -/
theorem GetResolvedEndpoints_literals {ρ : Type} (s : AbstractDNSController ρ)
    (endpoints : List String) (hip : ∀ e ∈ endpoints, s.ParseIP e = true) :
    (GetResolvedEndpoints s endpoints).2 = none ∧
    (∀ lookup : String → Except String (List String),
      GetResolvedEndpoints { s with LookupHost := lookup } endpoints =
        GetResolvedEndpoints s endpoints) ∧
    (∀ x, x ∈ (GetResolvedEndpoints s endpoints).1 ↔ x ∈ endpoints) ∧
    (GetResolvedEndpoints s endpoints).1.Nodup ∧
    (GetResolvedEndpoints s endpoints).1.Sorted strLE ∧
    (∀ endpoints2 : List String, endpoints2.Perm endpoints →
      GetResolvedEndpoints s endpoints2 = GetResolvedEndpoints s endpoints) ∧
    (∀ endpoints2 : List String, (∀ x, x ∈ endpoints2 ↔ x ∈ endpoints) →
      GetResolvedEndpoints s endpoints2 = GetResolvedEndpoints s endpoints) ∧
    GetResolvedEndpoints s (GetResolvedEndpoints s endpoints).1 =
      GetResolvedEndpoints s endpoints := by
  have hval := GetResolvedEndpoints_literal s endpoints hip
  have hext : ∀ endpoints2 : List String, (∀ x, x ∈ endpoints2 ↔ x ∈ endpoints) →
      GetResolvedEndpoints s endpoints2 = GetResolvedEndpoints s endpoints := by
    intro e2 h2
    have hip2 : ∀ e ∈ e2, s.ParseIP e = true := fun e he => hip e ((h2 e).1 he)
    rw [hval, GetResolvedEndpoints_literal s e2 hip2, resolved_literal_ext e2 endpoints h2]
  refine ⟨by rw [hval], ?_, ?_, ?_, ?_, ?_, hext, ?_⟩
  · intro lookup
    rw [hval]
    exact GetResolvedEndpoints_literal { s with LookupHost := lookup } endpoints hip
  · intro x
    rw [hval]
    exact mem_resolved_literal endpoints x
  · rw [hval]
    exact nodup_resolved_literal endpoints
  · rw [hval]
    exact sorted_resolved_literal endpoints
  · intro e2 hp
    exact hext e2 (fun x => hp.mem_iff)
  · apply hext
    intro x
    rw [hval]
    exact mem_resolved_literal endpoints x

/-- Witness of C21: two addresses, one of them twice, out of order. -/
theorem GetResolvedEndpoints_literals_witness :
    GetResolvedEndpoints memController ["198.51.100.2", "198.51.100.1", "198.51.100.2"] =
        (["198.51.100.1", "198.51.100.2"], none) ∧
    GetResolvedEndpoints memController
        (GetResolvedEndpoints memController
          ["198.51.100.2", "198.51.100.1", "198.51.100.2"]).1 =
      GetResolvedEndpoints memController ["198.51.100.2", "198.51.100.1", "198.51.100.2"] :=
  ⟨by decide,
   (GetResolvedEndpoints_literals memController
      ["198.51.100.2", "198.51.100.1", "198.51.100.2"] (by decide)).2.2.2.2.2.2.2⟩

/-- C22: TTL coercion in the dyndns provider. Ttl() returns the value of the stored TTL
string when strconv.ParseInt reads it as a non-negative integer of 64 bits, and 60 when
the string does not parse or its value is negative; so, for a `ttl` in the range of
int64, the record set made by New has the TTL `ttl` when `ttl` is not negative and 60
when it is. -/
theorem dyndns_Ttl_coercion (rrset : dyndns.ResourceRecordSet) (zoneName name : String)
    (rrdatas : List String) (ttl : Int) (rrsType : RrsType)
    (hlo : -(2 : Int) ^ 63 ≤ ttl) (hhi : ttl < (2 : Int) ^ 63) :
    (∀ v, strconvParseInt rrset.impl.TTL = some v → 0 ≤ v → dyndns.Ttl rrset = v) ∧
    ((strconvParseInt rrset.impl.TTL = none ∨
        ∃ v, strconvParseInt rrset.impl.TTL = some v ∧ v < 0) → dyndns.Ttl rrset = 60) ∧
    (0 ≤ ttl → dyndns.Ttl (dyndns.New zoneName name rrdatas ttl rrsType) = ttl) ∧
    (ttl < 0 → dyndns.Ttl (dyndns.New zoneName name rrdatas ttl rrsType) = 60) := by
  refine ⟨?_, ?_, ?_, ?_⟩
  · intro v hv hpos
    have : ¬ v < 0 := by omega
    simp [dyndns.Ttl, hv, this]
  · rintro (h | ⟨v, hv, hneg⟩)
    · simp [dyndns.Ttl, h]
    · simp [dyndns.Ttl, hv, hneg]
  · intro h
    have : ¬ ttl < 0 := by omega
    rw [dyndns_Ttl_New zoneName name rrdatas ttl rrsType hlo hhi, if_neg this]
  · intro h
    rw [dyndns_Ttl_New zoneName name rrdatas ttl rrsType hlo hhi, if_pos h]

/-- Witness of C22: the record set of TestInvalidTTL, made with the TTL -5. -/
theorem dyndns_Ttl_coercion_witness :
    dyndns.Ttl (dyndns.New "example.com" "test.example.com" ["10.10.10.10"] (-5) "A") = 60 :=
  (dyndns_Ttl_coercion (dyndns.New "example.com" "test.example.com" ["10.10.10.10"] (-5) "A")
    "example.com" "test.example.com" ["10.10.10.10"] (-5) "A" (by decide) (by decide)).2.2.2
    (by decide)

/-- Counterexample to C23: over the empty store of the stub, the changeset that adds the
record set www and then removes the record set gone, which is not stored, returns the
error of the removal, and the store holds the record of www afterwards. -/
theorem dyndns_Apply_error_keeps_earlier_changes :
    dyndns.Apply stubs.DynDNSAPIStub "example.com" []
        [Change.add (dyndns.New "example.com" "www.example.com" ["10.10.10.10"] 180 "A"),
         Change.remove (dyndns.New "example.com" "gone.example.com" ["10.10.10.11"] 180 "A")] =
      (some ("Couldn't delete record gone with value 10.10.10.11: " ++
          "Attempt to delete non-existent record gone"),
       [("www-180-A-10.10.10.10",
         godynect.Record.mk "" "example.com" "www" "10.10.10.10" "A" "www.example.com" "180")]) ∧
    [("www-180-A-10.10.10.10",
       godynect.Record.mk "" "example.com" "www" "10.10.10.10" "A" "www.example.com" "180")] ≠
      ([] : stubs.Store) := by
  decide

/-- C23, as amended: when Apply over the stub returns an error, the calls that the changeset
stands for (one creation or deletion for each record of each queued record set, in queue
order) split into the calls done, the failing call and the calls left: the store after
Apply is the store that the calls done, all successful, lead to from the store before,
the failing call fails on it, and no later call is made. -/
theorem dyndns_Apply_error_keeps_done_calls (zoneName : String) (st st2 : stubs.Store)
    (cs : List (Change dyndns.ResourceRecordSet)) (e : String)
    (h : dyndns.Apply stubs.DynDNSAPIStub zoneName st cs = (some e, st2)) :
    ∃ done failed rest, dyndns.recordCalls zoneName cs = done ++ failed :: rest ∧
      stubs.run st done = some st2 ∧ stubs.run st2 [failed] = none :=
  (dyndns_Apply_run zoneName cs st).2 e st2 h

/-- Witness of C23: the changeset of the counterexample; the creation is done, the deletion
fails. -/
theorem dyndns_Apply_error_keeps_done_calls_witness :
    ∃ done failed rest,
      dyndns.recordCalls "example.com"
          [Change.add (dyndns.New "example.com" "www.example.com" ["10.10.10.10"] 180 "A"),
           Change.remove (dyndns.New "example.com" "gone.example.com" ["10.10.10.11"] 180 "A")] =
        done ++ failed :: rest ∧
      stubs.run [] done =
        some [("www-180-A-10.10.10.10",
          godynect.Record.mk "" "example.com" "www" "10.10.10.10" "A" "www.example.com" "180")] ∧
      stubs.run [("www-180-A-10.10.10.10",
          godynect.Record.mk "" "example.com" "www" "10.10.10.10" "A" "www.example.com" "180")]
        [failed] = none :=
  dyndns_Apply_error_keeps_done_calls "example.com" []
    [("www-180-A-10.10.10.10",
      godynect.Record.mk "" "example.com" "www" "10.10.10.10" "A" "www.example.com" "180")]
    [Change.add (dyndns.New "example.com" "www.example.com" ["10.10.10.10"] 180 "A"),
     Change.remove (dyndns.New "example.com" "gone.example.com" ["10.10.10.11"] 180 "A")]
    ("Couldn't delete record gone with value 10.10.10.11: " ++
      "Attempt to delete non-existent record gone")
    (by decide)

/-- Counterexample to C24: the record set of the tests, with two addresses, is added to the
empty store of the stub. Apply returns nil and stores one record for each address; Get
for the name of the record set returns two record sets with one address each, and each of
them lacks an address of the record set added. -/
theorem dyndns_Get_splits_added_record_set :
    dyndns.Apply stubs.DynDNSAPIStub "example.com" []
        [Change.add (dyndns.New "example.com" "www11.example.com"
          ["10.10.10.10", "169.20.20.20"] 180 "A")] =
      (none,
       [("www11-180-A-10.10.10.10", godynect.Record.mk "" "example.com" "www11" "10.10.10.10" "A"
          "www11.example.com" "180"),
        ("www11-180-A-169.20.20.20", godynect.Record.mk "" "example.com" "www11" "169.20.20.20"
          "A" "www11.example.com" "180")]) ∧
    dyndns.Get stubs.DynDNSAPIStub "example.com"
        [("www11-180-A-10.10.10.10", godynect.Record.mk "" "example.com" "www11" "10.10.10.10" "A"
          "www11.example.com" "180"),
         ("www11-180-A-169.20.20.20", godynect.Record.mk "" "example.com" "www11" "169.20.20.20"
          "A" "www11.example.com" "180")]
        (dyndns.Name (dyndns.New "example.com" "www11.example.com"
          ["10.10.10.10", "169.20.20.20"] 180 "A")) =
      .ok [dyndns.ResourceRecordSet.mk (godynect.Record.mk "" "example.com" "www11"
             "10.10.10.10" "A" "www11.example.com" "180") false,
           dyndns.ResourceRecordSet.mk (godynect.Record.mk "" "example.com" "www11"
             "169.20.20.20" "A" "www11.example.com" "180") false] ∧
    dyndns.Rrdatas (dyndns.New "example.com" "www11.example.com"
        ["10.10.10.10", "169.20.20.20"] 180 "A") = ["10.10.10.10", "169.20.20.20"] ∧
    ∀ r ∈ [dyndns.ResourceRecordSet.mk (godynect.Record.mk "" "example.com" "www11"
             "10.10.10.10" "A" "www11.example.com" "180") false,
           dyndns.ResourceRecordSet.mk (godynect.Record.mk "" "example.com" "www11"
             "169.20.20.20" "A" "www11.example.com" "180") false],
      (dyndns.Rrdatas r).length = 1 ∧
        ∃ d ∈ ["10.10.10.10", "169.20.20.20"], d ∉ dyndns.Rrdatas r := by
  refine ⟨by decide, rfl, by decide, by decide⟩

/-- C24, as amended: over the stub, whose store keeps every record under its hash key, let
`rs` be made by New with a name that Get looks up unchanged. After Add(rs).Apply()
returns nil, Get(rs.Name()) returns a list that holds, for every data entry of `rs`, a
record set with the name, type and TTL of `rs` and that entry as its only data: a record
set with the data of `rs` itself when `rs` has one data entry. After a following
Remove(rs).Apply() returns nil, the store equals its state before the addition and Get
returns no record of `rs`. -/
theorem dyndns_add_visible_remove_gone (zoneName name : String) (rrdatas : List String)
    (ttl : Int) (rrsType : RrsType) (rs : dyndns.ResourceRecordSet) (st st1 : stubs.Store)
    (hnew : rs = dyndns.New zoneName name rrdatas ttl rrsType)
    (hname : (dyndns.populateRecordWithName (dyndns.Name rs)
      { godynect.newRecord with Zone := zoneName }).Name = dyndns.Name rs)
    (hkeyed : ∀ entry ∈ st, entry.1 = stubs.hashKey entry.2)
    (hadd : dyndns.Apply stubs.DynDNSAPIStub zoneName st [Change.add rs] = (none, st1)) :
    (∃ l, dyndns.Get stubs.DynDNSAPIStub zoneName st1 (dyndns.Name rs) = .ok l ∧
      (∀ d ∈ dyndns.Rrdatas rs, ∃ r ∈ l, dyndns.Name r = dyndns.Name rs ∧
        dyndns.recordType r = dyndns.recordType rs ∧ dyndns.Ttl r = dyndns.Ttl rs ∧
        dyndns.Rrdatas r = [d]) ∧
      ((dyndns.Rrdatas rs).length = 1 → ∃ r ∈ l, dyndns.Name r = dyndns.Name rs ∧
        dyndns.recordType r = dyndns.recordType rs ∧ dyndns.Ttl r = dyndns.Ttl rs ∧
        dyndns.Rrdatas r = dyndns.Rrdatas rs)) ∧
    (∀ st2, dyndns.Apply stubs.DynDNSAPIStub zoneName st1 [Change.remove rs] = (none, st2) →
      st2 = st ∧
      ∃ l2, dyndns.Get stubs.DynDNSAPIStub zoneName st2 (dyndns.Name rs) = .ok l2 ∧
        ∀ r ∈ l2, r.impl ∉ dyndns.GetRecordsFromDNSRRS zoneName rs) := by
  have hp : rs.isPointer = true := by rw [hnew]; rfl
  have hrun := (dyndns_Apply_run zoneName [Change.add rs] st).1 st1 hadd
  simp only [dyndns.recordCalls, List.append_nil] at hrun
  obtain ⟨hst1, hfresh⟩ := stubs_run_create_all _ st st1 hrun
  have hvis : ∀ d ∈ dyndns.Rrdatas rs, ∃ r ∈ ((st1.map Prod.snd).filter
      (fun rec => decide (rec.Name = (dyndns.populateRecordWithName (dyndns.Name rs)
        { godynect.newRecord with Zone := zoneName }).Name))).map
        (fun rec => dyndns.ResourceRecordSet.mk rec false),
      dyndns.Name r = dyndns.Name rs ∧ dyndns.recordType r = dyndns.recordType rs ∧
        dyndns.Ttl r = dyndns.Ttl rs ∧ dyndns.Rrdatas r = [d] := by
    intro d hd
    obtain ⟨rec, hrec, h1, h2, h3, h4⟩ := dyndns_records_of_pointer zoneName rs hp hname d hd
    refine ⟨dyndns.ResourceRecordSet.mk rec false, ?_, h1, h2, h3, h4⟩
    rw [List.mem_map]
    refine ⟨rec, ?_, rfl⟩
    rw [List.mem_filter]
    refine ⟨?_, by simp [h1, hname]⟩
    rw [hst1]
    simp only [List.map_append, List.map_map, List.mem_append, List.mem_map, Function.comp]
    exact Or.inr ⟨rec, hrec, rfl⟩
  refine ⟨⟨_, dyndns_Get_stub zoneName st1 (dyndns.Name rs), hvis, ?_⟩, ?_⟩
  · intro hlen
    obtain ⟨d, hd⟩ := List.length_eq_one.mp hlen
    obtain ⟨r, hr, h1, h2, h3, h4⟩ := hvis d (by rw [hd]; exact List.mem_singleton_self _)
    exact ⟨r, hr, h1, h2, h3, by rw [h4, hd]⟩
  · intro st2 hrem
    have hrun2 := (dyndns_Apply_run zoneName [Change.remove rs] st1).1 st2 hrem
    simp only [dyndns.recordCalls, List.append_nil] at hrun2
    have hst2 : st2 = st := by
      rw [stubs_run_delete_all _ st1 st2 hrun2, hst1]
      exact stubs_add_then_delete _ st hfresh
    refine ⟨hst2, _, dyndns_Get_stub zoneName st2 (dyndns.Name rs), ?_⟩
    intro r hr hmem
    rw [List.mem_map] at hr
    obtain ⟨rec, hrec, rfl⟩ := hr
    rw [List.mem_filter, hst2, List.mem_map] at hrec
    obtain ⟨⟨entry, hentry, rfl⟩, -⟩ := hrec
    apply hfresh entry.2 hmem
    rw [← hkeyed entry hentry]
    exact List.mem_map_of_mem Prod.fst hentry

/-- Witness of C24: the record set of the tests over the empty store. -/
theorem dyndns_add_visible_remove_gone_witness :
    (∃ l, dyndns.Get stubs.DynDNSAPIStub "example.com"
        (dyndns.Apply stubs.DynDNSAPIStub "example.com" []
          [Change.add (getExampleRrs "example.com")]).2
        (dyndns.Name (getExampleRrs "example.com")) = .ok l ∧
      (∀ d ∈ dyndns.Rrdatas (getExampleRrs "example.com"), ∃ r ∈ l,
        dyndns.Name r = dyndns.Name (getExampleRrs "example.com") ∧
        dyndns.recordType r = dyndns.recordType (getExampleRrs "example.com") ∧
        dyndns.Ttl r = dyndns.Ttl (getExampleRrs "example.com") ∧
        dyndns.Rrdatas r = [d]) ∧
      ((dyndns.Rrdatas (getExampleRrs "example.com")).length = 1 → ∃ r ∈ l,
        dyndns.Name r = dyndns.Name (getExampleRrs "example.com") ∧
        dyndns.recordType r = dyndns.recordType (getExampleRrs "example.com") ∧
        dyndns.Ttl r = dyndns.Ttl (getExampleRrs "example.com") ∧
        dyndns.Rrdatas r = dyndns.Rrdatas (getExampleRrs "example.com"))) ∧
    (∀ st2, dyndns.Apply stubs.DynDNSAPIStub "example.com"
        (dyndns.Apply stubs.DynDNSAPIStub "example.com" []
          [Change.add (getExampleRrs "example.com")]).2
        [Change.remove (getExampleRrs "example.com")] = (none, st2) →
      st2 = [] ∧
      ∃ l2, dyndns.Get stubs.DynDNSAPIStub "example.com" st2
          (dyndns.Name (getExampleRrs "example.com")) = .ok l2 ∧
        ∀ r ∈ l2, r.impl ∉ dyndns.GetRecordsFromDNSRRS "example.com"
          (getExampleRrs "example.com")) :=
  dyndns_add_visible_remove_gone "example.com" "www11.example.com"
    ["10.10.10.10", "169.20.20.20"] 180 "A" (getExampleRrs "example.com") []
    (dyndns.Apply stubs.DynDNSAPIStub "example.com" []
      [Change.add (getExampleRrs "example.com")]).2
    (by decide) (by decide) (by decide) (by decide)

/-- C25: duplicate addition and removal of a missing record set fail. Over the stub, for
every record set `rs`: when the records of `rs` are in the store, the changeset that adds
`rs` returns an error; so does adding `rs` again right after a changeset that added it
returned nil; and when no record of `rs` is in the store, the changeset that removes `rs`
returns an error. The store is left as it was. -/
theorem dyndns_duplicate_add_and_missing_remove_fail (zoneName : String) (st : stubs.Store)
    (rs : dyndns.ResourceRecordSet) :
    ((∀ rec ∈ dyndns.GetRecordsFromDNSRRS zoneName rs, stubs.hashKey rec ∈ st.map Prod.fst) →
      ∃ e, dyndns.Apply stubs.DynDNSAPIStub zoneName st [Change.add rs] = (some e, st)) ∧
    (∀ st1, dyndns.Apply stubs.DynDNSAPIStub zoneName st [Change.add rs] = (none, st1) →
      ∃ e, dyndns.Apply stubs.DynDNSAPIStub zoneName st1 [Change.add rs] = (some e, st1)) ∧
    ((∀ rec ∈ dyndns.GetRecordsFromDNSRRS zoneName rs, stubs.hashKey rec ∉ st.map Prod.fst) →
      ∃ e, dyndns.Apply stubs.DynDNSAPIStub zoneName st [Change.remove rs] = (some e, st)) := by
  refine ⟨dyndns_add_present_fails zoneName st rs, ?_, dyndns_remove_absent_fails zoneName st rs⟩
  intro st1 hadd
  have hrun := (dyndns_Apply_run zoneName [Change.add rs] st).1 st1 hadd
  simp only [dyndns.recordCalls, List.append_nil] at hrun
  obtain ⟨hst1, -⟩ := stubs_run_create_all _ st st1 hrun
  apply dyndns_add_present_fails
  intro rec hrec
  rw [hst1]
  simp only [List.map_append, List.map_map, List.mem_append, List.mem_map, Function.comp]
  exact Or.inr ⟨rec, hrec, rfl⟩

/-- C26: record URL parsing. For a type T, zone Z, name F and id I without a slash,
RecordFromURL of /REST/ T Record/ Z / F / I returns the record with Type T, Zone Z, FQDN F
and ID I, its other fields empty; and RecordFromURL returns nil for every URL that does
not split at the slashes into exactly six parts. -/
theorem RecordFromURL_parts (T Z F I : String)
    (hT : '/' ∉ T.data) (hZ : '/' ∉ Z.data) (hF : '/' ∉ F.data) (hI : '/' ∉ I.data) :
    dynect.RecordFromURL ("/REST/" ++ T ++ "Record/" ++ Z ++ "/" ++ F ++ "/" ++ I) =
      some (godynect.Record.mk I Z "" "" T F "") ∧
    ∀ url : String, (stringsSplit url '/').length ≠ 6 → dynect.RecordFromURL url = none := by
  constructor
  · have h1 : "/REST/".data = [] ++ '/' :: ("REST".data ++ ['/']) := rfl
    have h2 : "Record/".data = "Record".data ++ ['/'] := rfl
    have h3 : "/".data = ['/'] := rfl
    have hdata : ("/REST/" ++ T ++ "Record/" ++ Z ++ "/" ++ F ++ "/" ++ I).data =
        [] ++ '/' :: ("REST".data ++ '/' :: ((T ++ "Record").data ++ '/' ::
          (Z.data ++ '/' :: (F.data ++ '/' :: I.data)))) := by
      simp only [String.data_append, h1, h2, h3, List.append_assoc, List.cons_append,
        List.nil_append, List.singleton_append]
    have hR : '/' ∉ "REST".data := by decide
    have hTR : '/' ∉ (T ++ "Record").data := by
      rw [String.data_append, List.mem_append]
      rintro (h | h)
      · exact hT h
      · revert h
        decide
    have hsplit : stringsSplit ("/REST/" ++ T ++ "Record/" ++ Z ++ "/" ++ F ++ "/" ++ I) '/' =
        ["", "REST", T ++ "Record", Z, F, I] := by
      unfold stringsSplit
      rw [hdata, stringsSplit_chars_append _ _ _ (List.not_mem_nil _),
        stringsSplit_chars_append _ _ _ hR, stringsSplit_chars_append _ _ _ hTR,
        stringsSplit_chars_append _ _ _ hZ, stringsSplit_chars_append _ _ _ hF,
        stringsSplit_chars_no_sep _ _ hI]
      rfl
    unfold dynect.RecordFromURL
    simp only [hsplit]
    simp [stringsTrimSuffix_append, godynect.newRecord]
  · intro url h
    unfold dynect.RecordFromURL
    simp [h]

/-- Witness of C26: the URL of TestRecordFromURL. -/
theorem RecordFromURL_parts_witness :
    dynect.RecordFromURL
        ("/REST/" ++ "A" ++ "Record/" ++ "example.com" ++ "/" ++ "test.example.com" ++ "/" ++
          "test-60-A-10.26.10.6") =
      some (godynect.Record.mk "test-60-A-10.26.10.6" "example.com" "" "" "A"
        "test.example.com" "") :=
  (RecordFromURL_parts "A" "example.com" "test.example.com" "test-60-A-10.26.10.6"
    (by decide) (by decide) (by decide) (by decide)).1

/-- C28, the code at the failing input: over the stub with a journal of its calls, for
whatever the library equivalence test answers, EnsureDNSRrsets for www.example.com with
two literal addresses creates two records on the first run; the second run, with the same
arguments on the store the first one left, returns nil after deleting both records and
creating them again. -/
theorem EnsureDNSRrsets_dyndns_second_run_mutates
    (equivalent : dyndns.ResourceRecordSet → dyndns.ResourceRecordSet → Bool) :
    EnsureDNSRrsets (dyndns.controller equivalent)
        (dyndns.zone (stubs.journalled stubs.DynDNSAPIStub) "example.com") ([], [])
        "www.example.com" ["198.51.100.1", "198.51.100.2"] "up.example.com" =
      (none,
       ([("www-180-A-198.51.100.1", godynect.Record.mk "" "example.com" "www" "198.51.100.1" "A"
           "www.example.com" "180"),
         ("www-180-A-198.51.100.2", godynect.Record.mk "" "example.com" "www" "198.51.100.2" "A"
           "www.example.com" "180")],
        [stubs.Call.create (godynect.Record.mk "" "example.com" "www" "198.51.100.1" "A"
           "www.example.com" "180"),
         stubs.Call.create (godynect.Record.mk "" "example.com" "www" "198.51.100.2" "A"
           "www.example.com" "180")])) ∧
    EnsureDNSRrsets (dyndns.controller equivalent)
        (dyndns.zone (stubs.journalled stubs.DynDNSAPIStub) "example.com")
        ([("www-180-A-198.51.100.1", godynect.Record.mk "" "example.com" "www" "198.51.100.1" "A"
            "www.example.com" "180"),
          ("www-180-A-198.51.100.2", godynect.Record.mk "" "example.com" "www" "198.51.100.2" "A"
            "www.example.com" "180")], [])
        "www.example.com" ["198.51.100.1", "198.51.100.2"] "up.example.com" =
      (none,
       ([("www-180-A-198.51.100.1", godynect.Record.mk "" "example.com" "www" "198.51.100.1" "A"
           "www.example.com" "180"),
         ("www-180-A-198.51.100.2", godynect.Record.mk "" "example.com" "www" "198.51.100.2" "A"
           "www.example.com" "180")],
        [stubs.Call.delete (godynect.Record.mk "" "example.com" "www" "198.51.100.1" "A"
           "www.example.com" "180"),
         stubs.Call.delete (godynect.Record.mk "" "example.com" "www" "198.51.100.2" "A"
           "www.example.com" "180"),
         stubs.Call.create (godynect.Record.mk "" "example.com" "www" "198.51.100.1" "A"
           "www.example.com" "180"),
         stubs.Call.create (godynect.Record.mk "" "example.com" "www" "198.51.100.2" "A"
           "www.example.com" "180")])) := by
  constructor
  · rfl
  · rfl

/-- C29: lower levels are contained in the global level. When getHealthyEndpoints returns
without error, every address of the zone-level list and every address of the region-level
list is in the global-level list, so an empty global-level list comes with empty
zone-level and region-level lists. -/
theorem getHealthyEndpoints_lower_within_global {σ ρ : Type} (idc : IngressDNSController σ ρ)
    (clusterName : String) (ingress : Ingress) (ze re ge : List String)
    (h : getHealthyEndpoints idc clusterName ingress = .ok (ze, re, ge)) :
    (∀ x ∈ ze, x ∈ ge) ∧ (∀ x ∈ re, x ∈ ge) ∧ (ge = [] → ze = [] ∧ re = []) := by
  have hw : lowerWithinGlobal (ze, re, ge) := by
    unfold getHealthyEndpoints at h
    split at h
    · cases h
    · split at h
      · simp only [Outcome.ok.injEq, Prod.mk.injEq] at h
        obtain ⟨h1, h2, h3⟩ := h
        subst h1 h2 h3
        exact ⟨fun x hx => hx, fun x hx => (by cases hx)⟩
      · split at h
        · cases h
        · cases h
        · simp only at h
          split at h
          · cases h
          · rename_i acc hacc
            simp only [Outcome.ok.injEq] at h
            subst h
            exact clusterLoop_within idc _ _ _ _ _ _
              ⟨fun x hx => (by cases hx), fun x hx => (by cases hx)⟩ hacc
  refine ⟨hw.1, hw.2, ?_⟩
  intro hge
  subst hge
  constructor
  · exact List.eq_nil_iff_forall_not_mem.mpr (fun x hx => by cases hw.1 x hx)
  · exact List.eq_nil_iff_forall_not_mem.mpr (fun x hx => by cases hw.2 x hx)

/-- Witness of C29: two clusters that share a zone name in two regions. -/
theorem getHealthyEndpoints_lower_within_global_witness :
    getHealthyEndpoints (memIngressController sharedZoneClusters (fun _ => (twoClusterStatus, none)))
        "c1" (scenarioIngress "global-lb-status") =
      .ok (["198.51.100.1", "198.51.100.2"], ["198.51.100.1"],
        ["198.51.100.1", "198.51.100.2"]) ∧
    (∀ x ∈ ["198.51.100.1", "198.51.100.2"], x ∈ ["198.51.100.1", "198.51.100.2"]) ∧
    (∀ x ∈ ["198.51.100.1"], x ∈ ["198.51.100.1", "198.51.100.2"]) :=
  ⟨by decide,
   (getHealthyEndpoints_lower_within_global
      (memIngressController sharedZoneClusters (fun _ => (twoClusterStatus, none)))
      "c1" (scenarioIngress "global-lb-status")
      ["198.51.100.1", "198.51.100.2"] ["198.51.100.1"] ["198.51.100.1", "198.51.100.2"]
      (by decide)).1,
   (getHealthyEndpoints_lower_within_global
      (memIngressController sharedZoneClusters (fun _ => (twoClusterStatus, none)))
      "c1" (scenarioIngress "global-lb-status")
      ["198.51.100.1", "198.51.100.2"] ["198.51.100.1"] ["198.51.100.1", "198.51.100.2"]
      (by decide)).2.1⟩

/-- C30, the code at the failing input: the lookup of cluster c1 succeeds with an empty,
non-nil list of zone names. ensureDNSRecords passes the nil test, computes the endpoints
and panics reading the first zone name. For c2, whose list is nil, it returns the error.
Neither call changes the store. -/
theorem ensureDNSRecords_empty_zone_list_panics :
    getClusterZoneNames (memIngressController emptyZoneClusters (fun _ => (twoClusterStatus, none)))
        "c1" = .ok (some [], "r") ∧
    ensureDNSRecords (memIngressController emptyZoneClusters (fun _ => (twoClusterStatus, none)))
        [] "c1" (scenarioIngress "global-lb-status") =
      (.panic "index out of range [0] with length 0", []) ∧
    ensureDNSRecords (memIngressController emptyZoneClusters (fun _ => (twoClusterStatus, none)))
        [] "c2" (scenarioIngress "global-lb-status") =
      (.err "failed to get cluster zone names", []) := by
  refine ⟨rfl, by decide, by decide⟩

end FedIngress
